import Mathlib

/-!
# Field layout and point evaluation of ASPECT

A shallow embedding of `source/simulator/introspection.cc`,
`source/solution_evaluator.cc` and the hash of
`source/initial_temperature/random_perturbation.cc`.

Modelling conventions.

* `unsigned int` counters and indices are natural numbers.  Every counter of the
  layout code counts components or blocks, one per declared field, and stays far
  below `2^32` (a configuration declares a handful of composition fields).  The
  two places where the width of `unsigned int` is visible are explicit: the
  sentinel `numbers::invalid_unsigned_int` is the number `4294967295`, and the
  subtraction `stokes_velocity_degree-1` wraps around at degree `0`.
* A plain `unsigned int` member that has not been assigned holds an indeterminate
  value; it is modelled as `none`.  What such an object holds in memory, given
  what its storage held before, is `ComponentIndices.stored` and
  `BlockIndices.stored`.
* Failures are values of `Exc`.  `Assert` is active only in debug-instrumented
  builds (the flag `debug`), `AssertThrow` always.  An access the C++ standard
  leaves undefined (reading an indeterminate value, subscripting out of range,
  dereferencing a null pointer) is the failure `Exc.Undefined`, so a result
  `.ok` is always a defined execution.
* A `for (i=0; i<n; ++i)` loop is a fold over `List.range n`.
* A function that acts only through calls on deal.II objects (`reinit`) returns
  the list of these calls, in the order in which they are made.
* A deal.II flag set is the record of the bits that the sources name.
-/

namespace aspect

/-- The failures of the embedded code: the deal.II exception classes that the
sources raise, and `Undefined` for an access with undefined behaviour. -/
inductive Exc where
  | ExcInternalError
  | ExcNotImplemented
  | ExcMessage (msg : String)
  | ExcIndexRange (index range : Nat)
  | ExcDimensionMismatch (a b : Nat)
  | Undefined
deriving DecidableEq

/-- The constant `dealii::numbers::invalid_unsigned_int`, that is
`static_cast<unsigned int>(-1)`. -/
def invalid_unsigned_int : Nat := 4294967295

/-! ## introspection.cc -/

/-- Modelled from the spec: `Introspection<dim>::ComponentIndices`, declared in
`aspect/introspection.h`, which is not among the sources.  One flat index per
scalar unknown; the members are those that `setup_component_indices` assigns.
The two arrays have `dim` entries. -/
structure ComponentIndices where
  velocities : List (Option Nat)
  pressure : Option Nat
  fluid_velocities : List (Option Nat)
  fluid_pressure : Option Nat
  compaction_pressure : Option Nat
  temperature : Option Nat
  compositional_fields : List Nat
deriving DecidableEq

/-- Modelled from the spec: `Introspection<dim>::BlockIndices`, declared in
`aspect/introspection.h`, which is not among the sources.  The members are those
that `setup_blocks` assigns. -/
structure BlockIndices where
  velocities : Option Nat
  pressure : Option Nat
  fluid_velocities : Option Nat
  fluid_pressure : Option Nat
  compaction_pressure : Option Nat
  temperature : Option Nat
  compositional_fields : List Nat
deriving DecidableEq

/-- The loop `for (i=0; i<n; ++i) a[i] = comp++;` on an array `a` and the
running counter `comp`; returns the array and the counter after the loop. -/
def assign_consecutive (n : Nat) (a : List (Option Nat)) (comp : Nat) :
    List (Option Nat) × Nat :=
  (List.range n).foldl (fun s i => (s.1.set i (some s.2), s.2 + 1)) (a, comp)

/-- The loop `for (i=0; i<n; ++i) v.push_back(comp++);` on a vector `v` and the
running counter `comp`; returns the vector and the counter after the loop. -/
def push_consecutive (n : Nat) (v : List Nat) (comp : Nat) : List Nat × Nat :=
  (List.range n).foldl (fun s _ => (s.1 ++ [s.2], s.2 + 1)) (v, comp)

/-- A default-initialised `ComponentIndices ci;`: nothing assigned, the vector
empty. -/
def ComponentIndices.uninitialized (dim : Nat) : ComponentIndices :=
  { velocities := List.replicate dim none
    pressure := none
    fluid_velocities := List.replicate dim none
    fluid_pressure := none
    compaction_pressure := none
    temperature := none
    compositional_fields := [] }

/-- A default-initialised `BlockIndices b;`. -/
def BlockIndices.uninitialized : BlockIndices :=
  { velocities := none
    pressure := none
    fluid_velocities := none
    fluid_pressure := none
    compaction_pressure := none
    temperature := none
    compositional_fields := [] }

/-- The part of `setup_component_indices` inside `if (include_melt_variables)`:
fluid pressure, compaction pressure, then the `dim` fluid velocities. -/
def setup_component_indices_melt (dim : Nat) (ci : ComponentIndices) (comp : Nat) :
    ComponentIndices × Nat :=
  let ci1 := { ci with fluid_pressure := some comp }
  let comp1 := comp + 1
  let ci2 := { ci1 with compaction_pressure := some comp1 }
  let comp2 := comp1 + 1
  let fv := assign_consecutive dim ci2.fluid_velocities comp2
  ({ ci2 with fluid_velocities := fv.1 }, fv.2)

/-- Function `internal::setup_component_indices<dim>`: returns `n_components`
and the filled `ComponentIndices`. -/
def setup_component_indices (dim n_compositional_fields : Nat)
    (include_melt_variables : Bool) : Nat × ComponentIndices :=
  let ci := ComponentIndices.uninitialized dim
  let comp := 0
  let v := assign_consecutive dim ci.velocities comp
  let ci1 := { ci with velocities := v.1 }
  let comp1 := v.2
  let m := if include_melt_variables then setup_component_indices_melt dim ci1 comp1
           else (ci1, comp1)
  let ci2 := m.1
  let comp2 := m.2
  let ci3 := { ci2 with pressure := some comp2 }
  let comp3 := comp2 + 1
  let ci4 := { ci3 with temperature := some comp3 }
  let comp4 := comp3 + 1
  let c := push_consecutive n_compositional_fields ci4.compositional_fields comp4
  (c.2, { ci4 with compositional_fields := c.1 })

/-- The two branches of `if (include_melt_variables)` in `setup_blocks`. -/
def setup_blocks_stokes (b : BlockIndices) (block split : Nat)
    (include_melt_variables : Bool) : BlockIndices × Nat :=
  if include_melt_variables then
    let b1 := { b with velocities := some block }
    let block1 := block + split
    let b2 := { b1 with fluid_pressure := some block1 }
    let b3 := { b2 with compaction_pressure := some block1 }
    let block2 := block1 + 1
    let b4 := { b3 with fluid_velocities := some block2 }
    let block3 := block2 + 1
    (b4, block3)
  else
    let b1 := { b with velocities := some block }
    let block1 := block + split
    (b1, block1)

/-- Function `internal::setup_blocks<dim>`: returns `n_blocks` and the filled
`BlockIndices`. -/
def setup_blocks (n_compositional_fields : Nat) (include_melt_variables : Bool)
    (use_direct_solver : Bool) : Nat × BlockIndices :=
  let b := BlockIndices.uninitialized
  let split := if use_direct_solver then 0 else 1
  let block := 0
  let m := setup_blocks_stokes b block split include_melt_variables
  let b1 := m.1
  let block1 := m.2
  let b2 := { b1 with pressure := some block1 }
  let block2 := block1 + 1
  let b3 := { b2 with temperature := some block2 }
  let block3 := block2 + 1
  let c := push_consecutive n_compositional_fields b3.compositional_fields block3
  (c.2, { b3 with compositional_fields := c.1 })

/-- The indices that a `ComponentIndices` has assigned, in the order of
`setup_component_indices`: an unassigned member contributes nothing. -/
def ComponentIndices.assigned (ci : ComponentIndices) : List Nat :=
  ci.velocities.reduceOption ++ ci.fluid_pressure.toList ++ ci.compaction_pressure.toList
    ++ ci.fluid_velocities.reduceOption ++ ci.pressure.toList ++ ci.temperature.toList
    ++ ci.compositional_fields

/-- A value that the C++ code reads: an indeterminate value, an entry past
the end of a container or the target of a null pointer is `none`, and reading it
is undefined. -/
def defined {β : Type} : Option β → Except Exc β
  | some x => pure x
  | none => throw Exc.Undefined

/-- The assignment `v[index] = value;` on a container `v`; undefined when `index`
is not below `v.size()`. -/
def write {β : Type} (v : List β) (index : Nat) (value : β) : Except Exc (List β) :=
  if index < v.length then pure (v.set index value) else throw Exc.Undefined

/-- A finite element of the base-element catalog: `new FE_Q<dim>(degree)` or
`new FE_DGP<dim>(degree)`. -/
inductive FiniteElement where
  | FE_Q (degree : Nat)
  | FE_DGP (degree : Nat)
deriving DecidableEq

/-- Modelled from the spec: `Introspection<dim>::BaseElements`, declared in
`aspect/introspection.h`, which is not among the sources.  The members are those
that `setup_fes` assigns. -/
structure BaseElements where
  velocities : Option Nat
  pressure : Option Nat
  fluid_velocities : Option Nat
  fluid_pressure : Option Nat
  compaction_pressure : Option Nat
  temperature : Option Nat
  compositional_fields : Option Nat
deriving DecidableEq

/-- Modelled from the spec: the members of `Parameters<dim>` (declared in
`aspect/parameters.h`, which is not among the sources) that
`introspection.cc` and `solution_evaluator.cc` read. -/
structure Parameters where
  names_of_compositional_fields : List String
  n_compositional_fields : Nat
  include_melt_transport : Bool
  use_direct_stokes_solver : Bool
  use_locally_conservative_discretization : Bool
  stokes_velocity_degree : Nat
  temperature_degree : Nat
  composition_degree : Nat

/-- The expression `parameters.stokes_velocity_degree-1` on `unsigned int`. -/
def degree_minus_one (degree : Nat) : Nat := (degree + 4294967295) % 4294967296

/-- The pressure-like element that `setup_fes` pushes for p, p_f and p_c. -/
def pressure_element (parameters : Parameters) : FiniteElement :=
  if parameters.use_locally_conservative_discretization then
    FiniteElement.FE_DGP (degree_minus_one parameters.stokes_velocity_degree)
  else
    FiniteElement.FE_Q (degree_minus_one parameters.stokes_velocity_degree)

/-- Function `internal::setup_fes<dim>`: the base-element structure, the finite
elements and their multiplicities.  The two closing `Assert`s are checked when
`debug` is set. -/
def setup_fes (dim : Nat) (parameters : Parameters) (debug : Bool) :
    Except Exc (BaseElements × List FiniteElement × List Nat) :=
  let bes : BaseElements :=
    { velocities := none, pressure := none, fluid_velocities := none,
      fluid_pressure := none, compaction_pressure := none, temperature := none,
      compositional_fields := none }
  let fes : List FiniteElement := []
  let multiplicities : List Nat := []
  let base_element := 0
  let m : BaseElements × List FiniteElement × List Nat × Nat :=
    if parameters.include_melt_transport then
      -- u
      let fes1 := fes ++ [FiniteElement.FE_Q parameters.stokes_velocity_degree]
      let mult1 := multiplicities ++ [dim]
      let bes1 := { bes with velocities := some base_element }
      let be1 := base_element + 1
      -- p_f
      let fes2 := fes1 ++ [pressure_element parameters]
      let mult2 := mult1 ++ [1]
      let bes2 := { bes1 with fluid_pressure := some be1 }
      let be2 := be1 + 1
      -- p_c
      let fes3 := fes2 ++ [pressure_element parameters]
      let mult3 := mult2 ++ [1]
      let bes3 := { bes2 with compaction_pressure := some be2 }
      let be3 := be2 + 1
      -- u_f
      let fes4 := fes3 ++ [FiniteElement.FE_Q parameters.stokes_velocity_degree]
      let mult4 := mult3 ++ [dim]
      let bes4 := { bes3 with fluid_velocities := some be3 }
      let be4 := be3 + 1
      (bes4, fes4, mult4, be4)
    else
      -- u
      let fes1 := fes ++ [FiniteElement.FE_Q parameters.stokes_velocity_degree]
      let mult1 := multiplicities ++ [dim]
      let bes1 := { bes with velocities := some base_element }
      let be1 := base_element + 1
      (bes1, fes1, mult1, be1)
  -- p
  let fes5 := m.2.1 ++ [pressure_element parameters]
  let mult5 := m.2.2.1 ++ [1]
  let bes5 := { m.1 with pressure := some m.2.2.2 }
  let be5 := m.2.2.2 + 1
  -- T
  let fes6 := fes5 ++ [FiniteElement.FE_Q parameters.temperature_degree]
  let mult6 := mult5 ++ [1]
  let bes6 := { bes5 with temperature := some be5 }
  let be6 := be5 + 1
  -- compositions
  let fes7 := fes6 ++ [FiniteElement.FE_Q parameters.composition_degree]
  let mult7 := mult6 ++ [parameters.n_compositional_fields]
  let bes7 := { bes6 with compositional_fields := some be6 }
  let be7 := be6 + 1
  if debug && (be7 != fes7.length) then throw Exc.ExcInternalError
  else if debug && (be7 != mult7.length) then throw Exc.ExcInternalError
  else pure (bes7, fes7, mult7)

/-- The members of `Introspection<dim>` that the constructor in
`introspection.cc` computes and the member functions read.  The `extractors` and
`system_dofs_per_block` members hold deal.II objects and per-block sizes that no
function of the file reads; they are left out. -/
structure Introspection where
  n_components : Nat
  component_indices : ComponentIndices
  n_blocks : Nat
  block_indices : BlockIndices
  base_elements : BaseElements
  composition_names : List String
  fes : List FiniteElement
  multiplicities : List Nat
  components_to_blocks : List Nat

/-- The statement `components_to_blocks[component] = block;` of the constructor,
where both sides are members of the index structures. -/
def assign_block (components_to_blocks : List Nat) (component block : Option Nat) :
    Except Exc (List Nat) := do
  let c ← defined component
  let b ← defined block
  write components_to_blocks c b

/-- The `#ifdef DEBUG` loop of the constructor: every component has a block. -/
def check_all_assigned (n_components : Nat) (components_to_blocks : List Nat) :
    Except Exc Unit :=
  (List.range n_components).forM (fun c => do
    let b ← defined components_to_blocks[c]?
    if b = invalid_unsigned_int then throw Exc.ExcInternalError else pure ())

/-- The block "components_to_blocks" of the constructor: the vector resized to
`n_components` sentinels and then filled from the two index structures. -/
def fill_components_to_blocks (dim : Nat) (parameters : Parameters) (n_components : Nat)
    (component_indices : ComponentIndices) (block_indices : BlockIndices) :
    Except Exc (List Nat) := do
  let t0 := List.replicate n_components invalid_unsigned_int
  let t1 ← (List.range dim).foldlM (fun t d =>
    assign_block t component_indices.velocities[d]?.join block_indices.velocities) t0
  let t2 ← assign_block t1 component_indices.pressure block_indices.pressure
  let t3 ← assign_block t2 component_indices.temperature block_indices.temperature
  let t4 ← (List.range parameters.n_compositional_fields).foldlM (fun t c =>
    assign_block t component_indices.compositional_fields[c]?
      block_indices.compositional_fields[c]?) t3
  if parameters.include_melt_transport then do
    let u1 ← (List.range dim).foldlM (fun t d =>
      assign_block t component_indices.fluid_velocities[d]?.join
        block_indices.fluid_velocities) t4
    let u2 ← assign_block u1 component_indices.fluid_pressure block_indices.fluid_pressure
    assign_block u2 component_indices.compaction_pressure block_indices.compaction_pressure
  else pure t4

/-- The constructor `Introspection<dim>::Introspection (parameters)`.  (Lean
resolves a member named like its structure in place of the structure, hence the
name `construct`.) -/
def Introspection.construct (dim : Nat) (parameters : Parameters) (debug : Bool) :
    Except Exc Introspection := do
  let n_components := (setup_component_indices dim
    parameters.names_of_compositional_fields.length parameters.include_melt_transport).1
  let component_indices := (setup_component_indices dim
    parameters.names_of_compositional_fields.length parameters.include_melt_transport).2
  let n_blocks := (setup_blocks parameters.names_of_compositional_fields.length
    parameters.include_melt_transport parameters.use_direct_stokes_solver).1
  let block_indices := (setup_blocks parameters.names_of_compositional_fields.length
    parameters.include_melt_transport parameters.use_direct_stokes_solver).2
  let base_elements := (← setup_fes dim parameters debug).1
  let composition_names := parameters.names_of_compositional_fields
  let fes := (← setup_fes dim parameters debug).2.1
  let multiplicities := (← setup_fes dim parameters debug).2.2
  let components_to_blocks ←
    fill_components_to_blocks dim parameters n_components component_indices block_indices
  if debug then check_all_assigned n_components components_to_blocks
  pure { n_components := n_components
         component_indices := component_indices
         n_blocks := n_blocks
         block_indices := block_indices
         base_elements := base_elements
         composition_names := composition_names
         fes := fes
         multiplicities := multiplicities
         components_to_blocks := components_to_blocks }

/-- The block index that component `i` belongs to, in closed form: `s` is the
split factor, `0` for a direct solver and `1` otherwise.  Used to state what the
constructor stores in `components_to_blocks`. -/
def block_of_component (dim : Nat) (melt direct : Bool) (i : Nat) : Nat :=
  let s := if direct then 0 else 1
  if i < dim then 0
  else if melt then
    (if i < dim + 2 then s else if i < 2 * dim + 2 then s + 1 else s + 2 + (i - (2 * dim + 2)))
  else s + (i - dim)

/-- The call `std::find(v.begin(), v.end(), name) - v.begin()`: the position of
the first entry equal to `name`, or `v.size()` when there is none. -/
def std_find : List String → String → Nat
  | [], _ => 0
  | x :: xs, name => if x = name then 0 else std_find xs name + 1

/-- Member `Introspection<dim>::compositional_index_for_name`. -/
def Introspection.compositional_index_for_name (self : Introspection) (name : String) :
    Except Exc Nat :=
  let it := std_find self.composition_names name
  if it = self.composition_names.length then
    throw (Exc.ExcMessage ("The compositional field " ++ name ++
      " you asked for is not used in the simulation."))
  else
    pure it

/-- Member `Introspection<dim>::name_for_compositional_index`; the
`AssertIndexRange` is checked when `debug` is set. -/
def Introspection.name_for_compositional_index (self : Introspection) (debug : Bool)
    (index : Nat) : Except Exc String :=
  if debug && !(decide (index < self.composition_names.length)) then
    throw (Exc.ExcIndexRange index self.composition_names.length)
  else
    defined self.composition_names[index]?

/-- Member `Introspection<dim>::compositional_name_exists`. -/
def Introspection.compositional_name_exists (self : Introspection) (name : String) : Bool :=
  if std_find self.composition_names name != self.composition_names.length then true
  else false

/-! ## solution_evaluator.cc -/

/-- Modelled from the spec: the deal.II class `FEPointEvaluation<n_components,dim>`,
the geometry/basis backend, which the sources use as a black box.  The record
keeps what the sources pass to its constructor and the results of its last
`evaluate`: `own_mapping_flags` is `none` for an evaluator built on the shared
`MappingInfo` (the fast path) and `some update_flags` for one built on the mapping
itself (the general path, rebound by its own `reinit`); `values p c` is component
`c` of the value at evaluation point `p` (component `0` for a scalar evaluator),
`gradients p c` the gradient of that component; both are `none` until an
`evaluate` has produced them. -/
structure FEPointEvaluation (α : Type) where
  n_components : Nat
  first_selected_component : Nat
  own_mapping_flags : Option Nat
  values : Option (Nat → Nat → α)
  gradients : Option (Nat → Nat → List α)

/-- The constructor `FEPointEvaluation(mapping_info, fe, first_selected_component)`. -/
def FEPointEvaluation.on_mapping_info {α : Type} (n_components first_selected_component : Nat) :
    FEPointEvaluation α :=
  { n_components := n_components
    first_selected_component := first_selected_component
    own_mapping_flags := none
    values := none
    gradients := none }

/-- The constructor
`FEPointEvaluation(mapping, fe, update_flags, first_selected_component)`. -/
def FEPointEvaluation.on_mapping {α : Type} (n_components update_flags
    first_selected_component : Nat) : FEPointEvaluation α :=
  { n_components := n_components
    first_selected_component := first_selected_component
    own_mapping_flags := some update_flags
    values := none
    gradients := none }

/-- Member `FEPointEvaluation::get_value(evaluation_point)`, as the map from a
component to its value; undefined before values have been evaluated. -/
def FEPointEvaluation.get_value {α : Type} (self : FEPointEvaluation α)
    (evaluation_point : Nat) : Except Exc (Nat → α) := do
  let v ← defined self.values
  pure (v evaluation_point)

/-- Class `internal::DynamicFEPointEvaluation<dim>` with the `evaluation` member
of its only implementation `DynamicFEPointEvaluationImpl<dim,n_components>`. -/
structure DynamicFEPointEvaluation (α : Type) where
  first_component : Nat
  n_components : Nat
  evaluation : FEPointEvaluation α

/-- The constructor `DynamicFEPointEvaluationImpl<dim,n_components>(mapping, fe,
first_selected_component)`; `n_components` is the template argument. -/
def DynamicFEPointEvaluationImpl {α : Type} (n_components first_selected_component : Nat) :
    DynamicFEPointEvaluation α :=
  { first_component := first_selected_component
    n_components := n_components
    evaluation := FEPointEvaluation.on_mapping_info n_components first_selected_component }

/-- Member `DynamicFEPointEvaluationImpl::get_value(evaluation_point, solution)`
writing into a caller buffer: the `ArrayView` is the window of `size` entries of
`buffer` that starts at `start`. -/
def DynamicFEPointEvaluation.get_value {α : Type} (self : DynamicFEPointEvaluation α)
    (debug : Bool) (evaluation_point : Nat) (buffer : List α) (start size : Nat) :
    Except Exc (List α) := do
  if debug && (size != self.n_components) then
    throw (Exc.ExcMessage
      "The size of the solution vector does not match the number of components.")
  let x ← self.evaluation.get_value evaluation_point
  (List.range self.n_components).foldlM (fun s c => write s (start + c) (x c)) buffer

/-- Function `internal::make<dim>`: the evaluator for `n_fields` components, a
null pointer (`none`) in the default case.  The arguments `mapping` and `fe` are
handles that are only passed on to deal.II. -/
def make {α : Type} (debug : Bool) (first_selected_component : Nat) (n_fields : Int) :
    Except Exc (Option (DynamicFEPointEvaluation α)) :=
  match n_fields with
  | 1 => pure (some (DynamicFEPointEvaluationImpl 1 first_selected_component))
  | 2 => pure (some (DynamicFEPointEvaluationImpl 2 first_selected_component))
  | 3 => pure (some (DynamicFEPointEvaluationImpl 3 first_selected_component))
  | 4 => pure (some (DynamicFEPointEvaluationImpl 4 first_selected_component))
  | 5 => pure (some (DynamicFEPointEvaluationImpl 5 first_selected_component))
  | 6 => pure (some (DynamicFEPointEvaluationImpl 6 first_selected_component))
  | 7 => pure (some (DynamicFEPointEvaluationImpl 7 first_selected_component))
  | 8 => pure (some (DynamicFEPointEvaluationImpl 8 first_selected_component))
  | 9 => pure (some (DynamicFEPointEvaluationImpl 9 first_selected_component))
  | 10 => pure (some (DynamicFEPointEvaluationImpl 10 first_selected_component))
  | _ => if debug then throw Exc.ExcNotImplemented else pure none

/-- Modelled from the spec: what `solution_evaluator.cc` reads through
`SimulatorAccess<dim>` (declared in `aspect/simulator_access.h`, which is not
among the sources): the dimension, `introspection()`, `get_parameters()`, the
melt parameter `use_discontinuous_p_c`, and the two members
`get_composition_base_element_indices()` and
`get_compositional_field_indices_with_base_element(i)` of the introspection
object, which `introspection.cc` does not define: the base elements used by
composition fields and, for each, the indices of the fields that use it. -/
structure SimulatorAccess where
  dim : Nat
  introspection : Introspection
  parameters : Parameters
  use_discontinuous_p_c : Bool
  composition_base_element_indices : List Nat
  compositional_field_indices_with_base_element : Nat → List Nat

/-- Member `SimulatorAccess::include_melt_transport()`. -/
def SimulatorAccess.include_melt_transport (self : SimulatorAccess) : Bool :=
  self.parameters.include_melt_transport

/-- Modelled from the spec: `introspection().variable(name).first_component_index`,
which `introspection.cc` does not define: the first component index of the named
melt variable. -/
def Introspection.variable_first_component_index (self : Introspection) (name : String) :
    Option Nat :=
  if name = "fluid velocity" then self.component_indices.fluid_velocities[0]?.join
  else if name = "fluid pressure" then self.component_indices.fluid_pressure
  else if name = "compaction pressure" then self.component_indices.compaction_pressure
  else none

/-- The members of `SolutionEvaluatorImplementation<dim>`; a `std::unique_ptr` is
an `Option`, `none` being the null pointer.  The shared `mapping_info` is a
deal.II object that the members below only refer to. -/
structure SolutionEvaluatorImplementation (α : Type) where
  velocity : FEPointEvaluation α
  pressure : Option (FEPointEvaluation α)
  temperature : FEPointEvaluation α
  compositions : List (Option (DynamicFEPointEvaluation α))
  fluid_velocity : Option (FEPointEvaluation α)
  compaction_pressure : Option (FEPointEvaluation α)
  fluid_pressure : Option (FEPointEvaluation α)
  melt_component_indices : Nat × Nat × Nat
  simulator_access : SimulatorAccess

/-- The constant `const unsigned int N = 10;` of the constructor. -/
def N : Nat := 10

/-- The loop `while (indices.size()>N)` of the constructor: one evaluator for the
first `N` entries of `indices`, which are then erased.  The recursion is on a
bound for `indices.size()`; at bound `0` the vector is empty, so the loop
condition is false and the loop is left. -/
def chunk_while {α : Type} (debug : Bool) (component_indices : List Nat) :
    Nat → List Nat → List (Option (DynamicFEPointEvaluation α)) →
    Except Exc (List Nat × List (Option (DynamicFEPointEvaluation α)))
  | 0, indices, compositions => pure (indices, compositions)
  | bound + 1, indices, compositions =>
    if indices.length > N then do
      let field ← defined indices[0]?
      let first ← defined component_indices[field]?
      let e ← make debug first N
      chunk_while debug component_indices bound (indices.drop N) (compositions ++ [e])
    else
      pure (indices, compositions)

/-- The body of the loop over the base elements of the constructor, for the
fields `indices` of one base element: the `while` loop and the final
`emplace_back`. -/
def add_group_evaluators {α : Type} (debug : Bool) (component_indices : List Nat)
    (indices : List Nat) (compositions : List (Option (DynamicFEPointEvaluation α))) :
    Except Exc (List (Option (DynamicFEPointEvaluation α))) := do
  let r ← chunk_while debug component_indices indices.length indices compositions
  let field ← defined r.1[0]?
  let first ← defined component_indices[field]?
  let e ← make debug first r.1.length
  pure (r.2 ++ [e])

/-- The block "Create the evaluators for all compositional fields" of the
constructor. -/
def create_composition_evaluators {α : Type} (debug : Bool) (simulator : SimulatorAccess) :
    Except Exc (List (Option (DynamicFEPointEvaluation α))) :=
  simulator.composition_base_element_indices.foldlM (fun compositions base_element_index =>
    add_group_evaluators debug simulator.introspection.component_indices.compositional_fields
      (simulator.compositional_field_indices_with_base_element base_element_index)
      compositions) []

/-- The constructor
`SolutionEvaluatorImplementation<dim>::SolutionEvaluatorImplementation(simulator, update_flags)`. -/
def SolutionEvaluatorImplementation.construct {α : Type} (debug : Bool)
    (simulator : SimulatorAccess) (update_flags : Nat) :
    Except Exc (SolutionEvaluatorImplementation α) := do
  let ci := simulator.introspection.component_indices
  let velocity : FEPointEvaluation α :=
    FEPointEvaluation.on_mapping_info simulator.dim (← defined ci.velocities[0]?.join)
  let pressure0 : FEPointEvaluation α :=
    FEPointEvaluation.on_mapping_info 1 (← defined ci.pressure)
  let temperature : FEPointEvaluation α :=
    FEPointEvaluation.on_mapping_info 1 (← defined ci.temperature)
  let compositions ← create_composition_evaluators debug simulator
  let pressure ←
    if simulator.parameters.use_locally_conservative_discretization then
      pure (FEPointEvaluation.on_mapping 1 update_flags (← defined ci.pressure))
    else pure pressure0
  if simulator.include_melt_transport then
    let m0 ← defined (simulator.introspection.variable_first_component_index "fluid velocity")
    let m1 ← defined (simulator.introspection.variable_first_component_index "fluid pressure")
    let m2 ← defined
      (simulator.introspection.variable_first_component_index "compaction pressure")
    let fluid_velocity : FEPointEvaluation α :=
      FEPointEvaluation.on_mapping_info simulator.dim m0
    let fluid_pressure : FEPointEvaluation α :=
      if simulator.parameters.use_locally_conservative_discretization = false then
        FEPointEvaluation.on_mapping_info 1 m1
      else FEPointEvaluation.on_mapping 1 update_flags m1
    let compaction_pressure : FEPointEvaluation α :=
      if simulator.use_discontinuous_p_c = false then
        FEPointEvaluation.on_mapping_info 1 m2
      else FEPointEvaluation.on_mapping 1 update_flags m2
    pure { velocity := velocity
           pressure := some pressure
           temperature := temperature
           compositions := compositions
           fluid_velocity := some fluid_velocity
           compaction_pressure := some compaction_pressure
           fluid_pressure := some fluid_pressure
           melt_component_indices := (m0, m1, m2)
           simulator_access := simulator }
  else
    pure { velocity := velocity
           pressure := some pressure
           temperature := temperature
           compositions := compositions
           fluid_velocity := none
           compaction_pressure := none
           fluid_pressure := none
           melt_component_indices := (0, 0, 0)
           simulator_access := simulator }

/-- The melt part of `get_solution`, the body of
`if (simulator_access.include_melt_transport())`. -/
def SolutionEvaluatorImplementation.get_solution_melt {α : Type}
    (self : SolutionEvaluatorImplementation α) (evaluation_point : Nat) (solution : List α) :
    Except Exc (List α) := do
  let fluid_velocity_value ← self.velocity.get_value evaluation_point
  let s1 ← (List.range self.simulator_access.dim).foldlM (fun s j =>
    write s (self.melt_component_indices.1 + j) (fluid_velocity_value j)) solution
  let fluid_pressure ← defined self.fluid_pressure
  let s2 ← write s1 self.melt_component_indices.2.1
    ((← fluid_pressure.get_value evaluation_point) 0)
  let compaction_pressure ← defined self.compaction_pressure
  write s2 self.melt_component_indices.2.2
    ((← compaction_pressure.get_value evaluation_point) 0)

/-- Member `SolutionEvaluatorImplementation<dim>::get_solution(evaluation_point,
solution)`: the buffer `solution` after the call. -/
def SolutionEvaluatorImplementation.get_solution {α : Type}
    (self : SolutionEvaluatorImplementation α) (debug : Bool) (evaluation_point : Nat)
    (solution : List α) : Except Exc (List α) := do
  let introspection := self.simulator_access.introspection
  if debug && (solution.length != introspection.n_components) then
    throw (Exc.ExcDimensionMismatch solution.length introspection.n_components)
  let component_indices := introspection.component_indices
  let velocity_value ← self.velocity.get_value evaluation_point
  let s1 ← (List.range self.simulator_access.dim).foldlM (fun s j => do
    write s (← defined component_indices.velocities[j]?.join) (velocity_value j)) solution
  let pressure ← defined self.pressure
  let s2 ← write s1 (← defined component_indices.pressure)
    ((← pressure.get_value evaluation_point) 0)
  let s3 ← write s2 (← defined component_indices.temperature)
    ((← self.temperature.get_value evaluation_point) 0)
  let s4 ← self.compositions.foldlM (fun s evaluator_ptr => do
    let evaluator ← defined evaluator_ptr
    let start_index := evaluator.first_component
    let n_components := evaluator.n_components
    evaluator.get_value debug evaluation_point s start_index n_components) s3
  if self.simulator_access.include_melt_transport then
    self.get_solution_melt evaluation_point s4
  else
    pure s4

/-- Member `FEPointEvaluation::get_gradient(evaluation_point)`, as the map from a
component to its gradient; undefined before gradients have been evaluated. -/
def FEPointEvaluation.get_gradient {α : Type} (self : FEPointEvaluation α)
    (evaluation_point : Nat) : Except Exc (Nat → List α) := do
  let g ← defined self.gradients
  pure (g evaluation_point)

/-- Member `DynamicFEPointEvaluationImpl::get_gradient(evaluation_point, gradients)`
writing into a caller buffer: the `ArrayView` is the window of `size` entries of
`buffer` that starts at `start`. -/
def DynamicFEPointEvaluation.get_gradient {α : Type} (self : DynamicFEPointEvaluation α)
    (debug : Bool) (evaluation_point : Nat) (buffer : List (List α)) (start size : Nat) :
    Except Exc (List (List α)) := do
  if debug && (size != self.n_components) then
    throw (Exc.ExcMessage
      "The size of the gradient vector does not match the number of components.")
  let x ← self.evaluation.get_gradient evaluation_point
  (List.range self.n_components).foldlM (fun s c => write s (start + c) (x c)) buffer

/-- The melt part of `get_gradients`, the body of
`if (simulator_access.include_melt_transport())`. -/
def SolutionEvaluatorImplementation.get_gradients_melt {α : Type}
    (self : SolutionEvaluatorImplementation α) (evaluation_point : Nat)
    (gradients : List (List α)) : Except Exc (List (List α)) := do
  let fluid_velocity_gradient ← self.velocity.get_gradient evaluation_point
  let s1 ← (List.range self.simulator_access.dim).foldlM (fun s j =>
    write s (self.melt_component_indices.1 + j) (fluid_velocity_gradient j)) gradients
  let fluid_pressure ← defined self.fluid_pressure
  let s2 ← write s1 self.melt_component_indices.2.1
    ((← fluid_pressure.get_gradient evaluation_point) 0)
  let compaction_pressure ← defined self.compaction_pressure
  write s2 self.melt_component_indices.2.2
    ((← compaction_pressure.get_gradient evaluation_point) 0)

/-- Member `SolutionEvaluatorImplementation<dim>::get_gradients(evaluation_point,
gradients)`: the buffer `gradients` after the call. -/
def SolutionEvaluatorImplementation.get_gradients {α : Type}
    (self : SolutionEvaluatorImplementation α) (debug : Bool) (evaluation_point : Nat)
    (gradients : List (List α)) : Except Exc (List (List α)) := do
  let introspection := self.simulator_access.introspection
  if debug && (gradients.length != introspection.n_components) then
    throw (Exc.ExcDimensionMismatch gradients.length introspection.n_components)
  let component_indices := introspection.component_indices
  let velocity_gradient ← self.velocity.get_gradient evaluation_point
  let s1 ← (List.range self.simulator_access.dim).foldlM (fun s j => do
    write s (← defined component_indices.velocities[j]?.join) (velocity_gradient j)) gradients
  let pressure ← defined self.pressure
  let s2 ← write s1 (← defined component_indices.pressure)
    ((← pressure.get_gradient evaluation_point) 0)
  let s3 ← write s2 (← defined component_indices.temperature)
    ((← self.temperature.get_gradient evaluation_point) 0)
  let s4 ← self.compositions.foldlM (fun s evaluator_ptr => do
    let evaluator ← defined evaluator_ptr
    let start_index := evaluator.first_component
    let n_components := evaluator.n_components
    evaluator.get_gradient debug evaluation_point s start_index n_components) s3
  if self.simulator_access.include_melt_transport then
    self.get_gradients_melt evaluation_point s4
  else
    pure s4

/-! ## The gradient data of an evaluator, seen as values -/

/-- The sub-evaluator that holds, as its values, the gradients of `e`: the value of
component `c` at point `p` is the gradient of component `c` of `e` at `p`. -/
def FEPointEvaluation.gradient_view {α : Type} (e : FEPointEvaluation α) :
    FEPointEvaluation (List α) :=
  { n_components := e.n_components
    first_selected_component := e.first_selected_component
    own_mapping_flags := e.own_mapping_flags
    values := e.gradients
    gradients := none }

/-- The chunk evaluator that holds, as its values, the gradients of `e`. -/
def DynamicFEPointEvaluation.gradient_view {α : Type} (e : DynamicFEPointEvaluation α) :
    DynamicFEPointEvaluation (List α) :=
  { first_component := e.first_component
    n_components := e.n_components
    evaluation := e.evaluation.gradient_view }

/-- The evaluator state in which every sub-evaluator holds, as its values, the
gradients it holds in `self`; everything else is as in `self`.  Calling
`get_solution` on it is the specification of `get_gradients`: each slot receives,
from the same sub-evaluator and the same sub-component, the gradient in the place
of the value. -/
def SolutionEvaluatorImplementation.gradient_view {α : Type}
    (self : SolutionEvaluatorImplementation α) : SolutionEvaluatorImplementation (List α) :=
  { velocity := self.velocity.gradient_view
    pressure := self.pressure.map FEPointEvaluation.gradient_view
    temperature := self.temperature.gradient_view
    compositions := self.compositions.map (Option.map DynamicFEPointEvaluation.gradient_view)
    fluid_velocity := self.fluid_velocity.map FEPointEvaluation.gradient_view
    compaction_pressure := self.compaction_pressure.map FEPointEvaluation.gradient_view
    fluid_pressure := self.fluid_pressure.map FEPointEvaluation.gradient_view
    melt_component_indices := self.melt_component_indices
    simulator_access := self.simulator_access }

/-! ## Notions used to state the properties of the composition chunks -/

/-- The chunk that an evaluator records: its first component and its width. -/
def DynamicFEPointEvaluation.chunk {α : Type} (e : DynamicFEPointEvaluation α) : Nat × Nat :=
  (e.first_component, e.n_components)

/-- Component `c` lies in the half-open range `[first, first + width)` of a chunk. -/
def in_chunk (c : Nat) (chunk : Nat × Nat) : Bool :=
  decide (chunk.1 ≤ c) && decide (c < chunk.1 + chunk.2)

/-- The chunks are, in order, adjacent non-empty half-open ranges, the first
starting at `a` and the last ending at `b`. -/
def tiles : List (Nat × Nat) → Nat → Nat → Prop
  | [], a, b => a = b
  | chunk :: rest, a, b => chunk.1 = a ∧ 0 < chunk.2 ∧ tiles rest (a + chunk.2) b

/-- The groups partition the composition fields `0, ..., n_c-1` into non-empty runs
of consecutive field indices: every group is such a run, and every field lies in
exactly one group. -/
def partition_into_runs (groups : List (List Nat)) (n_c : Nat) : Prop :=
  (∀ g ∈ groups, ∃ s n, 1 ≤ n ∧ s + n ≤ n_c ∧ g = List.range' s n)
    ∧ (∀ f, f < n_c → (groups.filter (fun g => decide (f ∈ g))).length = 1)

/-- The `j`-th evaluator that the constructor builds for the group `indices`, in
closed form: the `while` loop runs `(n-1)/10` times for `n` fields, each pass
building an evaluator of width 10, and the final `emplace_back` builds one for the
fields that are left. -/
def group_evaluator {α : Type} (component_indices indices : List Nat) (j : Nat) :
    DynamicFEPointEvaluation α :=
  DynamicFEPointEvaluationImpl
    (if j < (indices.length - 1) / 10 then 10
     else indices.length - 10 * ((indices.length - 1) / 10))
    (component_indices.getD (indices.getD (10 * j) 0) 0)

/-! ## Evaluator states of a configuration that hold values -/

/-- The evaluator state `self` belongs to the configuration `(d, n_c, melt)` and
holds values: its simulator has the layout of `setup_component_indices`; its
composition evaluators are `comps`, none null, each a non-empty chunk of
components of composition fields, no component lying in two chunks (what the
constructor builds for groups that partition the fields into runs of consecutive
fields); with melt, the cached melt component indices are those of the three
melt variables and the melt pressure evaluators exist; and every sub-evaluator
that `get_solution` reads holds the values of an `evaluate`. -/
structure evaluated_state {α : Type} (self : SolutionEvaluatorImplementation α)
    (d n_c : Nat) (melt : Bool) (comps : List (DynamicFEPointEvaluation α)) : Prop where
  dim_eq : self.simulator_access.dim = d
  melt_eq : self.simulator_access.include_melt_transport = melt
  n_components_eq : self.simulator_access.introspection.n_components
    = (setup_component_indices d n_c melt).1
  component_indices_eq : self.simulator_access.introspection.component_indices
    = (setup_component_indices d n_c melt).2
  compositions_eq : self.compositions = comps.map some
  chunks_nonempty : ∀ e ∈ comps, 0 < e.n_components
  chunks_in_compositions : ∀ e ∈ comps, ∀ c, in_chunk c e.chunk = true →
    c ∈ (setup_component_indices d n_c melt).2.compositional_fields
  chunks_disjoint : ∀ c, (comps.filter (fun e => in_chunk c e.chunk)).length ≤ 1
  melt_indices : melt = true →
    self.simulator_access.introspection.variable_first_component_index "fluid velocity"
        = some self.melt_component_indices.1
      ∧ self.simulator_access.introspection.variable_first_component_index "fluid pressure"
        = some self.melt_component_indices.2.1
      ∧ self.simulator_access.introspection.variable_first_component_index
          "compaction pressure" = some self.melt_component_indices.2.2
  velocity_values : self.velocity.values.isSome = true
  pressure_values : (self.pressure.bind (fun e => e.values)).isSome = true
  temperature_values : self.temperature.values.isSome = true
  composition_values : ∀ e ∈ comps, e.evaluation.values.isSome = true
  melt_values : melt = true →
    (self.fluid_pressure.bind (fun e => e.values)).isSome = true
      ∧ (self.compaction_pressure.bind (fun e => e.values)).isSome = true

/-! ## A melt configuration on which `get_solution` is evaluated -/

/-- The parameters `d = 2`, no composition, melt transport, iterative solver. -/
def melt_parameters : Parameters :=
  { names_of_compositional_fields := []
    n_compositional_fields := 0
    include_melt_transport := true
    use_direct_stokes_solver := false
    use_locally_conservative_discretization := false
    stokes_velocity_degree := 2
    temperature_degree := 2
    composition_degree := 2 }

/-- The Introspection object that the constructor builds from `melt_parameters`
in dimension 2 (see `melt_introspection_constructed`): 8 components, velocity 0
and 1, fluid pressure 2, compaction pressure 3, fluid velocity 4 and 5, pressure
6, temperature 7. -/
def melt_introspection : Introspection :=
  { n_components := 8
    component_indices := (setup_component_indices 2 0 true).2
    n_blocks := 5
    block_indices := (setup_blocks 0 true false).2
    base_elements :=
      { velocities := some 0, pressure := some 4, fluid_velocities := some 3,
        fluid_pressure := some 1, compaction_pressure := some 2, temperature := some 5,
        compositional_fields := some 6 }
    composition_names := []
    fes := [FiniteElement.FE_Q 2, FiniteElement.FE_Q 1, FiniteElement.FE_Q 1,
            FiniteElement.FE_Q 2, FiniteElement.FE_Q 1, FiniteElement.FE_Q 2,
            FiniteElement.FE_Q 2]
    multiplicities := [2, 1, 1, 2, 1, 1, 0]
    components_to_blocks := [0, 0, 1, 1, 2, 2, 3, 4] }

/-- The simulator of the melt configuration. -/
def melt_simulator : SimulatorAccess :=
  { dim := 2
    introspection := melt_introspection
    parameters := melt_parameters
    use_discontinuous_p_c := false
    composition_base_element_indices := []
    compositional_field_indices_with_base_element := fun _ => [] }

/-- An evaluator built on the shared mapping info whose last `evaluate` produced
the values `values` at every evaluation point. -/
def evaluated (n_components first_selected_component : Nat) (values : List Nat) :
    FEPointEvaluation Nat :=
  { n_components := n_components
    first_selected_component := first_selected_component
    own_mapping_flags := none
    values := some (fun _ c => values.getD c 0)
    gradients := none }

/-- The evaluator that the constructor builds for `melt_simulator`, after an
evaluation in which the velocity is `(1, 2)`, the pressure `3`, the temperature
`4`, the fluid velocity `(5, 6)`, the fluid pressure `7` and the compaction
pressure `8`. -/
def melt_evaluator : SolutionEvaluatorImplementation Nat :=
  { velocity := evaluated 2 0 [1, 2]
    pressure := some (evaluated 1 6 [3])
    temperature := evaluated 1 7 [4]
    compositions := []
    fluid_velocity := some (evaluated 2 4 [5, 6])
    compaction_pressure := some (evaluated 1 3 [8])
    fluid_pressure := some (evaluated 1 2 [7])
    melt_component_indices := (4, 2, 3)
    simulator_access := melt_simulator }

/-! ## A melt configuration with one composition field -/

/-- The parameters `d = 2`, one composition field `c`, melt transport, iterative
solver. -/
def melt_composition_parameters : Parameters :=
  { melt_parameters with
    names_of_compositional_fields := ["c"]
    n_compositional_fields := 1 }

/-- The Introspection object that the constructor builds from
`melt_composition_parameters` in dimension 2: 9 components, the composition field
being component 8. -/
def melt_composition_introspection : Introspection :=
  { n_components := 9
    component_indices := (setup_component_indices 2 1 true).2
    n_blocks := 6
    block_indices := (setup_blocks 1 true false).2
    base_elements := melt_introspection.base_elements
    composition_names := ["c"]
    fes := melt_introspection.fes
    multiplicities := [2, 1, 1, 2, 1, 1, 1]
    components_to_blocks := [0, 0, 1, 1, 2, 2, 3, 4, 5] }

/-- The simulator of that configuration: the composition field 0 is the only
field of base element 6. -/
def melt_composition_simulator : SimulatorAccess :=
  { dim := 2
    introspection := melt_composition_introspection
    parameters := melt_composition_parameters
    use_discontinuous_p_c := false
    composition_base_element_indices := [6]
    compositional_field_indices_with_base_element := fun _ => [0] }

/-- The composition chunk of that configuration, component 8 with width 1, after
an evaluation in which the composition is `9`. -/
def composition_chunk : DynamicFEPointEvaluation Nat :=
  { first_component := 8
    n_components := 1
    evaluation := evaluated 1 8 [9] }

/-- The evaluator of that configuration after an evaluation: the values of
`melt_evaluator` and the composition `9`. -/
def melt_composition_evaluator : SolutionEvaluatorImplementation Nat :=
  { melt_evaluator with
    compositions := [some composition_chunk]
    simulator_access := melt_composition_simulator }

/-! ## The overloads of the chunk evaluators that return their result -/

/-- Member `DynamicFEPointEvaluationImpl::get_value(evaluation_point)`, the overload
that returns a `small_vector<double>`: the vector `result` of `n_components`
entries, entry `c` being assigned `x[c]`. -/
def DynamicFEPointEvaluation.get_value_small_vector {α : Type}
    (self : DynamicFEPointEvaluation α) (evaluation_point : Nat) : Except Exc (List α) := do
  let x ← self.evaluation.get_value evaluation_point
  pure ((List.range self.n_components).map (fun c => x c))

/-- Member `DynamicFEPointEvaluationImpl::get_gradient(evaluation_point)`, the
overload that returns a `small_vector<Tensor<1,dim>>`. -/
def DynamicFEPointEvaluation.get_gradient_small_vector {α : Type}
    (self : DynamicFEPointEvaluation α) (evaluation_point : Nat) :
    Except Exc (List (List α)) := do
  let x ← self.evaluation.get_gradient evaluation_point
  pure ((List.range self.n_components).map (fun c => x c))

/-! ## `reinit` -/

/-- Modelled from the spec: a value of the deal.II bit set `UpdateFlags`.  The
sources name two of its bits, `update_values` and `update_gradients`; `others`
tells whether any other bit is set.  So `update_flags & update_values` is the
field `update_values`, and `update_flags & ~(update_gradients | update_values)`
is zero exactly when `others` is false. -/
structure UpdateFlags where
  update_values : Bool
  update_gradients : Bool
  others : Bool

/-- Modelled from the spec: a value of the deal.II bit set
`EvaluationFlags::EvaluationFlags`, of which the sources use the bits `values` and
`gradients`. -/
structure EvaluationFlags where
  values : Bool
  gradients : Bool
deriving DecidableEq

/-- The constant `EvaluationFlags::nothing`. -/
def EvaluationFlags.nothing : EvaluationFlags := { values := false, gradients := false }

/-- The operator `|` of `EvaluationFlags`. -/
def EvaluationFlags.or (a b : EvaluationFlags) : EvaluationFlags :=
  { values := a.values || b.values, gradients := a.gradients || b.gradients }

/-- The sub-evaluators that a `SolutionEvaluatorImplementation` owns;
`composition i` is entry `i` of the vector `compositions`. -/
inductive Evaluator where
  | velocity
  | pressure
  | temperature
  | composition (i : Nat)
  | fluid_velocity
  | fluid_pressure
  | compaction_pressure
deriving DecidableEq

/-- A call that `reinit` makes on a deal.II object: `mapping_info.reinit(cell,
positions)` on the shared mapping cache, `reinit(cell, positions)` on one
evaluator, or `evaluate(solution_values, evaluation_flags)` on one evaluator.  A
cell is a handle, a position the list of its coordinates. -/
inductive Call (α : Type) where
  | mapping_info_reinit (cell : Nat) (positions : List (List α))
  | reinit (evaluator : Evaluator) (cell : Nat) (positions : List (List α))
  | evaluate (evaluator : Evaluator) (solution_values : List α)
      (evaluation_flags : EvaluationFlags)

/-- The evaluator that a call rebinds individually, if it is such a call. -/
def Call.rebound {α : Type} : Call α → Option Evaluator
  | Call.reinit evaluator _ _ => some evaluator
  | _ => none

/-- The evaluator that a call evaluates, if it is such a call. -/
def Call.evaluated {α : Type} : Call α → Option Evaluator
  | Call.evaluate evaluator _ _ => some evaluator
  | _ => none

/-- The call rebinds the shared mapping cache. -/
def Call.rebinds_mapping_info {α : Type} : Call α → Bool
  | Call.mapping_info_reinit _ _ => true
  | _ => false

/-- The deal.II evaluation object behind a sub-evaluator, `none` for a null
pointer or an index that `compositions` does not have. -/
def SolutionEvaluatorImplementation.evaluator {α : Type}
    (self : SolutionEvaluatorImplementation α) : Evaluator → Option (FEPointEvaluation α)
  | Evaluator.velocity => some self.velocity
  | Evaluator.pressure => self.pressure
  | Evaluator.temperature => some self.temperature
  | Evaluator.composition i => self.compositions[i]?.join.map (fun e => e.evaluation)
  | Evaluator.fluid_velocity => self.fluid_velocity
  | Evaluator.fluid_pressure => self.fluid_pressure
  | Evaluator.compaction_pressure => self.compaction_pressure

/-- The sub-evaluator was built on the mapping itself, the general path that
rebinds the geometry in its own `reinit`. -/
def SolutionEvaluatorImplementation.general_path {α : Type}
    (self : SolutionEvaluatorImplementation α) (evaluator : Evaluator) : Bool :=
  ((self.evaluator evaluator).bind (fun e => e.own_mapping_flags)).isSome

/-- Member `SolutionEvaluatorImplementation<dim>::reinit(cell, positions,
solution_values, update_flags)`.  The function acts only through calls on deal.II
objects; the model returns these calls in the order in which they are made.  A
call through a null pointer is undefined. -/
def SolutionEvaluatorImplementation.reinit {α : Type}
    (self : SolutionEvaluatorImplementation α) (debug : Bool) (cell : Nat)
    (positions : List (List α)) (solution_values : List α) (update_flags : UpdateFlags) :
    Except Exc (List (Call α)) := do
  let evaluation_flags := EvaluationFlags.nothing
  let evaluation_flags :=
    if update_flags.update_values then
      evaluation_flags.or { values := true, gradients := false }
    else evaluation_flags
  let evaluation_flags :=
    if update_flags.update_gradients then
      evaluation_flags.or { values := false, gradients := true }
    else evaluation_flags
  if debug && !(update_flags.others == false) then
    throw Exc.ExcNotImplemented
  let calls := [Call.mapping_info_reinit cell positions]
  let calls ←
    if self.simulator_access.parameters.use_locally_conservative_discretization == true then do
      let _ ← defined self.pressure
      let calls := calls ++ [Call.reinit Evaluator.pressure cell positions]
      if self.simulator_access.include_melt_transport then do
        let _ ← defined self.fluid_pressure
        pure (calls ++ [Call.reinit Evaluator.fluid_pressure cell positions])
      else pure calls
    else pure calls
  let calls ←
    if self.simulator_access.include_melt_transport
        && self.simulator_access.use_discontinuous_p_c == true then do
      let _ ← defined self.compaction_pressure
      pure (calls ++ [Call.reinit Evaluator.compaction_pressure cell positions])
    else pure calls
  let calls := calls ++ [Call.evaluate Evaluator.velocity solution_values evaluation_flags]
  let _ ← defined self.pressure
  let calls := calls ++ [Call.evaluate Evaluator.pressure solution_values evaluation_flags]
  let calls := calls ++ [Call.evaluate Evaluator.temperature solution_values evaluation_flags]
  let calls ← self.compositions.enum.foldlM (fun calls eval => do
    let _ ← defined eval.2
    pure (calls ++ [Call.evaluate (Evaluator.composition eval.1) solution_values
      evaluation_flags])) calls
  if self.simulator_access.include_melt_transport then do
    let _ ← defined self.fluid_velocity
    let calls := calls ++ [Call.evaluate Evaluator.fluid_velocity solution_values
      evaluation_flags]
    let _ ← defined self.fluid_pressure
    let calls := calls ++ [Call.evaluate Evaluator.fluid_pressure solution_values
      evaluation_flags]
    let _ ← defined self.compaction_pressure
    pure (calls ++ [Call.evaluate Evaluator.compaction_pressure solution_values
      evaluation_flags])
  else pure calls

/-! ## The slots that `get_solution` assigns -/

/-- The slots of the buffer that the assignments of `get_solution` name, in the
order of the statements: `solution[component_indices.velocities[j]]` for
`j < dim`, `solution[component_indices.pressure]`,
`solution[component_indices.temperature]`, the window
`[first_component, first_component + n_components)` of every composition
evaluator, and with melt transport `solution[melt_component_indices[0] + j]` for
`j < dim`, `solution[melt_component_indices[1]]` and
`solution[melt_component_indices[2]]`. -/
def SolutionEvaluatorImplementation.written_slots {α : Type}
    (self : SolutionEvaluatorImplementation α) : List Nat :=
  let component_indices := self.simulator_access.introspection.component_indices
  (List.range self.simulator_access.dim).filterMap
      (fun j => component_indices.velocities[j]?.join)
    ++ component_indices.pressure.toList
    ++ component_indices.temperature.toList
    ++ (self.compositions.reduceOption.map
          (fun e => List.range' e.first_component e.n_components)).flatten
    ++ (if self.simulator_access.include_melt_transport then
          (List.range self.simulator_access.dim).map
              (fun j => self.melt_component_indices.1 + j)
            ++ [self.melt_component_indices.2.1, self.melt_component_indices.2.2]
        else [])

/-! ## random_perturbation.cc -/

/-- Function `point_hash` of `random_perturbation.cc`, for a point given by the
list of its coordinates.  The local `std::size_t hash;` has no initialiser, so it
holds nothing (`none`) until something is stored in it; `boost::hash_combine(hash,
position[i])` reads it and stores the combined hash.  The mixing function of
boost is the parameter `hash_combine`. -/
def point_hash {β : Type} (hash_combine : Nat → β → Nat) (position : List β) :
    Except Exc Nat := do
  let hash : Option Nat := none
  let hash ← position.foldlM (fun hash x => do
    pure (some (hash_combine (← defined hash) x))) hash
  defined hash

/-- Member `RandomPerturbation<dim>::initial_temperature(position)`.  The
parameters are what boost and the C library provide: `hash_combine` for a
coordinate and `hash_combine_int` for an integer, the value `time` of
`time(NULL)`, and `draw seed`, the first number that the uniform distribution on
`[-magnitude, magnitude)` draws from a Mersenne twister created with `seed`. -/
def initial_temperature {β γ : Type} (hash_combine : Nat → β → Nat)
    (hash_combine_int : Nat → Int → Nat) (draw : Nat → γ) (use_random_seed : Bool)
    (time : Int) (position : List β) : Except Exc γ := do
  let seed ← point_hash hash_combine position
  let seed := hash_combine_int seed 0
  let seed := if use_random_seed then hash_combine_int seed time else seed
  pure (draw seed)

/-! ## An evaluated chunk evaluator of two components -/

/-- The evaluator that `make` returns for two components starting at component 0,
after an evaluation that produced the values `(5, 6)` and the gradients
`((1, 0), (0, 1))` at every point. -/
def evaluated_pair : DynamicFEPointEvaluation Nat :=
  { first_component := 0
    n_components := 2
    evaluation :=
      { n_components := 2
        first_selected_component := 0
        own_mapping_flags := none
        values := some (fun _ c => [5, 6].getD c 0)
        gradients := some (fun _ c => [[1, 0], [0, 1]].getD c []) } }

/-! ## A configuration whose same-basis groups are not runs of consecutive fields -/

/-- The parameters `d = 2`, three composition fields `a`, `b`, `c`, no melt
transport, iterative solver. -/
def split_group_parameters : Parameters :=
  { melt_parameters with
    names_of_compositional_fields := ["a", "b", "c"]
    n_compositional_fields := 3
    include_melt_transport := false }

/-- The Introspection object that the constructor builds from
`split_group_parameters` in dimension 2: 7 components, velocity 0 and 1, pressure
2, temperature 3, the composition fields 4, 5 and 6. -/
def split_group_introspection : Introspection :=
  { n_components := 7
    component_indices := (setup_component_indices 2 3 false).2
    n_blocks := 6
    block_indices := (setup_blocks 3 false false).2
    base_elements :=
      { velocities := some 0, pressure := some 1, fluid_velocities := none,
        fluid_pressure := none, compaction_pressure := none, temperature := some 2,
        compositional_fields := some 3 }
    composition_names := ["a", "b", "c"]
    fes := [FiniteElement.FE_Q 2, FiniteElement.FE_Q 1, FiniteElement.FE_Q 2,
            FiniteElement.FE_Q 2]
    multiplicities := [2, 1, 1, 3]
    components_to_blocks := [0, 0, 1, 2, 3, 4, 5] }

/-- The simulator of that configuration, in which the fields 0 and 2 use the base
element 3 and the field 1 uses the base element 4. -/
def split_group_simulator : SimulatorAccess :=
  { dim := 2
    introspection := split_group_introspection
    parameters := split_group_parameters
    use_discontinuous_p_c := false
    composition_base_element_indices := [3, 4]
    compositional_field_indices_with_base_element := fun b => if b = 3 then [0, 2] else [1] }

/-- The evaluator that the constructor builds for `split_group_simulator`, after
an evaluation in which the velocity is `(1, 2)`, the pressure `3`, the
temperature `4` and the components 4, 5 and 6 of the composition fields are `10`,
`11` and `12`: the first chunk evaluator starts at component 4 and has two
components, so it holds `(10, 11)`; the second starts at component 5 and has one
component, so it holds `11`. -/
def split_group_evaluator : SolutionEvaluatorImplementation Nat :=
  { velocity := evaluated 2 0 [1, 2]
    pressure := some (evaluated 1 2 [3])
    temperature := evaluated 1 3 [4]
    compositions :=
      [some { first_component := 4, n_components := 2, evaluation := evaluated 2 4 [10, 11] },
       some { first_component := 5, n_components := 1, evaluation := evaluated 1 5 [11] }]
    fluid_velocity := none
    compaction_pressure := none
    fluid_pressure := none
    melt_component_indices := (0, 0, 0)
    simulator_access := split_group_simulator }

/-! ## A melt configuration whose pressures are on the general path -/

/-- The parameters `d = 2`, one composition field `c`, melt transport, iterative
solver, with the locally conservative discretization. -/
def general_path_parameters : Parameters :=
  { melt_composition_parameters with use_locally_conservative_discretization := true }

/-- The Introspection object that the constructor builds from
`general_path_parameters` in dimension 2: the layout of
`melt_composition_introspection`, the three pressures being discontinuous. -/
def general_path_introspection : Introspection :=
  { melt_composition_introspection with
    fes := [FiniteElement.FE_Q 2, FiniteElement.FE_DGP 1, FiniteElement.FE_DGP 1,
            FiniteElement.FE_Q 2, FiniteElement.FE_DGP 1, FiniteElement.FE_Q 2,
            FiniteElement.FE_Q 2] }

/-- The simulator of that configuration, with a discontinuous compaction
pressure (`use_discontinuous_p_c`). -/
def general_path_simulator : SimulatorAccess :=
  { melt_composition_simulator with
    introspection := general_path_introspection
    parameters := general_path_parameters
    use_discontinuous_p_c := true }

/-! ## The chunking of the constructor, for any dispatcher -/

/-- The loop of `chunk_while` with the function that it calls as a parameter:
`dispatcher first n_fields` stands for the call
`internal::make<dim>(mapping_info, fe, first, n_fields)`.  As in C++, the
arguments of the call are evaluated before the call is made. -/
def chunk_while_with {α : Type}
    (dispatcher : Nat → Int → Except Exc (Option (DynamicFEPointEvaluation α)))
    (component_indices : List Nat) :
    Nat → List Nat → List (Option (DynamicFEPointEvaluation α)) →
    Except Exc (List Nat × List (Option (DynamicFEPointEvaluation α)))
  | 0, indices, compositions => pure (indices, compositions)
  | bound + 1, indices, compositions =>
    if indices.length > N then do
      let field ← defined indices[0]?
      let first ← defined component_indices[field]?
      let e ← dispatcher first N
      chunk_while_with dispatcher component_indices bound (indices.drop N)
        (compositions ++ [e])
    else
      pure (indices, compositions)

/-- The body of `add_group_evaluators` with the function that it calls as a
parameter. -/
def add_group_evaluators_with {α : Type}
    (dispatcher : Nat → Int → Except Exc (Option (DynamicFEPointEvaluation α)))
    (component_indices : List Nat) (indices : List Nat)
    (compositions : List (Option (DynamicFEPointEvaluation α))) :
    Except Exc (List (Option (DynamicFEPointEvaluation α))) := do
  let r ← chunk_while_with dispatcher component_indices indices.length indices compositions
  let field ← defined r.1[0]?
  let first ← defined component_indices[field]?
  let e ← dispatcher first r.1.length
  pure (r.2 ++ [e])

/-! ## What the index structures hold in memory -/

/-- What a `ComponentIndices` object holds in memory: every member holds a
number, whether it has been assigned or not. -/
structure ComponentIndicesMemory where
  velocities : List Nat
  pressure : Nat
  fluid_velocities : List Nat
  fluid_pressure : Nat
  compaction_pressure : Nat
  temperature : Nat
  compositional_fields : List Nat
deriving DecidableEq

/-- What a `BlockIndices` object holds in memory. -/
structure BlockIndicesMemory where
  velocities : Nat
  pressure : Nat
  fluid_velocities : Nat
  fluid_pressure : Nat
  compaction_pressure : Nat
  temperature : Nat
  compositional_fields : List Nat
deriving DecidableEq

/-- The content of an array member after a call: an entry that was assigned holds
its index, an entry that was not assigned still holds what its storage held
before, entry `i` of `leftover` (`0` where `leftover` is shorter). -/
def stored_array (a : List (Option Nat)) (leftover : List Nat) : List Nat :=
  (List.range a.length).map (fun i => (a.getD i none).getD (leftover.getD i 0))

/-- What the object that `setup_component_indices` returns holds in memory when
the storage of the local `ci` held `leftover` before the call: the function
declares `ci` without an initialiser, so a member that it does not assign keeps
the leftover value, which the arguments of the call do not determine. -/
def ComponentIndices.stored (ci : ComponentIndices) (leftover : ComponentIndicesMemory) :
    ComponentIndicesMemory :=
  { velocities := stored_array ci.velocities leftover.velocities
    pressure := ci.pressure.getD leftover.pressure
    fluid_velocities := stored_array ci.fluid_velocities leftover.fluid_velocities
    fluid_pressure := ci.fluid_pressure.getD leftover.fluid_pressure
    compaction_pressure := ci.compaction_pressure.getD leftover.compaction_pressure
    temperature := ci.temperature.getD leftover.temperature
    compositional_fields := ci.compositional_fields }

/-- What the object that `setup_blocks` returns holds in memory when the storage
of the local `b` held `leftover` before the call. -/
def BlockIndices.stored (b : BlockIndices) (leftover : BlockIndicesMemory) :
    BlockIndicesMemory :=
  { velocities := b.velocities.getD leftover.velocities
    pressure := b.pressure.getD leftover.pressure
    fluid_velocities := b.fluid_velocities.getD leftover.fluid_velocities
    fluid_pressure := b.fluid_pressure.getD leftover.fluid_pressure
    compaction_pressure := b.compaction_pressure.getD leftover.compaction_pressure
    temperature := b.temperature.getD leftover.temperature
    compositional_fields := b.compositional_fields }

/-- Storage of a `ComponentIndices` object in dimension 2 all of whose members
hold the number `v`. -/
def component_leftover (v : Nat) : ComponentIndicesMemory :=
  { velocities := [v, v], pressure := v, fluid_velocities := [v, v], fluid_pressure := v,
    compaction_pressure := v, temperature := v, compositional_fields := [] }

/-- Storage of a `BlockIndices` object all of whose members hold the number `v`. -/
def block_leftover (v : Nat) : BlockIndicesMemory :=
  { velocities := v, pressure := v, fluid_velocities := v, fluid_pressure := v,
    compaction_pressure := v, temperature := v, compositional_fields := [] }

/-! ## Closed forms of the layout functions -/

theorem assign_consecutive_fold (n comp : Nat) : ∀ k : Nat, k ≤ n →
    (List.range k).foldl (fun (s : List (Option Nat) × Nat) i => (s.1.set i (some s.2), s.2 + 1))
      (List.replicate n none, comp)
    = ((List.range k).map (fun i => some (comp + i)) ++ List.replicate (n - k) none,
        comp + k) := by
  intro k
  induction k with
  | zero => intro _; simp
  | succ k ih =>
    intro hk
    rw [List.range_succ, List.foldl_append, ih (by omega)]
    have hrep : List.replicate (n - k) (none : Option Nat)
        = none :: List.replicate (n - (k + 1)) none := by
      have : n - k = (n - (k + 1)) + 1 := by omega
      rw [this, List.replicate_succ]
    simp only [List.foldl_cons, List.foldl_nil, hrep]
    rw [List.set_append_right _ _ (by simp)]
    simp [List.map_append, Nat.add_assoc]

theorem assign_consecutive_eq (n comp : Nat) :
    assign_consecutive n (List.replicate n none) comp
      = ((List.range n).map (fun i => some (comp + i)), comp + n) := by
  unfold assign_consecutive
  rw [assign_consecutive_fold n comp n (Nat.le_refl n)]
  simp

theorem push_consecutive_fold (comp : Nat) (v : List Nat) : ∀ k : Nat,
    (List.range k).foldl (fun (s : List Nat × Nat) (_ : Nat) => (s.1 ++ [s.2], s.2 + 1)) (v, comp)
    = (v ++ (List.range k).map (fun i => comp + i), comp + k) := by
  intro k
  induction k with
  | zero => simp
  | succ k ih =>
    rw [List.range_succ, List.foldl_append, ih]
    simp [List.map_append, Nat.add_assoc]

theorem push_consecutive_eq (n comp : Nat) :
    push_consecutive n [] comp = ((List.range n).map (fun i => comp + i), comp + n) := by
  unfold push_consecutive
  rw [push_consecutive_fold comp [] n]
  simp

theorem setup_component_indices_no_melt (dim n_c : Nat) :
    setup_component_indices dim n_c false =
      (dim + 2 + n_c,
       { velocities := (List.range dim).map (fun i => some i)
         pressure := some dim
         fluid_velocities := List.replicate dim none
         fluid_pressure := none
         compaction_pressure := none
         temperature := some (dim + 1)
         compositional_fields := (List.range n_c).map (fun i => dim + 2 + i) }) := by
  simp [setup_component_indices, ComponentIndices.uninitialized, assign_consecutive_eq,
    push_consecutive_eq]

theorem setup_component_indices_melt_eq (dim n_c : Nat) :
    setup_component_indices dim n_c true =
      (2 * dim + 4 + n_c,
       { velocities := (List.range dim).map (fun i => some i)
         pressure := some (2 * dim + 2)
         fluid_velocities := (List.range dim).map (fun i => some (dim + 2 + i))
         fluid_pressure := some dim
         compaction_pressure := some (dim + 1)
         temperature := some (2 * dim + 3)
         compositional_fields := (List.range n_c).map (fun i => 2 * dim + 4 + i) }) := by
  simp [setup_component_indices, setup_component_indices_melt, ComponentIndices.uninitialized,
    assign_consecutive_eq, push_consecutive_eq]
  exact ⟨by omega, fun _ _ => by omega⟩

theorem setup_blocks_no_melt (n_c : Nat) (use_direct_solver : Bool) :
    setup_blocks n_c false use_direct_solver =
      ((if use_direct_solver then 0 else 1) + 2 + n_c,
       { velocities := some 0
         pressure := some (if use_direct_solver then 0 else 1)
         fluid_velocities := none
         fluid_pressure := none
         compaction_pressure := none
         temperature := some ((if use_direct_solver then 0 else 1) + 1)
         compositional_fields :=
           (List.range n_c).map (fun i => (if use_direct_solver then 0 else 1) + 2 + i) }) := by
  simp [setup_blocks, setup_blocks_stokes, BlockIndices.uninitialized, push_consecutive_eq]

theorem setup_blocks_melt_eq (n_c : Nat) (use_direct_solver : Bool) :
    setup_blocks n_c true use_direct_solver =
      ((if use_direct_solver then 0 else 1) + 4 + n_c,
       { velocities := some 0
         pressure := some ((if use_direct_solver then 0 else 1) + 2)
         fluid_velocities := some ((if use_direct_solver then 0 else 1) + 1)
         fluid_pressure := some (if use_direct_solver then 0 else 1)
         compaction_pressure := some (if use_direct_solver then 0 else 1)
         temperature := some ((if use_direct_solver then 0 else 1) + 3)
         compositional_fields :=
           (List.range n_c).map (fun i => (if use_direct_solver then 0 else 1) + 4 + i) }) := by
  simp [setup_blocks, setup_blocks_stokes, BlockIndices.uninitialized, push_consecutive_eq]

/-! ## The component indices are a permutation of `[0, n_components)` -/

theorem reduceOption_map_some (l : List Nat) (f : Nat → Nat) :
    (l.map (fun i => some (f i))).reduceOption = l.map f := by
  induction l with
  | nil => rfl
  | cons a l ih => simp [List.reduceOption_cons_of_some, ih]

theorem reduceOption_replicate_none (n : Nat) :
    (List.replicate n (none : Option Nat)).reduceOption = [] := by
  induction n with
  | zero => rfl
  | succ n ih => simp [List.replicate_succ, List.reduceOption_cons_of_none, ih]

theorem range_split_no_melt (d n : Nat) :
    List.range d ++ [d] ++ [d + 1] ++ (List.range n).map (fun i => d + 2 + i)
      = List.range (d + 2 + n) := by
  rw [List.range_add (d + 2) n, List.range_succ, List.range_succ]

theorem range_split_melt (d n : Nat) :
    List.range d ++ [d] ++ [d + 1] ++ (List.range d).map (fun i => d + 2 + i)
        ++ [2 * d + 2] ++ [2 * d + 3] ++ (List.range n).map (fun i => 2 * d + 4 + i)
      = List.range (2 * d + 4 + n) := by
  have h1 : 2 * d + 4 = (d + 2 + d) + 1 + 1 := by omega
  rw [List.range_add (2 * d + 4) n, h1, List.range_succ, List.range_succ,
    List.range_add (d + 2) d, List.range_succ, List.range_succ]
  have h2 : d + 2 + d = 2 * d + 2 := by omega
  have h3 : d + 2 + d + 1 = 2 * d + 3 := by omega
  have h4 : d + 2 + d + 1 + 1 = 2 * d + 4 := by omega
  simp only [h2, h3, h4]

/-- In the order of assignment the assigned indices are `0, 1, ..., n_components-1`. -/
theorem assigned_eq_range (d n_c : Nat) (melt : Bool) :
    (setup_component_indices d n_c melt).2.assigned
      = List.range (setup_component_indices d n_c melt).1 := by
  cases melt with
  | false =>
    rw [setup_component_indices_no_melt]
    simp only [ComponentIndices.assigned, Option.toList, List.append_nil]
    rw [reduceOption_map_some (List.range d) (fun i => i), reduceOption_replicate_none,
      List.map_id', List.append_nil]
    exact range_split_no_melt d n_c
  | true =>
    rw [setup_component_indices_melt_eq]
    simp only [ComponentIndices.assigned, Option.toList]
    rw [reduceOption_map_some (List.range d) (fun i => i),
      reduceOption_map_some (List.range d) (fun i => d + 2 + i), List.map_id']
    exact range_split_melt d n_c

/-- C1: for every dimension `d` (in particular every `d >= 1`), every composition
count `n_c` and either melt setting, `setup_component_indices` assigns `d` velocity
indices, a pressure and a temperature index, `n_c` composition indices and, with
melt, also a fluid pressure, a compaction pressure and `d` fluid-velocity indices;
the assigned indices are pairwise distinct, and a number is one of them exactly
when it is below the returned `n_components`. -/
theorem setup_component_indices_permutation (d n_c : Nat) (melt : Bool) :
    ((setup_component_indices d n_c melt).2.velocities.length = d
      ∧ (setup_component_indices d n_c melt).2.velocities.reduceOption.length = d
      ∧ (setup_component_indices d n_c melt).2.pressure.isSome = true
      ∧ (setup_component_indices d n_c melt).2.temperature.isSome = true
      ∧ (setup_component_indices d n_c melt).2.compositional_fields.length = n_c)
    ∧ (melt = true →
        (setup_component_indices d n_c melt).2.fluid_pressure.isSome = true
        ∧ (setup_component_indices d n_c melt).2.compaction_pressure.isSome = true
        ∧ (setup_component_indices d n_c melt).2.fluid_velocities.length = d
        ∧ (setup_component_indices d n_c melt).2.fluid_velocities.reduceOption.length = d)
    ∧ (setup_component_indices d n_c melt).2.assigned.Nodup
    ∧ (setup_component_indices d n_c melt).2.assigned.length
        = (setup_component_indices d n_c melt).1
    ∧ ∀ k : Nat, k ∈ (setup_component_indices d n_c melt).2.assigned
        ↔ k < (setup_component_indices d n_c melt).1 := by
  refine ⟨?_, ?_, ?_, ?_, ?_⟩
  · cases melt with
    | false =>
      rw [setup_component_indices_no_melt]
      simp [reduceOption_map_some (List.range d) (fun i => i)]
    | true =>
      rw [setup_component_indices_melt_eq]
      simp [reduceOption_map_some (List.range d) (fun i => i)]
  · intro hm
    subst hm
    rw [setup_component_indices_melt_eq]
    simp [reduceOption_map_some (List.range d) (fun i => d + 2 + i)]
  · rw [assigned_eq_range]
    exact List.nodup_range _
  · rw [assigned_eq_range]
    exact List.length_range _
  · intro k
    rw [assigned_eq_range]
    exact List.mem_range

/-! ## The component-to-block table -/

theorem assign_block_some (t : List Nat) (c b : Nat) (h : c < t.length) :
    assign_block t (some c) (some b) = .ok (t.set c b) := by
  simp [assign_block, defined, write, h, bind, Except.bind, pure, Except.pure]

theorem assign_block_loop (idx val : Nat → Option Nat) (base : Nat) (g : Nat → Nat)
    (t : List Nat) : ∀ m : Nat, base + m ≤ t.length →
    (∀ k, k < m → idx k = some (base + k)) → (∀ k, k < m → val k = some (g k)) →
    ∃ r, (List.range m).foldlM (fun t k => assign_block t (idx k) (val k)) t = .ok r
      ∧ r.length = t.length
      ∧ ∀ i, r[i]? = if base ≤ i ∧ i < base + m then some (g (i - base)) else t[i]? := by
  intro m
  induction m with
  | zero =>
    intro _ _ _
    refine ⟨t, rfl, rfl, ?_⟩
    intro i
    rw [if_neg (by omega)]
  | succ m ih =>
    intro hlen hidx hval
    obtain ⟨r, hr, hrl, hrp⟩ := ih (by omega) (fun k hk => hidx k (by omega))
      (fun k hk => hval k (by omega))
    refine ⟨r.set (base + m) (g m), ?_, by simp [hrl], ?_⟩
    · rw [List.range_succ, List.foldlM_append, hr]
      simp only [List.foldlM_cons, List.foldlM_nil, hidx m (by omega), hval m (by omega)]
      show (assign_block r (some (base + m)) (some (g m)) >>= pure) = _
      rw [assign_block_some r _ _ (by omega)]
      rfl
    · intro i
      rw [List.getElem?_set]
      by_cases h1 : base + m = i
      · subst h1
        have h2 : base + m < r.length := by omega
        simp [h2]
      · simp only [h1, if_false, hrp i]
        by_cases h3 : base ≤ i ∧ i < base + m
        · have h4 : base ≤ i ∧ i < base + (m + 1) := by omega
          simp [h3, h4]
        · have h4 : ¬ (base ≤ i ∧ i < base + (m + 1)) := by omega
          simp [h3, h4]

theorem assign_block_one (t : List Nat) (c b : Nat) (h : c < t.length) :
    ∃ r, assign_block t (some c) (some b) = .ok r ∧ r.length = t.length
      ∧ ∀ i, r[i]? = if i = c then some b else t[i]? := by
  refine ⟨t.set c b, assign_block_some t c b h, by simp, ?_⟩
  intro i
  rw [List.getElem?_set]
  by_cases h1 : c = i
  · subst h1
    simp [h]
  · have h2 : ¬ i = c := fun e => h1 e.symm
    simp [h1, h2]

theorem ok_bind {β γ : Type} (x : β) (f : β → Except Exc γ) :
    ((Except.ok x : Except Exc β) >>= f) = f x := rfl

theorem fill_components_to_blocks_no_melt (d : Nat) (p : Parameters)
    (hm : p.include_melt_transport = false)
    (hn : p.n_compositional_fields = p.names_of_compositional_fields.length) :
    fill_components_to_blocks d p
      (setup_component_indices d p.names_of_compositional_fields.length false).1
      (setup_component_indices d p.names_of_compositional_fields.length false).2
      (setup_blocks p.names_of_compositional_fields.length false p.use_direct_stokes_solver).2
    = .ok ((List.range (d + 2 + p.names_of_compositional_fields.length)).map
        (block_of_component d false p.use_direct_stokes_solver)) := by
  rw [setup_component_indices_no_melt, setup_blocks_no_melt]
  unfold fill_components_to_blocks
  simp only [hm, hn]
  generalize p.names_of_compositional_fields.length = n_c
  obtain ⟨r1, h1, l1, p1⟩ := assign_block_loop
    (fun k => ((List.range d).map (fun i => some i))[k]?.join) (fun _ => some 0) 0 (fun _ => 0)
    (List.replicate (d + 2 + n_c) invalid_unsigned_int) d (by simp; omega)
    (by intro k hk; simp [hk]) (by intro k _; rfl)
  obtain ⟨r2, h2, l2, p2⟩ := assign_block_one r1 d
    (if p.use_direct_stokes_solver = true then 0 else 1) (by simp [l1]; omega)
  obtain ⟨r3, h3, l3, p3⟩ := assign_block_one r2 (d + 1)
    ((if p.use_direct_stokes_solver = true then 0 else 1) + 1) (by simp [l2, l1]; omega)
  obtain ⟨r4, h4, l4, p4⟩ := assign_block_loop
    (fun c => ((List.range n_c).map (fun i => d + 2 + i))[c]?)
    (fun c => ((List.range n_c).map
      (fun i => (if p.use_direct_stokes_solver = true then 0 else 1) + 2 + i))[c]?)
    (d + 2) (fun k => (if p.use_direct_stokes_solver = true then 0 else 1) + 2 + k)
    r3 n_c (by simp [l3, l2, l1])
    (by intro k hk; simp [hk]) (by intro k hk; simp [hk])
  simp only [] at h1 h4
  rw [h1, ok_bind, h2, ok_bind, h3, ok_bind, h4, ok_bind, if_neg (by simp)]
  show Except.ok r4 = _
  congr 1
  apply List.ext_getElem?
  intro i
  rw [p4, p3, p2, p1, List.getElem?_replicate, List.getElem?_map]
  by_cases hi : i < d + 2 + n_c
  · rw [List.getElem?_range hi]
    simp only [block_of_component, Option.map_some']
    cases p.use_direct_stokes_solver <;> simp <;> split_ifs <;> simp <;> omega
  · rw [List.getElem?_eq_none (by simpa using hi)]
    simp only [Option.map_none']
    repeat rw [if_neg (by omega)]

theorem fill_components_to_blocks_melt (d : Nat) (p : Parameters)
    (hm : p.include_melt_transport = true)
    (hn : p.n_compositional_fields = p.names_of_compositional_fields.length) :
    fill_components_to_blocks d p
      (setup_component_indices d p.names_of_compositional_fields.length true).1
      (setup_component_indices d p.names_of_compositional_fields.length true).2
      (setup_blocks p.names_of_compositional_fields.length true p.use_direct_stokes_solver).2
    = .ok ((List.range (2 * d + 4 + p.names_of_compositional_fields.length)).map
        (block_of_component d true p.use_direct_stokes_solver)) := by
  rw [setup_component_indices_melt_eq, setup_blocks_melt_eq]
  unfold fill_components_to_blocks
  simp only [hm, hn]
  generalize p.names_of_compositional_fields.length = n_c
  obtain ⟨r1, h1, l1, p1⟩ := assign_block_loop
    (fun k => ((List.range d).map (fun i => some i))[k]?.join) (fun _ => some 0) 0 (fun _ => 0)
    (List.replicate (2 * d + 4 + n_c) invalid_unsigned_int) d (by simp; omega)
    (by intro k hk; simp [hk]) (by intro k _; rfl)
  obtain ⟨r2, h2, l2, p2⟩ := assign_block_one r1 (2 * d + 2)
    ((if p.use_direct_stokes_solver = true then 0 else 1) + 2) (by simp [l1]; omega)
  obtain ⟨r3, h3, l3, p3⟩ := assign_block_one r2 (2 * d + 3)
    ((if p.use_direct_stokes_solver = true then 0 else 1) + 3) (by simp [l2, l1]; omega)
  obtain ⟨r4, h4, l4, p4⟩ := assign_block_loop
    (fun c => ((List.range n_c).map (fun i => 2 * d + 4 + i))[c]?)
    (fun c => ((List.range n_c).map
      (fun i => (if p.use_direct_stokes_solver = true then 0 else 1) + 4 + i))[c]?)
    (2 * d + 4) (fun k => (if p.use_direct_stokes_solver = true then 0 else 1) + 4 + k)
    r3 n_c (by simp [l3, l2, l1])
    (by intro k hk; simp [hk]) (by intro k hk; simp [hk])
  obtain ⟨r5, h5, l5, p5⟩ := assign_block_loop
    (fun k => ((List.range d).map (fun i => some (d + 2 + i)))[k]?.join)
    (fun _ => some ((if p.use_direct_stokes_solver = true then 0 else 1) + 1))
    (d + 2) (fun _ => (if p.use_direct_stokes_solver = true then 0 else 1) + 1)
    r4 d (by simp [l4, l3, l2, l1]; omega)
    (by intro k hk; simp [hk]) (by intro k _; rfl)
  obtain ⟨r6, h6, l6, p6⟩ := assign_block_one r5 d
    (if p.use_direct_stokes_solver = true then 0 else 1) (by simp [l5, l4, l3, l2, l1]; omega)
  obtain ⟨r7, h7, l7, p7⟩ := assign_block_one r6 (d + 1)
    (if p.use_direct_stokes_solver = true then 0 else 1)
    (by simp [l6, l5, l4, l3, l2, l1]; omega)
  simp only [] at h1 h4 h5
  rw [h1, ok_bind, h2, ok_bind, h3, ok_bind, h4, ok_bind]
  simp only [if_true]
  rw [h5, ok_bind, h6, ok_bind, h7]
  congr 1
  apply List.ext_getElem?
  intro i
  rw [p7, p6, p5, p4, p3, p2, p1, List.getElem?_replicate, List.getElem?_map]
  by_cases hi : i < 2 * d + 4 + n_c
  · rw [List.getElem?_range hi]
    simp only [block_of_component, Option.map_some']
    cases p.use_direct_stokes_solver <;> simp <;> split_ifs <;> simp <;> omega
  · rw [List.getElem?_eq_none (by simpa using hi)]
    simp only [Option.map_none']
    repeat rw [if_neg (by omega)]

theorem setup_fes_no_melt (dim : Nat) (p : Parameters) (debug : Bool)
    (hm : p.include_melt_transport = false) :
    setup_fes dim p debug = .ok
      ({ velocities := some 0, pressure := some 1, fluid_velocities := none,
         fluid_pressure := none, compaction_pressure := none, temperature := some 2,
         compositional_fields := some 3 },
       [FiniteElement.FE_Q p.stokes_velocity_degree, pressure_element p,
        FiniteElement.FE_Q p.temperature_degree, FiniteElement.FE_Q p.composition_degree],
       [dim, 1, 1, p.n_compositional_fields]) := by
  unfold setup_fes
  simp only [hm]
  cases debug <;> rfl

theorem setup_fes_melt (dim : Nat) (p : Parameters) (debug : Bool)
    (hm : p.include_melt_transport = true) :
    setup_fes dim p debug = .ok
      ({ velocities := some 0, pressure := some 4, fluid_velocities := some 3,
         fluid_pressure := some 1, compaction_pressure := some 2, temperature := some 5,
         compositional_fields := some 6 },
       [FiniteElement.FE_Q p.stokes_velocity_degree, pressure_element p, pressure_element p,
        FiniteElement.FE_Q p.stokes_velocity_degree, pressure_element p,
        FiniteElement.FE_Q p.temperature_degree, FiniteElement.FE_Q p.composition_degree],
       [dim, 1, 1, dim, 1, 1, p.n_compositional_fields]) := by
  unfold setup_fes
  simp only [hm]
  cases debug <;> rfl

theorem setup_fes_ok (dim : Nat) (p : Parameters) (debug : Bool) :
    ∃ r, setup_fes dim p debug = .ok r := by
  cases hm : p.include_melt_transport with
  | false => exact ⟨_, setup_fes_no_melt dim p debug hm⟩
  | true => exact ⟨_, setup_fes_melt dim p debug hm⟩

theorem forM_check (t : List Nat) : ∀ l : List Nat,
    (∀ c ∈ l, ∃ b, t[c]? = some b ∧ b ≠ invalid_unsigned_int) →
    l.forM (fun c => do
      let b ← defined t[c]?
      if b = invalid_unsigned_int then throw Exc.ExcInternalError else pure ())
    = (Except.ok () : Except Exc Unit) := by
  intro l
  induction l with
  | nil => intro _; rfl
  | cons a l ih =>
    intro h
    obtain ⟨b, hb, hne⟩ := h a (List.mem_cons_self a l)
    rw [List.forM_cons', hb]
    simp only [defined]
    show (if b = invalid_unsigned_int then throw Exc.ExcInternalError else pure ()) >>= _ = _
    rw [if_neg hne]
    exact ih (fun c hc => h c (List.mem_cons_of_mem a hc))

theorem check_all_assigned_ok (n : Nat) (t : List Nat) (hlen : t.length = n)
    (h : ∀ b ∈ t, b ≠ invalid_unsigned_int) : check_all_assigned n t = .ok () := by
  unfold check_all_assigned
  apply forM_check
  intro c hc
  have hc2 : c < t.length := by rw [hlen]; exact List.mem_range.mp hc
  exact ⟨t[c], List.getElem?_eq_getElem hc2, h _ (List.getElem_mem hc2)⟩

theorem block_of_component_lt (d n_c : Nat) (melt direct : Bool) (i : Nat)
    (hi : i < (setup_component_indices d n_c melt).1) :
    block_of_component d melt direct i < (setup_blocks n_c melt direct).1 := by
  cases melt with
  | false =>
    rw [setup_component_indices_no_melt] at hi
    rw [setup_blocks_no_melt]
    simp only [block_of_component] at hi ⊢
    cases direct <;> simp <;> split_ifs <;> omega
  | true =>
    rw [setup_component_indices_melt_eq] at hi
    rw [setup_blocks_melt_eq]
    simp only [block_of_component] at hi ⊢
    cases direct <;> simp <;> split_ifs <;> omega

/-- The constructor succeeds and stores the layout of the two setup functions
and the closed-form table, as long as no block index reaches the sentinel. -/
theorem construct_eq (d : Nat) (p : Parameters) (debug : Bool)
    (hn : p.n_compositional_fields = p.names_of_compositional_fields.length)
    (hsmall : p.names_of_compositional_fields.length + 5 ≤ invalid_unsigned_int) :
    ∃ intro, Introspection.construct d p debug = .ok intro
      ∧ intro.n_components = (setup_component_indices d
          p.names_of_compositional_fields.length p.include_melt_transport).1
      ∧ intro.component_indices = (setup_component_indices d
          p.names_of_compositional_fields.length p.include_melt_transport).2
      ∧ intro.n_blocks = (setup_blocks p.names_of_compositional_fields.length
          p.include_melt_transport p.use_direct_stokes_solver).1
      ∧ intro.block_indices = (setup_blocks p.names_of_compositional_fields.length
          p.include_melt_transport p.use_direct_stokes_solver).2
      ∧ intro.composition_names = p.names_of_compositional_fields
      ∧ intro.components_to_blocks = (List.range (setup_component_indices d
          p.names_of_compositional_fields.length p.include_melt_transport).1).map
            (block_of_component d p.include_melt_transport p.use_direct_stokes_solver) := by
  obtain ⟨fe, hfe⟩ := setup_fes_ok d p debug
  have htable : fill_components_to_blocks d p
      (setup_component_indices d p.names_of_compositional_fields.length
        p.include_melt_transport).1
      (setup_component_indices d p.names_of_compositional_fields.length
        p.include_melt_transport).2
      (setup_blocks p.names_of_compositional_fields.length p.include_melt_transport
        p.use_direct_stokes_solver).2
      = .ok ((List.range (setup_component_indices d
          p.names_of_compositional_fields.length p.include_melt_transport).1).map
            (block_of_component d p.include_melt_transport p.use_direct_stokes_solver)) := by
    cases hm : p.include_melt_transport with
    | false =>
      rw [fill_components_to_blocks_no_melt d p hm hn, setup_component_indices_no_melt]
    | true =>
      rw [fill_components_to_blocks_melt d p hm hn, setup_component_indices_melt_eq]
  have hcheck : check_all_assigned (setup_component_indices d
        p.names_of_compositional_fields.length p.include_melt_transport).1
      ((List.range (setup_component_indices d
          p.names_of_compositional_fields.length p.include_melt_transport).1).map
            (block_of_component d p.include_melt_transport p.use_direct_stokes_solver))
      = .ok () := by
    apply check_all_assigned_ok _ _ (by simp)
    intro b hb
    obtain ⟨i, hi, rfl⟩ := List.mem_map.mp hb
    have h1 := block_of_component_lt d p.names_of_compositional_fields.length
      p.include_melt_transport p.use_direct_stokes_solver i (List.mem_range.mp hi)
    have h2 : (setup_blocks p.names_of_compositional_fields.length p.include_melt_transport
        p.use_direct_stokes_solver).1 ≤ p.names_of_compositional_fields.length + 5 := by
      cases p.include_melt_transport with
      | false => rw [setup_blocks_no_melt]; cases p.use_direct_stokes_solver <;> simp <;> omega
      | true => rw [setup_blocks_melt_eq]; cases p.use_direct_stokes_solver <;> simp <;> omega
    omega
  unfold Introspection.construct
  rw [hfe]
  simp only [ok_bind]
  rw [htable, ok_bind]
  cases debug with
  | false => exact ⟨_, rfl, rfl, rfl, rfl, rfl, rfl, rfl⟩
  | true =>
    simp only [if_true]
    rw [hcheck]
    exact ⟨_, rfl, rfl, rfl, rfl, rfl, rfl, rfl⟩

/-- C2: for every dimension (in particular 2 and 3), every parameter set with at
most 50 declared composition names and `n_compositional_fields` equal to their
number, either melt setting and either solver choice, in debug and in release
builds, the constructor succeeds (the completeness assertion does not fire), and
the table `components_to_blocks` has length `n_components`, has no entry equal to
the sentinel and has every entry below `n_blocks`. -/
theorem components_to_blocks_total (d : Nat) (p : Parameters) (debug : Bool)
    (hnc : p.names_of_compositional_fields.length ≤ 50)
    (hn : p.n_compositional_fields = p.names_of_compositional_fields.length) :
    ∃ intro, Introspection.construct d p debug = .ok intro
      ∧ intro.components_to_blocks.length = intro.n_components
      ∧ (∀ b ∈ intro.components_to_blocks, b ≠ invalid_unsigned_int)
      ∧ (∀ b ∈ intro.components_to_blocks, b < intro.n_blocks) := by
  obtain ⟨intro, hok, hnc1, _, hnb, _, _, htab⟩ :=
    construct_eq d p debug hn (by unfold invalid_unsigned_int; omega)
  have hlt : ∀ b ∈ intro.components_to_blocks, b < intro.n_blocks := by
    intro b hb
    rw [htab] at hb
    obtain ⟨i, hi, rfl⟩ := List.mem_map.mp hb
    rw [hnb]
    exact block_of_component_lt d _ _ _ i (List.mem_range.mp hi)
  refine ⟨intro, hok, ?_, ?_, hlt⟩
  · rw [htab, hnc1]
    simp
  · intro b hb
    have h1 := hlt b hb
    have h2 : intro.n_blocks ≤ p.names_of_compositional_fields.length + 5 := by
      rw [hnb]
      cases p.include_melt_transport with
      | false => rw [setup_blocks_no_melt]; cases p.use_direct_stokes_solver <;> simp <;> omega
      | true => rw [setup_blocks_melt_eq]; cases p.use_direct_stokes_solver <;> simp <;> omega
    unfold invalid_unsigned_int
    omega

/-- Scenario A (d = 2, three compositions, no melt, iterative solver) in a debug
build. -/
theorem components_to_blocks_total_witness :
    ∃ intro, Introspection.construct 2
        { names_of_compositional_fields := ["a", "b", "c"], n_compositional_fields := 3,
          include_melt_transport := false, use_direct_stokes_solver := false,
          use_locally_conservative_discretization := false, stokes_velocity_degree := 2,
          temperature_degree := 2, composition_degree := 2 } true = .ok intro
      ∧ intro.components_to_blocks.length = intro.n_components
      ∧ (∀ b ∈ intro.components_to_blocks, b ≠ invalid_unsigned_int)
      ∧ (∀ b ∈ intro.components_to_blocks, b < intro.n_blocks) :=
  components_to_blocks_total 2
    { names_of_compositional_fields := ["a", "b", "c"], n_compositional_fields := 3,
      include_melt_transport := false, use_direct_stokes_solver := false,
      use_locally_conservative_discretization := false, stokes_velocity_degree := 2,
      temperature_degree := 2, composition_degree := 2 } true (by decide) rfl

/-! ## Velocity, pressure and the melt pressures in the block layout -/

/-- C3, as stated, fails with melt transport and a direct solver: velocity is in
block 0 and pressure in block 2. -/
theorem setup_blocks_melt_direct_pressure_apart :
    (setup_blocks 0 true true).2.velocities = some 0
      ∧ (setup_blocks 0 true true).2.pressure = some 2
      ∧ (setup_blocks 0 true true).2.velocities ≠ (setup_blocks 0 true true).2.pressure := by
  decide

/-- C3, amended: `setup_blocks` assigns a block to velocity and to pressure, and
the two block indices are equal exactly when a direct solver is used and melt
transport is off; with melt transport they differ under both solver choices, and
without it they differ for the iterative solver. -/
theorem setup_blocks_velocity_pressure (n_c : Nat) (melt direct : Bool) :
    ∃ v q, (setup_blocks n_c melt direct).2.velocities = some v
      ∧ (setup_blocks n_c melt direct).2.pressure = some q
      ∧ (v = q ↔ (direct = true ∧ melt = false)) := by
  cases melt with
  | false =>
    rw [setup_blocks_no_melt]
    exact ⟨0, _, rfl, rfl, by cases direct <;> simp⟩
  | true =>
    rw [setup_blocks_melt_eq]
    exact ⟨0, _, rfl, rfl, by cases direct <;> simp⟩

/-- C4, as stated, fails with melt transport and the iterative solver: velocity is
in block 0, fluid pressure and compaction pressure are in block 1. -/
theorem setup_blocks_melt_iterative_pressures_apart :
    (setup_blocks 0 true false).2.velocities = some 0
      ∧ (setup_blocks 0 true false).2.fluid_pressure = some 1
      ∧ (setup_blocks 0 true false).2.compaction_pressure = some 1
      ∧ (setup_blocks 0 true false).2.fluid_pressure
          ≠ (setup_blocks 0 true false).2.velocities := by
  decide

/-- C4, amended: with melt transport, under both solver choices fluid pressure
and compaction pressure are in one block with each other; that block is the
velocity block exactly when a direct solver is used (with the iterative solver it
is the block after the velocity block). -/
theorem setup_blocks_melt_pressures (n_c : Nat) (direct : Bool) :
    ∃ v f c, (setup_blocks n_c true direct).2.velocities = some v
      ∧ (setup_blocks n_c true direct).2.fluid_pressure = some f
      ∧ (setup_blocks n_c true direct).2.compaction_pressure = some c
      ∧ f = c
      ∧ (f = v ↔ direct = true)
      ∧ (direct = false → f = v + 1) := by
  rw [setup_blocks_melt_eq]
  exact ⟨0, _, _, rfl, rfl, rfl, rfl, by cases direct <;> simp, by intro h; subst h; rfl⟩

/-! ## Lookup of composition names -/

theorem std_find_le (names : List String) (name : String) :
    std_find names name ≤ names.length := by
  induction names with
  | nil => simp [std_find]
  | cons x xs ih =>
    unfold std_find
    split_ifs
    · omega
    · simp only [List.length_cons]; omega

theorem std_find_eq_length_iff (names : List String) (name : String) :
    std_find names name = names.length ↔ name ∉ names := by
  induction names with
  | nil => simp [std_find]
  | cons x xs ih =>
    unfold std_find
    by_cases h : x = name
    · subst h
      simp
    · have h2 : ¬ name = x := fun e => h e.symm
      simp [h, h2, ih]

theorem std_find_getElem (names : List String) (name : String) (h : name ∈ names) :
    names[std_find names name]? = some name := by
  induction names with
  | nil => simp at h
  | cons x xs ih =>
    unfold std_find
    by_cases hx : x = name
    · subst hx
      simp
    · have h2 : name ∈ xs := by
        rcases List.mem_cons.mp h with e | e
        · exact absurd e.symm hx
        · exact e
      simp [hx, ih h2]

/-- The position that `std::find` returns is the first one holding the name. -/
theorem std_find_first (names : List String) (name : String) (i : Nat)
    (h : names[i]? = some name) : std_find names name ≤ i := by
  induction names generalizing i with
  | nil => simp at h
  | cons x xs ih =>
    unfold std_find
    by_cases hx : x = name
    · simp [hx]
    · cases i with
      | zero => simp at h; exact absurd h hx
      | succ i =>
        simp only [hx, if_false]
        have := ih i (by simpa using h)
        omega

/-- C9: for every Introspection object, whatever its list of declared composition
names (duplicates included), and every name in that list,
`compositional_index_for_name` succeeds and `name_for_compositional_index`, in
debug and in release builds, returns that name for the index it gave. -/
theorem name_index_round_trip (intro : Introspection) (debug : Bool) (name : String)
    (h : name ∈ intro.composition_names) :
    ∃ i, intro.compositional_index_for_name name = .ok i
      ∧ intro.name_for_compositional_index debug i = .ok name := by
  have hne : std_find intro.composition_names name ≠ intro.composition_names.length :=
    fun e => (std_find_eq_length_iff _ _).mp e h
  have hlt : std_find intro.composition_names name < intro.composition_names.length :=
    lt_of_le_of_ne (std_find_le _ _) hne
  refine ⟨std_find intro.composition_names name, ?_, ?_⟩
  · simp only [Introspection.compositional_index_for_name, hne, if_false]
    rfl
  · simp only [Introspection.name_for_compositional_index, hlt, decide_True, Bool.not_true,
      Bool.and_false, std_find_getElem _ _ h]
    rfl

/-- The round trip on the names `a, b, a`, which contain a duplicate, for the
name `a` in a debug build. -/
theorem name_index_round_trip_witness :
    ∃ i, Introspection.compositional_index_for_name
          { n_components := 7, component_indices := (setup_component_indices 2 3 false).2,
            n_blocks := 6, block_indices := (setup_blocks 3 false false).2,
            base_elements :=
              { velocities := some 0, pressure := some 1, fluid_velocities := none,
                fluid_pressure := none, compaction_pressure := none, temperature := some 2,
                compositional_fields := some 3 },
            composition_names := ["a", "b", "a"], fes := [], multiplicities := [],
            components_to_blocks := [0, 0, 1, 2, 3, 4, 5] } "a" = .ok i
      ∧ Introspection.name_for_compositional_index
          { n_components := 7, component_indices := (setup_component_indices 2 3 false).2,
            n_blocks := 6, block_indices := (setup_blocks 3 false false).2,
            base_elements :=
              { velocities := some 0, pressure := some 1, fluid_velocities := none,
                fluid_pressure := none, compaction_pressure := none, temperature := some 2,
                compositional_fields := some 3 },
            composition_names := ["a", "b", "a"], fes := [], multiplicities := [],
            components_to_blocks := [0, 0, 1, 2, 3, 4, 5] } true i = .ok "a" :=
  name_index_round_trip _ true "a" (by decide)

/-- C10: `compositional_index_for_name` fails exactly when the name is not among
the declared composition names (and then with the message that the field is not
used); an index it returns is below the number of declared names; and it succeeds
exactly when `compositional_name_exists` returns true. -/
theorem compositional_index_for_name_fails_iff (intro : Introspection) (name : String) :
    ((∃ e, intro.compositional_index_for_name name = .error e)
        ↔ name ∉ intro.composition_names)
      ∧ ((∃ e, intro.compositional_index_for_name name = .error e)
        ↔ intro.compositional_index_for_name name = .error (Exc.ExcMessage
            ("The compositional field " ++ name ++
              " you asked for is not used in the simulation.")))
      ∧ (∀ i, intro.compositional_index_for_name name = .ok i
          → i < intro.composition_names.length)
      ∧ ((∃ i, intro.compositional_index_for_name name = .ok i)
        ↔ intro.compositional_name_exists name = true) := by
  by_cases h : std_find intro.composition_names name = intro.composition_names.length
  · have hnot : name ∉ intro.composition_names := (std_find_eq_length_iff _ _).mp h
    have herr : intro.compositional_index_for_name name = .error (Exc.ExcMessage
        ("The compositional field " ++ name ++
          " you asked for is not used in the simulation.")) := by
      simp only [Introspection.compositional_index_for_name, h, if_true]
      rfl
    refine ⟨⟨fun _ => hnot, fun _ => ⟨_, herr⟩⟩, ⟨fun _ => herr, fun _ => ⟨_, herr⟩⟩, ?_, ?_⟩
    · intro i hi
      rw [herr] at hi
      cases hi
    · constructor
      · rintro ⟨i, hi⟩
        rw [herr] at hi
        cases hi
      · intro hex
        simp [Introspection.compositional_name_exists, h] at hex
  · have hin : ¬ name ∉ intro.composition_names :=
      fun hn => h ((std_find_eq_length_iff _ _).mpr hn)
    have hok : intro.compositional_index_for_name name
        = .ok (std_find intro.composition_names name) := by
      simp only [Introspection.compositional_index_for_name, h, if_false]
      rfl
    refine ⟨⟨?_, fun hn => absurd hn hin⟩, ⟨?_, ?_⟩, ?_, ?_⟩
    · rintro ⟨e, he⟩
      rw [hok] at he
      cases he
    · rintro ⟨e, he⟩
      rw [hok] at he
      cases he
    · intro he
      rw [hok] at he
      cases he
    · intro i hi
      rw [hok] at hi
      cases hi
      exact lt_of_le_of_ne (std_find_le _ _) h
    · constructor
      · intro _
        simp [Introspection.compositional_name_exists, h]
      · intro _
        exact ⟨_, hok⟩

/-! ## The dispatcher `make` and the chunking loop -/

theorem defined_some {β : Type} (x : β) : defined (some x) = .ok x := rfl

theorem make_in_range {α : Type} (debug : Bool) (fsc : Nat) (k : Int) (h1 : 1 ≤ k) (h2 : k ≤ 10) :
    (make debug fsc k : Except Exc (Option (DynamicFEPointEvaluation α)))
      = .ok (some (DynamicFEPointEvaluationImpl k.toNat fsc)) := by
  interval_cases k <;> rfl

theorem getD_drop (l : List Nat) (m k : Nat) : (l.drop m).getD k 0 = l.getD (m + k) 0 := by
  simp [List.getD_eq_getElem?_getD, List.getElem?_drop]

theorem getD_of_lt (l : List Nat) (k : Nat) (h : k < l.length) : l[k]? = some (l.getD k 0) := by
  simp [List.getD_eq_getElem?_getD, List.getElem?_eq_getElem h]

theorem chunk_while_eq {α : Type} (debug : Bool) (ci : List Nat) :
    ∀ (bound : Nat) (indices : List Nat) (acc : List (Option (DynamicFEPointEvaluation α))),
    indices.length ≤ bound → (∀ x ∈ indices, x < ci.length) →
    chunk_while debug ci bound indices acc
      = .ok (indices.drop (10 * ((indices.length - 1) / 10)),
          acc ++ (List.range ((indices.length - 1) / 10)).map (fun j =>
            some (DynamicFEPointEvaluationImpl 10 (ci.getD (indices.getD (10 * j) 0) 0)))) := by
  intro bound
  induction bound with
  | zero =>
    intro indices acc hlen _
    have h0 : indices = [] := List.length_eq_zero.mp (by omega)
    subst h0
    simp [chunk_while, pure, Except.pure]
  | succ bound ih =>
    intro indices acc hlen hvalid
    by_cases h : indices.length > 10
    · have hpos : 0 < indices.length := by omega
      have hx0 : indices.getD 0 0 < ci.length := by
        apply hvalid
        have h0 : indices.getD 0 0 = indices[0] := by
          simp [List.getD_eq_getElem?_getD, List.getElem?_eq_getElem hpos]
        rw [h0]
        exact List.getElem_mem hpos
      have hq2 : (indices.length - 1) / 10 = (indices.length - 10 - 1) / 10 + 1 := by
        have hq : indices.length - 1 = (indices.length - 10 - 1) + 10 := by omega
        rw [hq, Nat.add_div_right _ (by decide)]
      have hrec := ih (indices.drop 10)
        (acc ++ [some (DynamicFEPointEvaluationImpl 10 (ci.getD (indices.getD 0 0) 0))])
        (by rw [List.length_drop]; omega)
        (fun x hx => hvalid x (List.mem_of_mem_drop hx))
      unfold chunk_while
      rw [if_pos (by simpa [N] using h)]
      rw [getD_of_lt indices 0 hpos, defined_some, ok_bind,
        getD_of_lt ci _ hx0, defined_some, ok_bind,
        make_in_range debug _ _ (by decide) (by decide), ok_bind]
      show chunk_while debug ci bound (List.drop 10 indices)
        (acc ++ [some (DynamicFEPointEvaluationImpl 10 (ci.getD (indices.getD 0 0) 0))]) = _
      rw [hrec, List.length_drop, hq2]
      have hA : List.drop (10 * ((indices.length - 10 - 1) / 10)) (List.drop 10 indices)
          = List.drop (10 * ((indices.length - 10 - 1) / 10 + 1)) indices := by
        rw [List.drop_drop]
        congr 1
        omega
      have hB : (List.range ((indices.length - 10 - 1) / 10 + 1)).map (fun j =>
            some (DynamicFEPointEvaluationImpl 10 (ci.getD (indices.getD (10 * j) 0) 0)))
          = (some (DynamicFEPointEvaluationImpl 10 (ci.getD (indices.getD 0 0) 0)) :
              Option (DynamicFEPointEvaluation α))
            :: (List.range ((indices.length - 10 - 1) / 10)).map (fun j =>
            some (DynamicFEPointEvaluationImpl 10
              (ci.getD ((List.drop 10 indices).getD (10 * j) 0) 0))) := by
        rw [List.range_succ_eq_map, List.map_cons, List.map_map]
        congr 1
        apply List.map_congr_left
        intro j _
        simp only [Function.comp, getD_drop]
        rw [show 10 * Nat.succ j = 10 + 10 * j by omega]
      rw [hA, hB, List.append_assoc, List.singleton_append]
    · unfold chunk_while
      rw [if_neg (by simpa [N] using h)]
      have hq : (indices.length - 1) / 10 = 0 := by omega
      rw [hq]
      simp [pure, Except.pure]

theorem make_default {α : Type} (debug : Bool) (fsc : Nat) (k : Int) (h : k ≤ 0 ∨ 11 ≤ k) :
    (make debug fsc k : Except Exc (Option (DynamicFEPointEvaluation α)))
      = if debug then .error Exc.ExcNotImplemented else .ok none := by
  unfold make
  split <;> first | omega | rfl

/-- C8, as stated, fails in a release build: for cardinality 0 (and 11) `make`
does not fail, it returns the null pointer. -/
theorem make_release_returns_null :
    (make false 7 0 : Except Exc (Option (DynamicFEPointEvaluation Nat))) = .ok none
      ∧ (make false 7 11 : Except Exc (Option (DynamicFEPointEvaluation Nat))) = .ok none
      ∧ (make false 7 0 : Except Exc (Option (DynamicFEPointEvaluation Nat)))
          ≠ .error Exc.ExcNotImplemented := by
  refine ⟨rfl, rfl, ?_⟩
  intro h
  cases h

/-- C8, amended: for every cardinality `k` with `1 <= k <= 10`, in debug and in
release builds, `make` returns an evaluator whose `n_components` is `k` and whose
`first_component` is the `first_selected_component` it was given; for every
`k <= 0` and every `k >= 11` it yields no evaluator: in a debug build it fails
with NotImplemented, in a release build it returns the null pointer without
failing. -/
theorem make_cardinality {α : Type} (debug : Bool) (first_selected_component : Nat) (k : Int) :
    ((1 ≤ k ∧ k ≤ 10) →
      ∃ e : DynamicFEPointEvaluation α,
        make debug first_selected_component k = .ok (some e)
          ∧ (e.n_components : Int) = k
          ∧ e.first_component = first_selected_component)
    ∧ ((k ≤ 0 ∨ 11 ≤ k) →
        (make true first_selected_component k :
            Except Exc (Option (DynamicFEPointEvaluation α))) = .error Exc.ExcNotImplemented
          ∧ (make false first_selected_component k :
            Except Exc (Option (DynamicFEPointEvaluation α))) = .ok none) := by
  constructor
  · rintro ⟨h1, h2⟩
    refine ⟨_, make_in_range debug first_selected_component k h1 h2, ?_, rfl⟩
    show ((k.toNat : Nat) : Int) = k
    omega
  · intro h
    exact ⟨make_default true first_selected_component k h,
      make_default false first_selected_component k h⟩

/-- The cardinalities 10 and 0 with first selected component 4. -/
theorem make_cardinality_witness :
    (∃ e : DynamicFEPointEvaluation Nat,
        make true 4 10 = .ok (some e) ∧ (e.n_components : Int) = 10 ∧ e.first_component = 4)
    ∧ ((make true 4 0 : Except Exc (Option (DynamicFEPointEvaluation Nat)))
          = .error Exc.ExcNotImplemented
        ∧ (make false 4 0 : Except Exc (Option (DynamicFEPointEvaluation Nat))) = .ok none) :=
  ⟨(make_cardinality true 4 10).1 (by decide), (make_cardinality true 4 0).2 (by decide)⟩

/-- The evaluators that the constructor adds for one non-empty group of existing
fields, in closed form. -/
theorem add_group_evaluators_eq {α : Type} (debug : Bool) (ci indices : List Nat)
    (acc : List (Option (DynamicFEPointEvaluation α)))
    (hn : 1 ≤ indices.length) (hvalid : ∀ x ∈ indices, x < ci.length) :
    add_group_evaluators debug ci indices acc
      = .ok (acc ++ ((List.range ((indices.length - 1) / 10 + 1)).map
          (fun j => group_evaluator ci indices j)).map some) := by
  unfold add_group_evaluators
  rw [chunk_while_eq debug ci indices.length indices acc (Nat.le_refl _) hvalid, ok_bind]
  have hq : 10 * ((indices.length - 1) / 10) < indices.length := by omega
  have hrest : (List.drop (10 * ((indices.length - 1) / 10)) indices).length
      = indices.length - 10 * ((indices.length - 1) / 10) := List.length_drop _ _
  have hfield : (List.drop (10 * ((indices.length - 1) / 10)) indices)[0]?
      = some (indices.getD (10 * ((indices.length - 1) / 10)) 0) := by
    rw [List.getElem?_drop, Nat.add_zero]
    exact getD_of_lt indices _ hq
  have hx : indices.getD (10 * ((indices.length - 1) / 10)) 0 < ci.length := by
    apply hvalid
    exact List.getElem?_mem (getD_of_lt indices _ hq)
  simp only []
  rw [hfield, defined_some, ok_bind, getD_of_lt ci _ hx, defined_some, ok_bind, hrest,
    make_in_range debug _ _ (by omega) (by omega), ok_bind]
  show Except.ok _ = Except.ok _
  congr 1
  rw [List.append_assoc]
  congr 1
  rw [List.range_succ, List.map_append, List.map_append, List.map_map]
  congr 1
  · apply List.map_congr_left
    intro j hj
    have hj2 : j < (indices.length - 1) / 10 := List.mem_range.mp hj
    simp [group_evaluator, hj2]
  · simp [group_evaluator]

/-- C7: for every group of `n >= 1` existing composition fields, whatever the
evaluators built before, the chunking loop of the constructor succeeds and adds
exactly `ceil(n/10) = (n+9)/10` evaluators, none of them null; every one but the
last has width 10, and the last has width `n mod 10`, or 10 when 10 divides `n`. -/
theorem group_chunk_count_and_widths {α : Type} (debug : Bool) (ci indices : List Nat)
    (acc : List (Option (DynamicFEPointEvaluation α)))
    (hn : 1 ≤ indices.length) (hvalid : ∀ x ∈ indices, x < ci.length) :
    ∃ new : List (DynamicFEPointEvaluation α),
      add_group_evaluators debug ci indices acc = .ok (acc ++ new.map some)
        ∧ new.length = (indices.length + 9) / 10
        ∧ (∀ j e, j + 1 < new.length → new[j]? = some e → e.n_components = 10)
        ∧ (∃ e, new[new.length - 1]? = some e
            ∧ e.n_components
                = if indices.length % 10 = 0 then 10 else indices.length % 10) := by
  refine ⟨_, add_group_evaluators_eq debug ci indices acc hn hvalid, ?_, ?_, ?_⟩
  · rw [List.length_map, List.length_range]
    omega
  · intro j e hj he
    rw [List.length_map, List.length_range] at hj
    rw [List.getElem?_map, List.getElem?_range (by omega)] at he
    simp only [Option.map_some', Option.some.injEq] at he
    subst he
    have hj2 : j < (indices.length - 1) / 10 := by omega
    simp [group_evaluator, DynamicFEPointEvaluationImpl, hj2]
  · refine ⟨group_evaluator ci indices ((indices.length - 1) / 10), ?_, ?_⟩
    · rw [List.length_map, List.length_range, List.getElem?_map,
        List.getElem?_range (by omega)]
      simp
    · simp only [group_evaluator, DynamicFEPointEvaluationImpl, lt_irrefl, if_false]
      split_ifs <;> omega

/-- A group of 23 fields, `0, ..., 22`, among 30 components `100, ..., 129`. -/
theorem group_chunk_count_and_widths_witness :
    ∃ new : List (DynamicFEPointEvaluation Nat),
      add_group_evaluators true (List.range' 100 30) (List.range 23) [] = .ok ([] ++ new.map some)
        ∧ new.length = ((List.range 23).length + 9) / 10
        ∧ (∀ j e, j + 1 < new.length → new[j]? = some e → e.n_components = 10)
        ∧ (∃ e, new[new.length - 1]? = some e
            ∧ e.n_components
                = if (List.range 23).length % 10 = 0 then 10 else (List.range 23).length % 10) :=
  group_chunk_count_and_widths true (List.range' 100 30) (List.range 23) [] (by decide)
    (by decide)

/-! ## Chunks of a group of consecutive fields tile its component range -/

theorem in_chunk_iff (c : Nat) (chunk : Nat × Nat) :
    in_chunk c chunk = true ↔ chunk.1 ≤ c ∧ c < chunk.1 + chunk.2 := by
  simp [in_chunk]

theorem tiles_count : ∀ (l : List (Nat × Nat)) (a b : Nat), tiles l a b →
    a ≤ b ∧ ∀ c, (l.filter (in_chunk c)).length = if a ≤ c ∧ c < b then 1 else 0 := by
  intro l
  induction l with
  | nil =>
    intro a b h
    have hab : a = b := h
    subst hab
    refine ⟨Nat.le_refl _, fun c => ?_⟩
    rw [if_neg (by omega)]
    rfl
  | cons ch rest ih =>
    intro a b h
    obtain ⟨h1, h2, h3⟩ : ch.1 = a ∧ 0 < ch.2 ∧ tiles rest (a + ch.2) b := h
    obtain ⟨hle, hcount⟩ := ih _ _ h3
    refine ⟨by omega, fun c => ?_⟩
    rw [List.filter_cons]
    by_cases hc : in_chunk c ch = true
    · rw [if_pos hc, List.length_cons, hcount c]
      have := (in_chunk_iff c ch).mp hc
      rw [if_neg (by omega), if_pos (by omega)]
    · rw [if_neg hc, hcount c]
      have hc2 : ¬ (ch.1 ≤ c ∧ c < ch.1 + ch.2) := fun e => hc ((in_chunk_iff c ch).mpr e)
      by_cases hc3 : a + ch.2 ≤ c ∧ c < b
      · rw [if_pos hc3, if_pos (by omega)]
      · rw [if_neg hc3, if_neg (by omega)]

theorem tiles_mem_iff (l : List (Nat × Nat)) (a b : Nat) (h : tiles l a b) (c : Nat) :
    (∃ ch ∈ l, in_chunk c ch = true) ↔ a ≤ c ∧ c < b := by
  have hcount := (tiles_count l a b h).2 c
  constructor
  · rintro ⟨ch, hmem, hin⟩
    by_contra hne
    rw [if_neg hne] at hcount
    have : ch ∈ l.filter (in_chunk c) := List.mem_filter.mpr ⟨hmem, hin⟩
    rw [List.length_eq_zero.mp hcount] at this
    simp at this
  · intro hc
    rw [if_pos hc] at hcount
    have hpos : 0 < (l.filter (in_chunk c)).length := by omega
    obtain ⟨ch, hch⟩ := List.exists_mem_of_length_pos hpos
    exact ⟨ch, (List.mem_filter.mp hch).1, (List.mem_filter.mp hch).2⟩

theorem tiles_append : ∀ (l1 l2 : List (Nat × Nat)) (a b c : Nat),
    tiles l1 a b → tiles l2 b c → tiles (l1 ++ l2) a c := by
  intro l1
  induction l1 with
  | nil =>
    intro l2 a b c h1 h2
    have hab : a = b := h1
    subst hab
    exact h2
  | cons ch rest ih =>
    intro l2 a b c h1 h2
    obtain ⟨e1, e2, e3⟩ : ch.1 = a ∧ 0 < ch.2 ∧ tiles rest (a + ch.2) b := h1
    exact ⟨e1, e2, ih l2 _ b c e3 h2⟩

theorem tiles_head (l : List (Nat × Nat)) (a b : Nat) (h : tiles l a b) (ch : Nat × Nat)
    (hh : l.head? = some ch) : ch.1 = a := by
  cases l with
  | nil => simp at hh
  | cons x rest =>
    simp only [List.head?_cons, Option.some.injEq] at hh
    subst hh
    exact h.1

theorem tiles_adjacent : ∀ (l : List (Nat × Nat)) (a b : Nat), tiles l a b →
    ∀ (j : Nat) (p q : Nat × Nat), l[j]? = some p → l[j + 1]? = some q → q.1 = p.1 + p.2 := by
  intro l
  induction l with
  | nil => intro a b _ j p q hp _; simp at hp
  | cons ch rest ih =>
    intro a b h j p q hp hq
    obtain ⟨e1, e2, e3⟩ : ch.1 = a ∧ 0 < ch.2 ∧ tiles rest (a + ch.2) b := h
    cases j with
    | zero =>
      simp only [List.getElem?_cons_zero, Option.some.injEq] at hp
      subst hp
      have hq2 : rest.head? = some q := by
        rw [List.head?_eq_getElem?]
        simpa using hq
      rw [tiles_head rest _ b e3 q hq2, e1]
    | succ j =>
      exact ih _ b e3 j p q (by simpa using hp) (by simpa using hq)

theorem tiles_group : ∀ (q a r : Nat), 0 < r →
    tiles ((List.range (q + 1)).map (fun j => (a + 10 * j, if j < q then 10 else r)))
      a (a + 10 * q + r) := by
  intro q
  induction q with
  | zero =>
    intro a r hr
    exact ⟨by simp, by simpa using hr, by simp [tiles]⟩
  | succ q ih =>
    intro a r hr
    rw [List.range_succ_eq_map, List.map_cons, List.map_map]
    refine ⟨by simp, by simp, ?_⟩
    have h := ih (a + 10) r hr
    have e : (List.range (q + 1)).map
          ((fun j => (a + 10 * j, if j < q + 1 then 10 else r)) ∘ Nat.succ)
        = (List.range (q + 1)).map (fun j => (a + 10 + 10 * j, if j < q then 10 else r)) := by
      apply List.map_congr_left
      intro j _
      simp only [Function.comp, Nat.succ_eq_add_one, Nat.add_lt_add_iff_right]
      congr 1
      omega
    rw [e]
    simp only [Nat.zero_lt_succ, if_true, Nat.mul_zero, Nat.add_zero]
    have e2 : a + 10 * (q + 1) + r = a + 10 + 10 * q + r := by omega
    rw [e2]
    exact h

theorem getD_range_map (base n k : Nat) (h : k < n) :
    ((List.range n).map (fun i => base + i)).getD k 0 = base + k := by
  simp [List.getD_eq_getElem?_getD, List.getElem?_map, List.getElem?_range h]

theorem getD_range' (s n k : Nat) (h : k < n) : (List.range' s n).getD k 0 = s + k := by
  simp [List.getD_eq_getElem?_getD, List.getElem?_range', h]

theorem group_chunks_consecutive {α : Type} (base n_c s n : Nat) (hn : 1 ≤ n)
    (hs : s + n ≤ n_c) :
    ((List.range ((n - 1) / 10 + 1)).map (fun j =>
        (group_evaluator ((List.range n_c).map (fun i => base + i)) (List.range' s n) j :
          DynamicFEPointEvaluation α))).map DynamicFEPointEvaluation.chunk
      = (List.range ((n - 1) / 10 + 1)).map (fun j =>
          (base + s + 10 * j, if j < (n - 1) / 10 then 10 else n - 10 * ((n - 1) / 10))) := by
  rw [List.map_map]
  apply List.map_congr_left
  intro j hj
  have hj2 : j < (n - 1) / 10 + 1 := List.mem_range.mp hj
  have hj3 : 10 * j < n := by omega
  simp only [Function.comp, group_evaluator, DynamicFEPointEvaluation.chunk,
    DynamicFEPointEvaluationImpl, List.length_range']
  rw [getD_range' s n _ hj3, getD_range_map base n_c _ (by omega)]
  congr 1
  omega

theorem add_consecutive_group {α : Type} (debug : Bool) (base n_c s n : Nat)
    (acc : List (Option (DynamicFEPointEvaluation α))) (hn : 1 ≤ n) (hs : s + n ≤ n_c) :
    ∃ new : List (DynamicFEPointEvaluation α),
      add_group_evaluators debug ((List.range n_c).map (fun i => base + i)) (List.range' s n) acc
        = .ok (acc ++ new.map some)
      ∧ tiles (new.map DynamicFEPointEvaluation.chunk) (base + s) (base + s + n) := by
  have hvalid : ∀ x ∈ List.range' s n,
      x < ((List.range n_c).map (fun i => base + i)).length := by
    intro x hx
    rw [List.length_map, List.length_range]
    have := List.mem_range'_1.mp hx
    omega
  have h := add_group_evaluators_eq debug ((List.range n_c).map (fun i => base + i))
    (List.range' s n) acc (by simpa using hn) hvalid
  rw [List.length_range'] at h
  refine ⟨_, h, ?_⟩
  rw [group_chunks_consecutive base n_c s n hn hs]
  have ht := tiles_group ((n - 1) / 10) (base + s) (n - 10 * ((n - 1) / 10)) (by omega)
  have e : base + s + 10 * ((n - 1) / 10) + (n - 10 * ((n - 1) / 10)) = base + s + n := by
    omega
  rw [e] at ht
  exact ht

theorem fold_run_groups {α : Type} (debug : Bool) (base n_c : Nat)
    (fields_with : Nat → List Nat) : ∀ (bases : List Nat)
    (acc : List (Option (DynamicFEPointEvaluation α))),
    (∀ g ∈ bases.map fields_with, ∃ s n, 1 ≤ n ∧ s + n ≤ n_c ∧ g = List.range' s n) →
    ∃ new : List (DynamicFEPointEvaluation α),
      bases.foldlM (fun compositions base_element_index =>
        add_group_evaluators debug ((List.range n_c).map (fun i => base + i))
          (fields_with base_element_index) compositions) acc
        = .ok (acc ++ new.map some)
      ∧ ∀ f, ((new.map DynamicFEPointEvaluation.chunk).filter (in_chunk (base + f))).length
          = ((bases.map fields_with).filter (fun g => decide (f ∈ g))).length := by
  intro bases
  induction bases with
  | nil =>
    intro acc _
    exact ⟨[], by simp [pure, Except.pure], fun f => rfl⟩
  | cons b bases ih =>
    intro acc h
    obtain ⟨s, n, hn, hs, hg⟩ := h (fields_with b) (by simp)
    obtain ⟨new1, hok1, ht1⟩ := add_consecutive_group debug base n_c s n acc hn hs
    rw [← hg] at hok1
    obtain ⟨new2, hok2, hc2⟩ := ih (acc ++ new1.map some)
      (fun g hgm => h g (by
        rw [List.map_cons]
        exact List.mem_cons_of_mem _ hgm))
    refine ⟨new1 ++ new2, ?_, ?_⟩
    · rw [List.foldlM_cons, hok1, ok_bind, hok2, List.map_append, List.append_assoc]
    · intro f
      rw [List.map_append, List.filter_append, List.length_append, hc2 f,
        (tiles_count _ _ _ ht1).2 (base + f), List.map_cons, List.filter_cons, hg]
      by_cases hf : f ∈ List.range' s n
      · have := List.mem_range'_1.mp hf
        rw [if_pos (by omega), if_pos (by simpa using hf), List.length_cons]
        omega
      · have hf2 : ¬ (s ≤ f ∧ f < s + n) := fun e => hf (List.mem_range'_1.mpr e)
        rw [if_neg (by omega), if_neg (by simpa using hf)]
        omega

theorem compositional_fields_eq (d n_c : Nat) (melt : Bool) :
    (setup_component_indices d n_c melt).2.compositional_fields
      = (List.range n_c).map (fun i => (if melt then 2 * d + 4 else d + 2) + i) := by
  cases melt with
  | false => rw [setup_component_indices_no_melt]; rfl
  | true => rw [setup_component_indices_melt_eq]; rfl

theorem getElem?_range_map (base n f : Nat) (h : f < n) :
    ((List.range n).map (fun i => base + i))[f]? = some (base + f) := by
  simp [List.getElem?_map, List.getElem?_range h]

theorem filter_chunk_length {α : Type} (new : List (DynamicFEPointEvaluation α)) (c : Nat) :
    (new.filter (fun e => in_chunk c e.chunk)).length
      = ((new.map DynamicFEPointEvaluation.chunk).filter (in_chunk c)).length := by
  rw [List.filter_map, List.length_map]
  rfl

/-- C6: the composition component indices being those of `setup_component_indices`,
(1) for every group of `n >= 1` consecutive fields `s, ..., s+n-1` among the `n_c`
composition fields, the constructor adds evaluators, none null, whose chunks are
adjacent half-open ranges: the first starts at the component index of field `s`,
each next one starts where the previous one ends, a component lies in one of the
chunks exactly when it is the component index of a field of the group, and no
component lies in two chunks; (2) when the groups partition the fields
`0, ..., n_c-1` into such runs, the constructor builds evaluators, none null, such
that the component of every composition field lies in exactly one chunk. -/
theorem composition_chunks_tile {α : Type} (debug : Bool) (d n_c : Nat) (melt : Bool) :
    (∀ (s n : Nat) (acc : List (Option (DynamicFEPointEvaluation α))), 1 ≤ n → s + n ≤ n_c →
      ∃ new : List (DynamicFEPointEvaluation α),
        add_group_evaluators debug (setup_component_indices d n_c melt).2.compositional_fields
            (List.range' s n) acc = .ok (acc ++ new.map some)
        ∧ (∃ e0, new.head? = some e0
            ∧ (setup_component_indices d n_c melt).2.compositional_fields[s]?
                = some e0.first_component)
        ∧ (∀ j e1 e2, new[j]? = some e1 → new[j + 1]? = some e2 →
            e2.first_component = e1.first_component + e1.n_components)
        ∧ (∀ c, (∃ e ∈ new, in_chunk c e.chunk = true)
            ↔ (∃ f, s ≤ f ∧ f < s + n
                ∧ (setup_component_indices d n_c melt).2.compositional_fields[f]? = some c))
        ∧ (∀ c, (new.filter (fun e => in_chunk c e.chunk)).length ≤ 1))
    ∧ (∀ sim : SimulatorAccess,
        sim.introspection.component_indices = (setup_component_indices d n_c melt).2 →
        partition_into_runs (sim.composition_base_element_indices.map
          sim.compositional_field_indices_with_base_element) n_c →
        ∃ comps : List (DynamicFEPointEvaluation α),
          create_composition_evaluators debug sim = .ok (comps.map some)
          ∧ ∀ f, f < n_c → ∃ c,
              (setup_component_indices d n_c melt).2.compositional_fields[f]? = some c
              ∧ (comps.filter (fun e => in_chunk c e.chunk)).length = 1) := by
  rw [compositional_fields_eq]
  generalize hB : (if melt = true then 2 * d + 4 else d + 2) = B
  constructor
  · intro s n acc hn hs
    obtain ⟨new, hok, ht⟩ := add_consecutive_group debug B n_c s n acc hn hs
    refine ⟨new, hok, ?_, ?_, ?_, ?_⟩
    · cases hnew : new with
      | nil =>
        rw [hnew] at ht
        have : B + s = B + s + n := ht
        omega
      | cons e0 rest =>
        refine ⟨e0, rfl, ?_⟩
        rw [getElem?_range_map B n_c s (by omega)]
        have := tiles_head _ _ _ ht e0.chunk (by rw [hnew]; rfl)
        simp only [DynamicFEPointEvaluation.chunk] at this
        rw [this]
    · intro j e1 e2 h1 h2
      have := tiles_adjacent _ _ _ ht j e1.chunk e2.chunk
        (by rw [List.getElem?_map, h1]; rfl) (by rw [List.getElem?_map, h2]; rfl)
      exact this
    · intro c
      have hiff := tiles_mem_iff _ _ _ ht c
      constructor
      · rintro ⟨e, he, hin⟩
        have hc := hiff.mp ⟨e.chunk, List.mem_map.mpr ⟨e, he, rfl⟩, hin⟩
        refine ⟨c - B, by omega, by omega, ?_⟩
        rw [getElem?_range_map B n_c _ (by omega)]
        congr 1
        omega
      · rintro ⟨f, hf1, hf2, hf3⟩
        rw [getElem?_range_map B n_c f (by omega)] at hf3
        have hc : B + f = c := Option.some.inj hf3
        obtain ⟨ch, hmem, hin⟩ := hiff.mpr (by omega)
        obtain ⟨e, he, rfl⟩ := List.mem_map.mp hmem
        exact ⟨e, he, hin⟩
    · intro c
      rw [filter_chunk_length, (tiles_count _ _ _ ht).2 c]
      split_ifs <;> omega
  · intro sim hci hruns
    have h := fold_run_groups debug B n_c
      sim.compositional_field_indices_with_base_element sim.composition_base_element_indices
      ([] : List (Option (DynamicFEPointEvaluation α))) hruns.1
    obtain ⟨new, hok, hcount⟩ := h
    refine ⟨new, ?_, ?_⟩
    · unfold create_composition_evaluators
      rw [hci, compositional_fields_eq, hB, hok, List.nil_append]
    · intro f hf
      refine ⟨B + f, getElem?_range_map B n_c f hf, ?_⟩
      rw [filter_chunk_length, hcount f]
      exact hruns.2 f hf

/-- Part (1) for the fields 3, ..., 25 of 30 in dimension 2 without melt, and
part (2) for four composition fields in the two groups `2, 3` and `0, 1`. -/
theorem composition_chunks_tile_witness :
    (∃ new : List (DynamicFEPointEvaluation Nat),
        add_group_evaluators true (setup_component_indices 2 30 false).2.compositional_fields
            (List.range' 3 23) [] = .ok ([] ++ new.map some)
        ∧ (∃ e0, new.head? = some e0
            ∧ (setup_component_indices 2 30 false).2.compositional_fields[3]?
                = some e0.first_component)
        ∧ (∀ j e1 e2, new[j]? = some e1 → new[j + 1]? = some e2 →
            e2.first_component = e1.first_component + e1.n_components)
        ∧ (∀ c, (∃ e ∈ new, in_chunk c e.chunk = true)
            ↔ (∃ f, 3 ≤ f ∧ f < 3 + 23
                ∧ (setup_component_indices 2 30 false).2.compositional_fields[f]? = some c))
        ∧ (∀ c, (new.filter (fun e => in_chunk c e.chunk)).length ≤ 1))
    ∧ (∃ comps : List (DynamicFEPointEvaluation Nat),
          create_composition_evaluators true
            { dim := 2
              introspection :=
                { melt_introspection with
                  component_indices := (setup_component_indices 2 4 false).2 }
              parameters := melt_parameters
              use_discontinuous_p_c := false
              composition_base_element_indices := [1, 0]
              compositional_field_indices_with_base_element :=
                fun b => if b = 0 then [0, 1] else [2, 3] }
            = .ok (comps.map some)
          ∧ ∀ f, f < 4 → ∃ c,
              (setup_component_indices 2 4 false).2.compositional_fields[f]? = some c
              ∧ (comps.filter (fun e => in_chunk c e.chunk)).length = 1) :=
  ⟨(composition_chunks_tile true 2 30 false).1 3 23 [] (by decide) (by decide),
   (composition_chunks_tile true 2 4 false).2
      { dim := 2
        introspection :=
          { melt_introspection with
            component_indices := (setup_component_indices 2 4 false).2 }
        parameters := melt_parameters
        use_discontinuous_p_c := false
        composition_base_element_indices := [1, 0]
        compositional_field_indices_with_base_element :=
          fun b => if b = 0 then [0, 1] else [2, 3] }
      rfl
      ⟨by
        intro g hg
        simp only [List.map_cons, List.map_nil, List.mem_cons, List.mem_singleton] at hg
        rcases hg with rfl | rfl | hg
        · exact ⟨2, 2, by decide, by decide, rfl⟩
        · exact ⟨0, 2, by decide, by decide, rfl⟩
        · simp at hg,
       by
        intro f hf
        interval_cases f <;> rfl⟩⟩

/-! ## `get_solution` with melt transport -/

/-- The Introspection object of the melt configuration is the one that the
constructor builds. -/
theorem melt_introspection_constructed :
    Introspection.construct 2 melt_parameters true = .ok melt_introspection := by
  rfl

/-- The evaluator of the melt configuration has the members that the constructor
builds: the same melt component indices and, for every sub-evaluator, the same
first selected component and width. -/
theorem melt_evaluator_constructed :
    ∃ ev : SolutionEvaluatorImplementation Nat,
      SolutionEvaluatorImplementation.construct true melt_simulator 0 = .ok ev
      ∧ ev.melt_component_indices = melt_evaluator.melt_component_indices
      ∧ ev.compositions.length = melt_evaluator.compositions.length
      ∧ (ev.velocity.first_selected_component, ev.velocity.n_components)
          = (melt_evaluator.velocity.first_selected_component,
              melt_evaluator.velocity.n_components)
      ∧ ev.pressure.map (fun e => (e.first_selected_component, e.n_components))
          = melt_evaluator.pressure.map (fun e => (e.first_selected_component, e.n_components))
      ∧ (ev.temperature.first_selected_component, ev.temperature.n_components)
          = (melt_evaluator.temperature.first_selected_component,
              melt_evaluator.temperature.n_components)
      ∧ ev.fluid_velocity.map (fun e => (e.first_selected_component, e.n_components))
          = melt_evaluator.fluid_velocity.map
              (fun e => (e.first_selected_component, e.n_components))
      ∧ ev.fluid_pressure.map (fun e => (e.first_selected_component, e.n_components))
          = melt_evaluator.fluid_pressure.map
              (fun e => (e.first_selected_component, e.n_components))
      ∧ ev.compaction_pressure.map (fun e => (e.first_selected_component, e.n_components))
          = melt_evaluator.compaction_pressure.map
              (fun e => (e.first_selected_component, e.n_components)) :=
  ⟨_, rfl, rfl, rfl, rfl, rfl, rfl, rfl, rfl, rfl⟩

/-- C5 fails on the code: in the melt configuration, where the velocity evaluator
holds `(1, 2)` and the fluid-velocity evaluator holds `(5, 6)`, `get_solution`
succeeds and writes `1, 2`, the velocity, into the fluid-velocity slots 4 and 5;
the fluid pressure 7 and compaction pressure 8 are in their slots 2 and 3. -/
theorem get_solution_melt_writes_velocity :
    melt_evaluator.get_solution true 0 (List.replicate 8 0) = .ok [1, 2, 7, 8, 1, 2, 3, 4]
      ∧ melt_evaluator.get_solution false 0 (List.replicate 8 0)
          = .ok [1, 2, 7, 8, 1, 2, 3, 4]
      ∧ (melt_evaluator.fluid_velocity.bind (fun e => e.values)).map
          (fun v => [v 0 0, v 0 1]) = some [5, 6]
      ∧ melt_evaluator.melt_component_indices.1 = 4
      ∧ melt_simulator.introspection.component_indices.fluid_velocities = [some 4, some 5] := by
  refine ⟨rfl, rfl, rfl, rfl, rfl⟩

/-! ## The canonical order of components and blocks -/

/-- C11: `setup_component_indices` follows the canonical order: `velocities[i] = i`
for `i < d`; with melt off `pressure = d`, `temperature = d+1`,
`composition[i] = d+2+i` and `n_components = d+2+n_c` (the melt members stay
unassigned); with melt on `fluid_pressure = d`, `compaction_pressure = d+1`,
`fluid_velocities[i] = d+2+i`, `pressure = 2d+2`, `temperature = 2d+3`,
`composition[i] = 2d+4+i` and `n_components = 2d+4+n_c`.  In particular `d = 2`,
`n_c = 3`, melt off gives 7 components and `d = 3`, `n_c = 0`, melt on gives 10. -/
theorem setup_component_indices_canonical (d n_c : Nat) :
    ((setup_component_indices d n_c false).1 = d + 2 + n_c
      ∧ (setup_component_indices d n_c false).2.velocities.length = d
      ∧ (∀ i, i < d → (setup_component_indices d n_c false).2.velocities[i]? = some (some i))
      ∧ (setup_component_indices d n_c false).2.pressure = some d
      ∧ (setup_component_indices d n_c false).2.temperature = some (d + 1)
      ∧ (setup_component_indices d n_c false).2.compositional_fields.length = n_c
      ∧ (∀ i, i < n_c →
          (setup_component_indices d n_c false).2.compositional_fields[i]? = some (d + 2 + i))
      ∧ (setup_component_indices d n_c false).2.fluid_pressure = none
      ∧ (setup_component_indices d n_c false).2.compaction_pressure = none
      ∧ (∀ i, i < d → (setup_component_indices d n_c false).2.fluid_velocities[i]? = some none))
    ∧ ((setup_component_indices d n_c true).1 = 2 * d + 4 + n_c
      ∧ (setup_component_indices d n_c true).2.velocities.length = d
      ∧ (∀ i, i < d → (setup_component_indices d n_c true).2.velocities[i]? = some (some i))
      ∧ (setup_component_indices d n_c true).2.fluid_pressure = some d
      ∧ (setup_component_indices d n_c true).2.compaction_pressure = some (d + 1)
      ∧ (setup_component_indices d n_c true).2.fluid_velocities.length = d
      ∧ (∀ i, i < d →
          (setup_component_indices d n_c true).2.fluid_velocities[i]? = some (some (d + 2 + i)))
      ∧ (setup_component_indices d n_c true).2.pressure = some (2 * d + 2)
      ∧ (setup_component_indices d n_c true).2.temperature = some (2 * d + 3)
      ∧ (setup_component_indices d n_c true).2.compositional_fields.length = n_c
      ∧ (∀ i, i < n_c →
          (setup_component_indices d n_c true).2.compositional_fields[i]?
            = some (2 * d + 4 + i)))
    ∧ (setup_component_indices 2 3 false).1 = 7
    ∧ (setup_component_indices 3 0 true).1 = 10 := by
  refine ⟨?_, ?_, by decide, by decide⟩
  · rw [setup_component_indices_no_melt]
    refine ⟨rfl, by simp, ?_, rfl, rfl, by simp, ?_, rfl, rfl, ?_⟩
    · intro i hi
      simp [List.getElem?_map, List.getElem?_range hi]
    · intro i hi
      simp [List.getElem?_map, List.getElem?_range hi]
    · intro i hi
      simp [List.getElem?_replicate, hi]
  · rw [setup_component_indices_melt_eq]
    refine ⟨rfl, by simp, ?_, rfl, rfl, by simp, ?_, rfl, rfl, by simp, ?_⟩
    · intro i hi
      simp [List.getElem?_map, List.getElem?_range hi]
    · intro i hi
      simp [List.getElem?_map, List.getElem?_range hi]
    · intro i hi
      simp [List.getElem?_map, List.getElem?_range hi]

/-- C14: with melt transport and `s = 0` for a direct solver, `s = 1` otherwise,
`setup_blocks` returns `velocities = 0`, `fluid_pressure = compaction_pressure = s`,
`fluid_velocities = s+1`, `pressure = s+2`, `temperature = s+3`,
`composition[i] = s+4+i` and `n_blocks = s+4+n_c`; so fluid and compaction pressure
are in one block under both solver choices, and the block of the fluid velocity is
the block of no other field. -/
theorem setup_blocks_melt_layout (n_c : Nat) (direct : Bool) :
    (setup_blocks n_c true direct).1 = (if direct then 0 else 1) + 4 + n_c
    ∧ (setup_blocks n_c true direct).2.velocities = some 0
    ∧ (setup_blocks n_c true direct).2.fluid_pressure = some (if direct then 0 else 1)
    ∧ (setup_blocks n_c true direct).2.compaction_pressure = some (if direct then 0 else 1)
    ∧ (setup_blocks n_c true direct).2.fluid_velocities = some ((if direct then 0 else 1) + 1)
    ∧ (setup_blocks n_c true direct).2.pressure = some ((if direct then 0 else 1) + 2)
    ∧ (setup_blocks n_c true direct).2.temperature = some ((if direct then 0 else 1) + 3)
    ∧ (setup_blocks n_c true direct).2.compositional_fields.length = n_c
    ∧ (∀ i, i < n_c → (setup_blocks n_c true direct).2.compositional_fields[i]?
        = some ((if direct then 0 else 1) + 4 + i))
    ∧ (setup_blocks n_c true direct).2.fluid_pressure
        = (setup_blocks n_c true direct).2.compaction_pressure
    ∧ (setup_blocks n_c true direct).2.fluid_velocities
        ≠ (setup_blocks n_c true direct).2.velocities
    ∧ (setup_blocks n_c true direct).2.fluid_velocities
        ≠ (setup_blocks n_c true direct).2.fluid_pressure
    ∧ (setup_blocks n_c true direct).2.fluid_velocities
        ≠ (setup_blocks n_c true direct).2.compaction_pressure
    ∧ (setup_blocks n_c true direct).2.fluid_velocities
        ≠ (setup_blocks n_c true direct).2.pressure
    ∧ (setup_blocks n_c true direct).2.fluid_velocities
        ≠ (setup_blocks n_c true direct).2.temperature
    ∧ (∀ b ∈ (setup_blocks n_c true direct).2.compositional_fields,
        (setup_blocks n_c true direct).2.fluid_velocities ≠ some b) := by
  rw [setup_blocks_melt_eq]
  refine ⟨rfl, rfl, rfl, rfl, rfl, rfl, rfl, by simp, ?_, rfl, ?_, ?_, ?_, ?_, ?_, ?_⟩
  · intro i hi
    simp [List.getElem?_map, List.getElem?_range hi]
  · cases direct <;> simp
  · cases direct <;> simp
  · cases direct <;> simp
  · cases direct <;> simp
  · cases direct <;> simp
  · intro b hb
    obtain ⟨i, _, rfl⟩ := List.mem_map.mp hb
    cases direct <;> simp <;> omega

/-- C15: with melt transport off and `s = 0` for a direct solver, `s = 1` otherwise,
`setup_blocks` returns `velocities = 0`, `pressure = s`, `temperature = s+1`,
`composition[i] = s+2+i`, one block per composition field, and
`n_blocks = s+2+n_c`; for `n_c = 0` the composition block list is empty and
`n_blocks = s+2`.  In particular three compositions with the iterative solver give
6 blocks. -/
theorem setup_blocks_no_melt_layout (n_c : Nat) (direct : Bool) :
    (setup_blocks n_c false direct).1 = (if direct then 0 else 1) + 2 + n_c
    ∧ (setup_blocks n_c false direct).2.velocities = some 0
    ∧ (setup_blocks n_c false direct).2.pressure = some (if direct then 0 else 1)
    ∧ (setup_blocks n_c false direct).2.temperature = some ((if direct then 0 else 1) + 1)
    ∧ (setup_blocks n_c false direct).2.compositional_fields.length = n_c
    ∧ (∀ i, i < n_c → (setup_blocks n_c false direct).2.compositional_fields[i]?
        = some ((if direct then 0 else 1) + 2 + i))
    ∧ (setup_blocks n_c false direct).2.compositional_fields.Nodup
    ∧ (setup_blocks 0 false direct).2.compositional_fields = []
    ∧ (setup_blocks 0 false direct).1 = (if direct then 0 else 1) + 2
    ∧ (setup_blocks 3 false false).1 = 6 := by
  refine ⟨?_, ?_, ?_, ?_, ?_, ?_, ?_, ?_, ?_, by decide⟩
  all_goals rw [setup_blocks_no_melt]
  · simp
  · intro i hi
    simp [List.getElem?_map, List.getElem?_range hi]
  · apply List.Nodup.map _ (List.nodup_range n_c)
    intro a b hab
    simpa using hab
  · rfl

/-! ## The base elements -/

/-- C16: for every configuration in which `n_compositional_fields` is the number of
declared composition names, with melt on and with melt off, in debug and in
release builds, `setup_fes` returns, and the sum of the multiplicities it returns
is the `n_components` that `setup_component_indices` returns. -/
theorem multiplicities_sum (d : Nat) (p : Parameters) (debug : Bool)
    (hn : p.n_compositional_fields = p.names_of_compositional_fields.length) :
    ∃ r, setup_fes d p debug = .ok r
      ∧ r.2.2.sum = (setup_component_indices d p.names_of_compositional_fields.length
          p.include_melt_transport).1 := by
  cases hm : p.include_melt_transport with
  | false =>
    refine ⟨_, setup_fes_no_melt d p debug hm, ?_⟩
    rw [setup_component_indices_no_melt, hn]
    simp only [List.sum_cons, List.sum_nil]
    omega
  | true =>
    refine ⟨_, setup_fes_melt d p debug hm, ?_⟩
    rw [setup_component_indices_melt_eq, hn]
    simp only [List.sum_cons, List.sum_nil]
    omega

/-- The multiplicities of the melt configuration in dimension 2 sum to its 8
components. -/
theorem multiplicities_sum_witness :
    ∃ r, setup_fes 2 melt_parameters true = .ok r
      ∧ r.2.2.sum = (setup_component_indices 2
          melt_parameters.names_of_compositional_fields.length
          melt_parameters.include_melt_transport).1 :=
  multiplicities_sum 2 melt_parameters true rfl

/-- C17: in debug and in release builds (so the two closing assertions hold)
`setup_fes` returns, with melt off, exactly the 4 descriptors velocity, pressure,
temperature, compositions with multiplicities `d, 1, 1, n_c` and, with melt on,
exactly the 7 descriptors velocity, fluid pressure, compaction pressure, fluid
velocity, pressure, temperature, compositions with multiplicities
`d, 1, 1, d, 1, 1, n_c`; the indices stored in `BaseElements` are the positions of
the descriptors in that list, and all compositions share the last descriptor. -/
theorem setup_fes_catalog (d : Nat) (p : Parameters) (debug : Bool) :
    setup_fes d p debug = .ok
      (if p.include_melt_transport then
        ({ velocities := some 0, fluid_pressure := some 1, compaction_pressure := some 2,
           fluid_velocities := some 3, pressure := some 4, temperature := some 5,
           compositional_fields := some 6 },
         [FiniteElement.FE_Q p.stokes_velocity_degree, pressure_element p, pressure_element p,
          FiniteElement.FE_Q p.stokes_velocity_degree, pressure_element p,
          FiniteElement.FE_Q p.temperature_degree, FiniteElement.FE_Q p.composition_degree],
         [d, 1, 1, d, 1, 1, p.n_compositional_fields])
      else
        ({ velocities := some 0, pressure := some 1, temperature := some 2,
           compositional_fields := some 3, fluid_velocities := none, fluid_pressure := none,
           compaction_pressure := none },
         [FiniteElement.FE_Q p.stokes_velocity_degree, pressure_element p,
          FiniteElement.FE_Q p.temperature_degree, FiniteElement.FE_Q p.composition_degree],
         [d, 1, 1, p.n_compositional_fields])) := by
  cases hm : p.include_melt_transport with
  | false => exact setup_fes_no_melt d p debug hm
  | true => exact setup_fes_melt d p debug hm

theorem degree_minus_one_eq (v : Nat) (h1 : 1 ≤ v) (h2 : v < 4294967296) :
    degree_minus_one v = v - 1 := by
  unfold degree_minus_one
  omega

/-- C18: for every configuration whose velocity degree `v` is an `unsigned int`
with `v >= 1`, in debug and in release builds, the descriptor that `setup_fes`
stores at the pressure position is `FE_DGP(v-1)` when
`use_locally_conservative_discretization` is set and `FE_Q(v-1)` otherwise, and
the descriptor at the velocity position is `FE_Q(v)`. -/
theorem pressure_descriptor (d : Nat) (p : Parameters) (debug : Bool)
    (h1 : 1 ≤ p.stokes_velocity_degree) (h2 : p.stokes_velocity_degree < 4294967296) :
    ∃ bes fes mult i j, setup_fes d p debug = .ok (bes, fes, mult)
      ∧ bes.pressure = some i
      ∧ fes[i]? = some (if p.use_locally_conservative_discretization
          then FiniteElement.FE_DGP (p.stokes_velocity_degree - 1)
          else FiniteElement.FE_Q (p.stokes_velocity_degree - 1))
      ∧ bes.velocities = some j
      ∧ fes[j]? = some (FiniteElement.FE_Q p.stokes_velocity_degree) := by
  have hp : pressure_element p = (if p.use_locally_conservative_discretization
      then FiniteElement.FE_DGP (p.stokes_velocity_degree - 1)
      else FiniteElement.FE_Q (p.stokes_velocity_degree - 1)) := by
    unfold pressure_element
    rw [degree_minus_one_eq _ h1 h2]
  cases hm : p.include_melt_transport with
  | false =>
    exact ⟨_, _, _, 1, 0, setup_fes_no_melt d p debug hm, rfl, by rw [← hp]; rfl, rfl, rfl⟩
  | true =>
    exact ⟨_, _, _, 4, 0, setup_fes_melt d p debug hm, rfl, by rw [← hp]; rfl, rfl, rfl⟩

/-- The melt configuration in dimension 2 has velocity degree 2. -/
theorem pressure_descriptor_witness :
    ∃ bes fes mult i j, setup_fes 2 melt_parameters true = .ok (bes, fes, mult)
      ∧ bes.pressure = some i
      ∧ fes[i]? = some (if melt_parameters.use_locally_conservative_discretization
          then FiniteElement.FE_DGP (melt_parameters.stokes_velocity_degree - 1)
          else FiniteElement.FE_Q (melt_parameters.stokes_velocity_degree - 1))
      ∧ bes.velocities = some j
      ∧ fes[j]? = some (FiniteElement.FE_Q melt_parameters.stokes_velocity_degree) :=
  pressure_descriptor 2 melt_parameters true (by decide) (by decide)

/-! ## Monotone and surjective component-to-block map -/

theorem block_of_component_mono (d : Nat) (melt direct : Bool) (c1 c2 : Nat) (h : c1 ≤ c2) :
    block_of_component d melt direct c1 ≤ block_of_component d melt direct c2 := by
  simp only [block_of_component]
  cases melt <;> cases direct <;> simp <;> split_ifs <;> omega

theorem block_of_component_surj (d n_c : Nat) (melt direct : Bool) (hd : 1 ≤ d) (b : Nat)
    (hb : b < (setup_blocks n_c melt direct).1) :
    ∃ c, c < (setup_component_indices d n_c melt).1
      ∧ block_of_component d melt direct c = b := by
  obtain ⟨s, hs1, hs2⟩ : ∃ s, s ≤ 1 ∧ (if direct = true then 0 else 1) = s :=
    ⟨_, by cases direct <;> simp, rfl⟩
  cases melt with
  | false =>
    rw [setup_blocks_no_melt] at hb
    rw [setup_component_indices_no_melt]
    simp only [block_of_component, hs2] at hb ⊢
    by_cases h0 : b = 0
    · refine ⟨0, by omega, ?_⟩
      rw [if_pos (by omega)]
      exact h0.symm
    · refine ⟨d + (b - s), by omega, ?_⟩
      simp
      omega
  | true =>
    rw [setup_blocks_melt_eq] at hb
    rw [setup_component_indices_melt_eq]
    simp only [block_of_component, hs2] at hb ⊢
    by_cases h0 : b = 0
    · refine ⟨0, by omega, ?_⟩
      rw [if_pos (by omega)]
      exact h0.symm
    · by_cases h1 : b = s
      · refine ⟨d, by omega, ?_⟩
        simp
        omega
      · by_cases h2 : b = s + 1
        · refine ⟨d + 2, by omega, ?_⟩
          simp
          split_ifs <;> omega
        · refine ⟨2 * d + 2 + (b - (s + 2)), by omega, ?_⟩
          simp
          split_ifs <;> omega

/-- C12: in every configuration (any `d`, melt setting and solver choice, debug or
release build, `n_compositional_fields` the number of declared names, with block
indices below the sentinel) the constructor succeeds, every component below
`n_components` has an entry in `components_to_blocks`, and the block indices are
non-decreasing along the component order. -/
theorem components_to_blocks_monotone (d : Nat) (p : Parameters) (debug : Bool)
    (hn : p.n_compositional_fields = p.names_of_compositional_fields.length)
    (hsmall : p.names_of_compositional_fields.length + 5 ≤ invalid_unsigned_int) :
    ∃ intro, Introspection.construct d p debug = .ok intro
      ∧ (∀ c, c < intro.n_components → ∃ b, intro.components_to_blocks[c]? = some b)
      ∧ ∀ c1 c2 b1 b2, c1 ≤ c2 → c2 < intro.n_components →
          intro.components_to_blocks[c1]? = some b1 →
          intro.components_to_blocks[c2]? = some b2 → b1 ≤ b2 := by
  obtain ⟨intro, hok, hnc, _, _, _, _, htab⟩ := construct_eq d p debug hn hsmall
  have hget : ∀ c, c < intro.n_components → intro.components_to_blocks[c]?
      = some (block_of_component d p.include_melt_transport p.use_direct_stokes_solver c) := by
    intro c hc
    rw [htab, List.getElem?_map, List.getElem?_range (by rw [← hnc]; exact hc)]
    rfl
  refine ⟨intro, hok, fun c hc => ⟨_, hget c hc⟩, ?_⟩
  intro c1 c2 b1 b2 h12 hc2 e1 e2
  rw [hget c1 (by omega)] at e1
  rw [hget c2 hc2] at e2
  rw [← Option.some.inj e1, ← Option.some.inj e2]
  exact block_of_component_mono d _ _ c1 c2 h12

/-- Scenario A in a debug build. -/
theorem components_to_blocks_monotone_witness :
    ∃ intro, Introspection.construct 2
        { names_of_compositional_fields := ["a", "b", "c"], n_compositional_fields := 3,
          include_melt_transport := false, use_direct_stokes_solver := false,
          use_locally_conservative_discretization := false, stokes_velocity_degree := 2,
          temperature_degree := 2, composition_degree := 2 } true = .ok intro
      ∧ (∀ c, c < intro.n_components → ∃ b, intro.components_to_blocks[c]? = some b)
      ∧ ∀ c1 c2 b1 b2, c1 ≤ c2 → c2 < intro.n_components →
          intro.components_to_blocks[c1]? = some b1 →
          intro.components_to_blocks[c2]? = some b2 → b1 ≤ b2 :=
  components_to_blocks_monotone 2
    { names_of_compositional_fields := ["a", "b", "c"], n_compositional_fields := 3,
      include_melt_transport := false, use_direct_stokes_solver := false,
      use_locally_conservative_discretization := false, stokes_velocity_degree := 2,
      temperature_degree := 2, composition_degree := 2 } true rfl (by decide)

/-- C13: in every configuration (dimension at least 1, any melt setting and solver
choice, debug or release build, `n_compositional_fields` the number of declared
names, with block indices below the sentinel) the constructor succeeds with the
`n_blocks` of `setup_blocks`, and for every block index `b < n_blocks` there is a
component `c < n_components` with `components_to_blocks[c] = b`. -/
theorem components_to_blocks_surjective (d : Nat) (p : Parameters) (debug : Bool)
    (hd : 1 ≤ d)
    (hn : p.n_compositional_fields = p.names_of_compositional_fields.length)
    (hsmall : p.names_of_compositional_fields.length + 5 ≤ invalid_unsigned_int) :
    ∃ intro, Introspection.construct d p debug = .ok intro
      ∧ intro.n_blocks = (setup_blocks p.names_of_compositional_fields.length
          p.include_melt_transport p.use_direct_stokes_solver).1
      ∧ ∀ b, b < intro.n_blocks →
          ∃ c, c < intro.n_components ∧ intro.components_to_blocks[c]? = some b := by
  obtain ⟨intro, hok, hnc, _, hnb, _, _, htab⟩ := construct_eq d p debug hn hsmall
  refine ⟨intro, hok, hnb, ?_⟩
  intro b hb
  rw [hnb] at hb
  obtain ⟨c, hc, hbc⟩ := block_of_component_surj d _ _ _ hd b hb
  refine ⟨c, by rw [hnc]; exact hc, ?_⟩
  rw [htab, List.getElem?_map, List.getElem?_range hc, ← hbc]
  rfl

/-- The melt configuration in dimension 2, with the iterative solver, in a debug
build. -/
theorem components_to_blocks_surjective_witness :
    ∃ intro, Introspection.construct 2 melt_parameters true = .ok intro
      ∧ intro.n_blocks = (setup_blocks melt_parameters.names_of_compositional_fields.length
          melt_parameters.include_melt_transport melt_parameters.use_direct_stokes_solver).1
      ∧ ∀ b, b < intro.n_blocks →
          ∃ c, c < intro.n_components ∧ intro.components_to_blocks[c]? = some b :=
  components_to_blocks_surjective 2 melt_parameters true (by decide) rfl (by decide)

/-! ## `get_gradients` is `get_solution` on the gradients -/

theorem get_value_gradient_view {α : Type} (e : FEPointEvaluation α) (p : Nat) :
    e.gradient_view.get_value p = e.get_gradient p := rfl

theorem dynamic_get_gradient_eq {α : Type} (e : DynamicFEPointEvaluation α) (debug : Bool)
    (p : Nat) (buffer : List (List α)) (start : Nat) :
    e.get_gradient debug p buffer start e.n_components
      = e.gradient_view.get_value debug p buffer start e.gradient_view.n_components := by
  unfold DynamicFEPointEvaluation.get_gradient DynamicFEPointEvaluation.get_value
  have hb : (debug && (e.n_components != e.n_components)) = false := by simp
  have hb2 : (debug && (e.gradient_view.n_components != e.gradient_view.n_components))
      = false := by simp
  rw [hb, hb2]
  rfl

theorem get_gradients_melt_eq {α : Type} (self : SolutionEvaluatorImplementation α)
    (p : Nat) (buffer : List (List α)) :
    self.get_gradients_melt p buffer = self.gradient_view.get_solution_melt p buffer := by
  obtain ⟨v, pr, t, comps, fv, cp, fp, mci, sim⟩ := self
  cases fp <;> cases cp <;> rfl

theorem compositions_fold_gradient_view {α : Type} (debug : Bool) (p : Nat) :
    ∀ (comps : List (Option (DynamicFEPointEvaluation α))) (s : List (List α)),
    comps.foldlM (fun s evaluator_ptr => do
        let evaluator ← defined evaluator_ptr
        evaluator.get_gradient debug p s evaluator.first_component evaluator.n_components) s
    = (comps.map (Option.map DynamicFEPointEvaluation.gradient_view)).foldlM
        (fun s evaluator_ptr => do
          let evaluator ← defined evaluator_ptr
          evaluator.get_value debug p s evaluator.first_component evaluator.n_components) s := by
  intro comps
  induction comps with
  | nil => intro s; rfl
  | cons ptr rest ih =>
    intro s
    rw [List.map_cons, List.foldlM_cons, List.foldlM_cons]
    cases ptr with
    | none => rfl
    | some e =>
      show (e.get_gradient debug p s e.first_component e.n_components >>= _) = _
      rw [dynamic_get_gradient_eq]
      have hfun : (fun s1 => List.foldlM (fun s evaluator_ptr => do
            let evaluator ← defined evaluator_ptr
            evaluator.get_gradient debug p s evaluator.first_component
              evaluator.n_components) s1 rest)
          = (fun s1 => List.foldlM (fun s evaluator_ptr => do
            let evaluator ← defined evaluator_ptr
            evaluator.get_value debug p s evaluator.first_component
              evaluator.n_components) s1
              (rest.map (Option.map DynamicFEPointEvaluation.gradient_view))) :=
        funext ih
      rw [hfun]
      rfl

/-- C20: for every evaluator state, build, point and buffer, `get_gradients` is
`get_solution` on the state in which every sub-evaluator holds its gradients as
values: it fails exactly when that call fails and otherwise fills every slot with
the gradient of the sub-evaluator and sub-component from which `get_solution`
fills the slot with the value (velocity, pressure, temperature, the composition
chunks and, with melt, the melt slots). -/
theorem get_gradients_symmetric {α : Type} (self : SolutionEvaluatorImplementation α)
    (debug : Bool) (evaluation_point : Nat) (gradients : List (List α)) :
    self.get_gradients debug evaluation_point gradients
      = self.gradient_view.get_solution debug evaluation_point gradients := by
  unfold SolutionEvaluatorImplementation.get_gradients
    SolutionEvaluatorImplementation.get_solution
  simp only [compositions_fold_gradient_view, get_gradients_melt_eq]
  obtain ⟨v, pr, t, comps, fv, cp, fp, mci, sim⟩ := self
  cases pr <;> rfl

/-! ## What `get_solution` writes -/

theorem write_one {β : Type} (buf : List β) (i : Nat) (x : β) (h : i < buf.length) :
    ∃ r, write buf i x = .ok r ∧ r.length = buf.length
      ∧ ∀ k, r[k]? = if k = i then some x else buf[k]? := by
  refine ⟨buf.set i x, by simp [write, h, pure, Except.pure], by simp, ?_⟩
  intro k
  rw [List.getElem?_set]
  by_cases h1 : i = k
  · subst h1
    simp [h]
  · have h2 : ¬ k = i := fun e => h1 e.symm
    simp [h1, h2]

theorem write_loop {β : Type} (idx : Nat → Option Nat) (start : Nat) (x : Nat → β)
    (buf : List β) : ∀ m : Nat, start + m ≤ buf.length →
    (∀ j, j < m → idx j = some (start + j)) →
    ∃ r, (List.range m).foldlM (fun s j => do write s (← defined (idx j)) (x j)) buf = .ok r
      ∧ r.length = buf.length
      ∧ ∀ k, r[k]? = if start ≤ k ∧ k < start + m then some (x (k - start)) else buf[k]? := by
  intro m
  induction m with
  | zero =>
    intro _ _
    refine ⟨buf, rfl, rfl, fun k => ?_⟩
    rw [if_neg (by omega)]
  | succ m ih =>
    intro hlen hidx
    obtain ⟨r, hr, hrl, hrp⟩ := ih (by omega) (fun j hj => hidx j (by omega))
    obtain ⟨r2, hr2, hrl2, hrp2⟩ := write_one r (start + m) (x m) (by omega)
    refine ⟨r2, ?_, by omega, ?_⟩
    · rw [List.range_succ, List.foldlM_append, hr, ok_bind]
      simp only [List.foldlM_cons, List.foldlM_nil, hidx m (Nat.lt_succ_self m)]
      rw [defined_some, ok_bind, hr2]
      rfl
    · intro k
      rw [hrp2 k, hrp k]
      by_cases h1 : k = start + m
      · rw [if_pos h1, if_pos (by omega)]
        congr 2
        omega
      · rw [if_neg h1]
        by_cases h3 : start ≤ k ∧ k < start + m
        · rw [if_pos h3, if_pos (by omega)]
        · rw [if_neg h3, if_neg (by omega)]

theorem write_loop_plain {β : Type} (start : Nat) (x : Nat → β) (buf : List β) (m : Nat)
    (hlen : start + m ≤ buf.length) :
    ∃ r, (List.range m).foldlM (fun s c => write s (start + c) (x c)) buf = .ok r
      ∧ r.length = buf.length
      ∧ ∀ k, r[k]? = if start ≤ k ∧ k < start + m then some (x (k - start)) else buf[k]? :=
  write_loop (fun j => some (start + j)) start x buf m hlen (fun _ _ => rfl)

theorem get_value_ok {α : Type} (e : FEPointEvaluation α) (p : Nat) (v : Nat → Nat → α)
    (hv : e.values = some v) : e.get_value p = .ok (v p) := by
  unfold FEPointEvaluation.get_value
  rw [hv]
  rfl

theorem dynamic_get_value_ok {α : Type} (e : DynamicFEPointEvaluation α) (debug : Bool)
    (p : Nat) (buf : List α) (v : Nat → Nat → α) (hv : e.evaluation.values = some v)
    (hlen : e.first_component + e.n_components ≤ buf.length) :
    ∃ r, e.get_value debug p buf e.first_component e.n_components = .ok r
      ∧ r.length = buf.length
      ∧ ∀ k, r[k]? = if in_chunk k e.chunk = true then some (v p (k - e.first_component))
          else buf[k]? := by
  obtain ⟨r, hr, hrl, hrp⟩ := write_loop_plain e.first_component (v p) buf e.n_components hlen
  refine ⟨r, ?_, hrl, ?_⟩
  · unfold DynamicFEPointEvaluation.get_value
    have hb : (debug && (e.n_components != e.n_components)) = false := by simp
    rw [hb, get_value_ok e.evaluation p v hv]
    exact hr
  · intro k
    rw [hrp k]
    by_cases h : e.first_component ≤ k ∧ k < e.first_component + e.n_components
    · rw [if_pos h, if_pos ((in_chunk_iff k e.chunk).mpr h)]
    · rw [if_neg h, if_neg (fun hc => h ((in_chunk_iff k e.chunk).mp hc))]

theorem filter_tail_le {α : Type} (e0 : DynamicFEPointEvaluation α)
    (rest : List (DynamicFEPointEvaluation α)) (k : Nat)
    (h : ((e0 :: rest).filter (fun e => in_chunk k e.chunk)).length ≤ 1) :
    (rest.filter (fun e => in_chunk k e.chunk)).length ≤ 1
      ∧ (in_chunk k e0.chunk = true → ∀ e ∈ rest, in_chunk k e.chunk = false) := by
  rw [List.filter_cons] at h
  by_cases hq : in_chunk k e0.chunk = true
  · rw [if_pos hq, List.length_cons] at h
    have h0 : (rest.filter (fun e => in_chunk k e.chunk)).length = 0 := by omega
    refine ⟨by omega, fun _ e he => ?_⟩
    by_contra hne
    have hmem : e ∈ rest.filter (fun e => in_chunk k e.chunk) :=
      List.mem_filter.mpr ⟨he, by simpa using hne⟩
    rw [List.length_eq_zero.mp h0] at hmem
    simp at hmem
  · rw [if_neg hq] at h
    exact ⟨h, fun hc => absurd hc hq⟩

theorem compositions_fold_ok {α : Type} (debug : Bool) (p : Nat) :
    ∀ (comps : List (DynamicFEPointEvaluation α)) (buf : List α),
    (∀ e ∈ comps, e.evaluation.values.isSome = true) →
    (∀ e ∈ comps, e.first_component + e.n_components ≤ buf.length) →
    (∀ k, (comps.filter (fun e => in_chunk k e.chunk)).length ≤ 1) →
    ∃ r, (comps.map some).foldlM (fun s evaluator_ptr => do
          let evaluator ← defined evaluator_ptr
          evaluator.get_value debug p s evaluator.first_component evaluator.n_components) buf
        = .ok r
      ∧ r.length = buf.length
      ∧ (∀ k, (∀ e ∈ comps, in_chunk k e.chunk = false) → r[k]? = buf[k]?)
      ∧ (∀ e ∈ comps, ∀ k, in_chunk k e.chunk = true →
          r[k]? = e.evaluation.values.map (fun v => v p (k - e.first_component))) := by
  intro comps
  induction comps with
  | nil =>
    intro buf _ _ _
    exact ⟨buf, rfl, rfl, fun _ _ => rfl, fun e he => by simp at he⟩
  | cons e0 rest ih =>
    intro buf hval hlen hdis
    obtain ⟨v0, hv0⟩ := Option.isSome_iff_exists.mp (hval e0 (List.mem_cons_self _ _))
    obtain ⟨r0, hr0, hl0, hp0⟩ := dynamic_get_value_ok e0 debug p buf v0 hv0
      (hlen e0 (List.mem_cons_self _ _))
    obtain ⟨r, hr, hl, hun, hin⟩ := ih r0
      (fun e he => hval e (List.mem_cons_of_mem _ he))
      (fun e he => by rw [hl0]; exact hlen e (List.mem_cons_of_mem _ he))
      (fun k => (filter_tail_le e0 rest k (hdis k)).1)
    refine ⟨r, ?_, by omega, ?_, ?_⟩
    · rw [List.map_cons, List.foldlM_cons, defined_some, ok_bind, hr0, ok_bind]
      exact hr
    · intro k hk
      rw [hun k (fun e he => hk e (List.mem_cons_of_mem _ he)), hp0 k,
        if_neg (by rw [hk e0 (List.mem_cons_self _ _)]; simp)]
    · intro e he k hk
      rcases List.mem_cons.mp he with rfl | hrest
      · rw [hun k ((filter_tail_le e rest k (hdis k)).2 hk), hp0 k, if_pos hk, hv0]
        rfl
      · exact hin e hrest k hk

theorem get_solution_melt_ok {α : Type} (self : SolutionEvaluatorImplementation α) (p : Nat)
    (buf : List α) (hvel : self.velocity.values.isSome = true)
    (hfp : (self.fluid_pressure.bind (fun e => e.values)).isSome = true)
    (hcp : (self.compaction_pressure.bind (fun e => e.values)).isSome = true)
    (h1 : self.melt_component_indices.1 + self.simulator_access.dim ≤ buf.length)
    (h2 : self.melt_component_indices.2.1 < buf.length)
    (h3 : self.melt_component_indices.2.2 < buf.length) :
    ∃ r, self.get_solution_melt p buf = .ok r ∧ r.length = buf.length
      ∧ ∀ k, ¬ (self.melt_component_indices.1 ≤ k
              ∧ k < self.melt_component_indices.1 + self.simulator_access.dim) →
          k ≠ self.melt_component_indices.2.1 → k ≠ self.melt_component_indices.2.2 →
          r[k]? = buf[k]? := by
  obtain ⟨vel, hvel⟩ := Option.isSome_iff_exists.mp hvel
  obtain ⟨fpv, hfpv⟩ := Option.isSome_iff_exists.mp hfp
  obtain ⟨cpv, hcpv⟩ := Option.isSome_iff_exists.mp hcp
  obtain ⟨fpe, hfpe, hfpv⟩ := Option.bind_eq_some.mp hfpv
  obtain ⟨cpe, hcpe, hcpv⟩ := Option.bind_eq_some.mp hcpv
  obtain ⟨r1, hr1, hl1, hp1⟩ := write_loop_plain self.melt_component_indices.1 (vel p) buf
    self.simulator_access.dim h1
  obtain ⟨r2, hr2, hl2, hp2⟩ := write_one r1 self.melt_component_indices.2.1 (fpv p 0)
    (by omega)
  obtain ⟨r3, hr3, hl3, hp3⟩ := write_one r2 self.melt_component_indices.2.2 (cpv p 0)
    (by omega)
  refine ⟨r3, ?_, by omega, ?_⟩
  · unfold SolutionEvaluatorImplementation.get_solution_melt
    rw [get_value_ok _ p vel hvel, ok_bind, hr1, ok_bind, hfpe, defined_some, ok_bind,
      get_value_ok _ p fpv hfpv, ok_bind, hr2, ok_bind, hcpe, defined_some, ok_bind,
      get_value_ok _ p cpv hcpv, ok_bind, hr3]
  · intro k hk1 hk2 hk3
    rw [hp3 k, if_neg hk3, hp2 k, if_neg hk2, hp1 k, if_neg hk1]

theorem layout_facts (d n_c : Nat) (melt : Bool) :
    ∃ P, d ≤ P
      ∧ (setup_component_indices d n_c melt).1 = P + 2 + n_c
      ∧ (∀ j, j < d → (setup_component_indices d n_c melt).2.velocities[j]?.join = some j)
      ∧ (setup_component_indices d n_c melt).2.pressure = some P
      ∧ (setup_component_indices d n_c melt).2.temperature = some (P + 1)
      ∧ (setup_component_indices d n_c melt).2.compositional_fields
          = (List.range n_c).map (fun i => P + 2 + i)
      ∧ (melt = true → P = 2 * d + 2
          ∧ (setup_component_indices d n_c melt).2.fluid_pressure = some d
          ∧ (setup_component_indices d n_c melt).2.compaction_pressure = some (d + 1)
          ∧ ∀ x, (setup_component_indices d n_c melt).2.fluid_velocities[0]?.join = some x →
              1 ≤ d ∧ x = d + 2) := by
  cases melt with
  | false =>
    rw [setup_component_indices_no_melt]
    refine ⟨d, Nat.le_refl _, rfl, ?_, rfl, rfl, rfl, fun h => by cases h⟩
    intro j hj
    simp [List.getElem?_map, List.getElem?_range hj]
  | true =>
    rw [setup_component_indices_melt_eq]
    refine ⟨2 * d + 2, by omega, by omega, ?_, rfl, rfl, ?_, fun _ => ⟨rfl, rfl, rfl, ?_⟩⟩
    · intro j hj
      simp [List.getElem?_map, List.getElem?_range hj]
    · apply List.map_congr_left
      intro i _
      omega
    · intro x hx
      cases d with
      | zero => simp at hx
      | succ d =>
        simp [List.range_succ_eq_map] at hx
        omega

theorem pure_bind_except {β γ : Type} (x : β) (f : β → Except Exc γ) :
    ((pure x : Except Exc β) >>= f) = f x := rfl

/-- C19: for every evaluator state of a configuration `(d, n_c, melt)` that holds
values, in debug and in release builds, `get_solution(p, out)` with a buffer of
length `n_components` succeeds, keeps the length, and afterwards `out[velocities[j]]`
is component `j` of the velocity evaluator's value at `p` for every `j < d`,
`out[pressure]` is the pressure evaluator's value, `out[temperature]` is the
temperature evaluator's value and, for every composition chunk and every `c` below
its width, `out[first_component + c]` is component `c` of the chunk evaluator's
value at `p`. -/
theorem get_solution_writes {α : Type} (self : SolutionEvaluatorImplementation α)
    (d n_c : Nat) (melt : Bool) (comps : List (DynamicFEPointEvaluation α)) (debug : Bool)
    (p : Nat) (buf : List α) (hs : evaluated_state self d n_c melt comps)
    (hbuf : buf.length = self.simulator_access.introspection.n_components) :
    ∃ out, self.get_solution debug p buf = .ok out ∧ out.length = buf.length
      ∧ (∀ j, j < d → ∃ idx,
          self.simulator_access.introspection.component_indices.velocities[j]?
              = some (some idx)
            ∧ out[idx]? = self.velocity.values.map (fun v => v p j))
      ∧ (∃ idx, self.simulator_access.introspection.component_indices.pressure = some idx
          ∧ out[idx]? = (self.pressure.bind (fun e => e.values)).map (fun v => v p 0))
      ∧ (∃ idx, self.simulator_access.introspection.component_indices.temperature = some idx
          ∧ out[idx]? = self.temperature.values.map (fun v => v p 0))
      ∧ (∀ e ∈ comps, ∀ c, c < e.n_components →
          out[e.first_component + c]? = e.evaluation.values.map (fun v => v p c)) := by
  obtain ⟨P, hdP, hn, hvelidx, hP, hT, hcomp, hmelt⟩ := layout_facts d n_c melt
  obtain ⟨s_dim, s_melt, s_n, s_ci, s_comps, s_nonempty, s_in, s_disjoint, s_mci, s_vel,
    s_pr, s_temp, s_cv, s_mv⟩ := hs
  obtain ⟨vel, hvel⟩ := Option.isSome_iff_exists.mp s_vel
  obtain ⟨pv, hpv0⟩ := Option.isSome_iff_exists.mp s_pr
  obtain ⟨pe, hpe, hpv⟩ := Option.bind_eq_some.mp hpv0
  obtain ⟨tv, htv⟩ := Option.isSome_iff_exists.mp s_temp
  have hlen : buf.length = P + 2 + n_c := by rw [hbuf, s_n, hn]
  -- the chunks lie in the composition range
  have hchunk : ∀ e ∈ comps, ∀ k, in_chunk k e.chunk = true → P + 2 ≤ k ∧ k < P + 2 + n_c := by
    intro e he k hk
    have hmem := s_in e he k hk
    rw [hcomp] at hmem
    obtain ⟨i, hi, rfl⟩ := List.mem_map.mp hmem
    have := List.mem_range.mp hi
    omega
  -- the writes of velocity, pressure and temperature
  obtain ⟨r1, hr1, hl1, hp1⟩ := write_loop
    (fun j => (setup_component_indices d n_c melt).2.velocities[j]?.join) 0 (vel p) buf d
    (by omega) (fun j hj => by rw [Nat.zero_add]; exact hvelidx j hj)
  obtain ⟨r2, hr2, hl2, hp2⟩ := write_one r1 P (pv p 0) (by omega)
  obtain ⟨r3, hr3, hl3, hp3⟩ := write_one r2 (P + 1) (tv p 0) (by omega)
  -- the composition chunks
  obtain ⟨r4, hr4, hl4, hun4, hin4⟩ := compositions_fold_ok debug p comps r3 s_cv
    (by
      intro e he
      have hpos := s_nonempty e he
      have h1 := hchunk e he (e.first_component + e.n_components - 1)
        ((in_chunk_iff _ _).mpr (by
          simp only [DynamicFEPointEvaluation.chunk]
          omega))
      omega)
    s_disjoint
  -- the melt slots lie between the velocity and the pressure
  have hfinal : ∃ out, (if self.simulator_access.include_melt_transport = true
        then self.get_solution_melt p r4 else pure r4) = .ok out
      ∧ out.length = r4.length ∧ ∀ k, (k < d ∨ P ≤ k) → out[k]? = r4[k]? := by
    cases hmc : melt with
    | false =>
      rw [s_melt, hmc, if_neg (by simp)]
      exact ⟨r4, rfl, rfl, fun _ _ => rfl⟩
    | true =>
      obtain ⟨hP2, hfp, hcp, hfv⟩ := hmelt hmc
      obtain ⟨m0, m1, m2⟩ := s_mci hmc
      simp only [Introspection.variable_first_component_index, s_ci] at m0 m1 m2
      simp only [String.reduceEq, if_true, if_false] at m0 m1 m2
      obtain ⟨hd1, hm0⟩ := hfv _ m0
      rw [hfp] at m1
      rw [hcp] at m2
      have hm1 : self.melt_component_indices.2.1 = d := (Option.some.inj m1).symm
      have hm2 : self.melt_component_indices.2.2 = d + 1 := (Option.some.inj m2).symm
      obtain ⟨r5, hr5, hl5, hun5⟩ := get_solution_melt_ok self p r4 s_vel (s_mv hmc).1
        (s_mv hmc).2 (by rw [s_dim]; omega) (by omega) (by omega)
      refine ⟨r5, ?_, hl5, ?_⟩
      · rw [s_melt, hmc, if_pos rfl]
        exact hr5
      · intro k hk
        exact hun5 k (by rw [s_dim]; omega) (by omega) (by omega)
  obtain ⟨out, hout, hlout, hunout⟩ := hfinal
  have hnochunk : ∀ k, k < P + 2 → ∀ e ∈ comps, in_chunk k e.chunk = false := by
    intro k hk e he
    by_contra hne
    have := hchunk e he k (by simpa using hne)
    omega
  refine ⟨out, ?_, by omega, ?_, ?_, ?_, ?_⟩
  · unfold SolutionEvaluatorImplementation.get_solution
    have hb : (debug && (buf.length != self.simulator_access.introspection.n_components))
        = false := by simp [hbuf]
    simp only [hb, s_dim, s_ci]
    rw [if_neg (by simp), pure_bind_except, get_value_ok _ p vel hvel, ok_bind, hr1, ok_bind,
      hpe, defined_some, ok_bind, hP, defined_some, ok_bind, get_value_ok _ p pv hpv, ok_bind,
      hr2, ok_bind, hT, defined_some, ok_bind, get_value_ok _ p tv htv, ok_bind, hr3, ok_bind,
      s_comps, hr4, ok_bind]
    exact hout
  · intro j hj
    refine ⟨j, ?_, ?_⟩
    · have h := hvelidx j hj
      rw [s_ci]
      cases hx : (setup_component_indices d n_c melt).2.velocities[j]? with
      | none => rw [hx] at h; cases h
      | some y =>
        rw [hx] at h
        exact congrArg some h
    · rw [hunout j (Or.inl hj), hun4 j (hnochunk j (by omega)), hp3 j, if_neg (by omega),
        hp2 j, if_neg (by omega), hp1 j, if_pos (by omega), hvel]
      rfl
  · refine ⟨P, by rw [s_ci]; exact hP, ?_⟩
    rw [hunout P (Or.inr (Nat.le_refl _)), hun4 P (hnochunk P (by omega)), hp3 P,
      if_neg (by omega), hp2 P, if_pos rfl, hpv0]
    rfl
  · refine ⟨P + 1, by rw [s_ci]; exact hT, ?_⟩
    rw [hunout (P + 1) (Or.inr (by omega)), hun4 (P + 1) (hnochunk (P + 1) (by omega)),
      hp3 (P + 1), if_pos rfl, htv]
    rfl
  · intro e he c hc
    have hk : in_chunk (e.first_component + c) e.chunk = true :=
      (in_chunk_iff _ _).mpr (by
        simp only [DynamicFEPointEvaluation.chunk]
        omega)
    have hrange := hchunk e he _ hk
    rw [hunout _ (Or.inr (by omega)), hin4 e he _ hk]
    congr 1
    funext v
    congr 1
    omega

/-- The evaluator state with one composition chunk, in a debug build, at point 0,
with a buffer of 9 zeros. -/
theorem get_solution_writes_witness :
    ∃ out, melt_composition_evaluator.get_solution true 0 (List.replicate 9 0) = .ok out
      ∧ out.length = (List.replicate 9 0).length
      ∧ (∀ j, j < 2 → ∃ idx,
          melt_composition_evaluator.simulator_access.introspection.component_indices.velocities[j]?
              = some (some idx)
            ∧ out[idx]? = melt_composition_evaluator.velocity.values.map (fun v => v 0 j))
      ∧ (∃ idx,
          melt_composition_evaluator.simulator_access.introspection.component_indices.pressure
              = some idx
          ∧ out[idx]? = (melt_composition_evaluator.pressure.bind (fun e => e.values)).map
              (fun v => v 0 0))
      ∧ (∃ idx,
          melt_composition_evaluator.simulator_access.introspection.component_indices.temperature
              = some idx
          ∧ out[idx]? = melt_composition_evaluator.temperature.values.map (fun v => v 0 0))
      ∧ (∀ e ∈ [composition_chunk], ∀ c, c < e.n_components →
          out[e.first_component + c]? = e.evaluation.values.map (fun v => v 0 c)) :=
  get_solution_writes melt_composition_evaluator 2 1 true [composition_chunk] true 0
    (List.replicate 9 0)
    { dim_eq := rfl
      melt_eq := rfl
      n_components_eq := by decide
      component_indices_eq := rfl
      compositions_eq := rfl
      chunks_nonempty := by
        intro e he
        rw [List.mem_singleton.mp he]
        decide
      chunks_in_compositions := by
        intro e he c hc
        rw [List.mem_singleton.mp he] at hc
        have h := (in_chunk_iff c composition_chunk.chunk).mp hc
        have hc8 : c = 8 := by
          simp only [DynamicFEPointEvaluation.chunk, composition_chunk] at h
          omega
        rw [hc8]
        decide
      chunks_disjoint := fun c => List.length_filter_le _ [composition_chunk]
      melt_indices := fun _ => ⟨by decide, by decide, by decide⟩
      velocity_values := rfl
      pressure_values := rfl
      temperature_values := rfl
      composition_values := by
        intro e he
        rw [List.mem_singleton.mp he]
        rfl
      melt_values := fun _ => ⟨rfl, rfl⟩ }
    rfl

/-- The Introspection object and the evaluator of the configuration with one
composition field are the ones that the constructors build: same layout, same
melt component indices and same recorded chunk. -/
theorem melt_composition_constructed :
    Introspection.construct 2 melt_composition_parameters true
        = .ok melt_composition_introspection
      ∧ ∃ ev : SolutionEvaluatorImplementation Nat,
          SolutionEvaluatorImplementation.construct true melt_composition_simulator 0 = .ok ev
          ∧ ev.melt_component_indices = melt_composition_evaluator.melt_component_indices
          ∧ ev.compositions.map (Option.map DynamicFEPointEvaluation.chunk)
              = melt_composition_evaluator.compositions.map
                  (Option.map DynamicFEPointEvaluation.chunk) :=
  ⟨rfl, _, rfl, rfl, rfl⟩

theorem tiles_bounds : ∀ (l : List (Nat × Nat)) (a b : Nat), tiles l a b →
    ∀ ch ∈ l, a ≤ ch.1 ∧ ch.1 + ch.2 ≤ b ∧ 0 < ch.2 := by
  intro l
  induction l with
  | nil => intro a b _ ch hch; simp at hch
  | cons x rest ih =>
    intro a b h ch hch
    obtain ⟨e1, e2, e3⟩ : x.1 = a ∧ 0 < x.2 ∧ tiles rest (a + x.2) b := h
    have hle := (tiles_count rest _ b e3).1
    rcases List.mem_cons.mp hch with rfl | hrest
    · exact ⟨by omega, by omega, e2⟩
    · have := ih _ b e3 ch hrest
      omega

theorem fold_run_groups_bounds {α : Type} (debug : Bool) (base n_c : Nat)
    (fields_with : Nat → List Nat) : ∀ (bases : List Nat)
    (acc : List (Option (DynamicFEPointEvaluation α))),
    (∀ g ∈ bases.map fields_with, ∃ s n, 1 ≤ n ∧ s + n ≤ n_c ∧ g = List.range' s n) →
    ∃ new : List (DynamicFEPointEvaluation α),
      bases.foldlM (fun compositions base_element_index =>
        add_group_evaluators debug ((List.range n_c).map (fun i => base + i))
          (fields_with base_element_index) compositions) acc
        = .ok (acc ++ new.map some)
      ∧ (∀ e ∈ new, 0 < e.n_components ∧ base ≤ e.first_component
          ∧ e.first_component + e.n_components ≤ base + n_c)
      ∧ ∀ f, ((new.map DynamicFEPointEvaluation.chunk).filter (in_chunk (base + f))).length
          = ((bases.map fields_with).filter (fun g => decide (f ∈ g))).length := by
  intro bases
  induction bases with
  | nil =>
    intro acc _
    exact ⟨[], by simp [pure, Except.pure], fun e he => by simp at he, fun f => rfl⟩
  | cons b bases ih =>
    intro acc h
    obtain ⟨s, n, hn, hs, hg⟩ := h (fields_with b) (by simp)
    obtain ⟨new1, hok1, ht1⟩ := add_consecutive_group debug base n_c s n acc hn hs
    rw [← hg] at hok1
    obtain ⟨new2, hok2, hb2, hc2⟩ := ih (acc ++ new1.map some)
      (fun g hgm => h g (by
        rw [List.map_cons]
        exact List.mem_cons_of_mem _ hgm))
    refine ⟨new1 ++ new2, ?_, ?_, ?_⟩
    · rw [List.foldlM_cons, hok1, ok_bind, hok2, List.map_append, List.append_assoc]
    · intro e he
      rcases List.mem_append.mp he with h1 | h2
      · have := tiles_bounds _ _ _ ht1 e.chunk (List.mem_map.mpr ⟨e, h1, rfl⟩)
        simp only [DynamicFEPointEvaluation.chunk] at this
        omega
      · exact hb2 e h2
    · intro f
      rw [List.map_append, List.filter_append, List.length_append, hc2 f,
        (tiles_count _ _ _ ht1).2 (base + f), List.map_cons, List.filter_cons, hg]
      by_cases hf : f ∈ List.range' s n
      · have := List.mem_range'_1.mp hf
        rw [if_pos (by omega), if_pos (by simpa using hf), List.length_cons]
        omega
      · have hf2 : ¬ (s ≤ f ∧ f < s + n) := fun e => hf (List.mem_range'_1.mpr e)
        rw [if_neg (by omega), if_neg (by simpa using hf)]
        omega

/-- The composition evaluators that the constructor builds for groups that
partition the fields into runs of consecutive fields satisfy what
`evaluated_state` asks of the chunks: they are non-empty, consist of components
of composition fields, and no component lies in two of them. -/
theorem constructed_chunks_valid {α : Type} (debug : Bool) (d n_c : Nat) (melt : Bool)
    (sim : SimulatorAccess)
    (hci : sim.introspection.component_indices = (setup_component_indices d n_c melt).2)
    (hruns : partition_into_runs (sim.composition_base_element_indices.map
      sim.compositional_field_indices_with_base_element) n_c) :
    ∃ comps : List (DynamicFEPointEvaluation α),
      create_composition_evaluators debug sim = .ok (comps.map some)
      ∧ (∀ e ∈ comps, 0 < e.n_components)
      ∧ (∀ e ∈ comps, ∀ c, in_chunk c e.chunk = true →
          c ∈ (setup_component_indices d n_c melt).2.compositional_fields)
      ∧ ∀ c, (comps.filter (fun e => in_chunk c e.chunk)).length ≤ 1 := by
  rw [compositional_fields_eq]
  generalize hB : (if melt = true then 2 * d + 4 else d + 2) = B
  obtain ⟨new, hok, hbounds, hcount⟩ := fold_run_groups_bounds debug B n_c
    sim.compositional_field_indices_with_base_element sim.composition_base_element_indices
    ([] : List (Option (DynamicFEPointEvaluation α))) hruns.1
  refine ⟨new, ?_, fun e he => (hbounds e he).1, ?_, ?_⟩
  · unfold create_composition_evaluators
    rw [hci, compositional_fields_eq, hB, hok, List.nil_append]
  · intro e he c hc
    have h1 := hbounds e he
    have h2 := (in_chunk_iff c e.chunk).mp hc
    simp only [DynamicFEPointEvaluation.chunk] at h2
    exact List.mem_map.mpr ⟨c - B, List.mem_range.mpr (by omega), by omega⟩
  · intro c
    by_cases hcB : B ≤ c
    · have hc := hcount (c - B)
      rw [show B + (c - B) = c by omega] at hc
      rw [filter_chunk_length, hc]
      by_cases hf : c - B < n_c
      · rw [hruns.2 _ hf]
      · have hnil : (sim.composition_base_element_indices.map
            sim.compositional_field_indices_with_base_element).filter
              (fun g => decide (c - B ∈ g)) = [] := by
          apply List.filter_eq_nil_iff.mpr
          intro g hg
          obtain ⟨s, n, _, hs, rfl⟩ := hruns.1 g hg
          have hnot : ¬ (c - B ∈ List.range' s n) := by
            intro hmem
            have := List.mem_range'_1.mp hmem
            omega
          simpa using hnot
        rw [hnil]
        exact Nat.zero_le _
    · have hnil : new.filter (fun e => in_chunk c e.chunk) = [] := by
        apply List.filter_eq_nil_iff.mpr
        intro e he hin
        have h1 := hbounds e he
        have h2 := (in_chunk_iff c e.chunk).mp hin
        simp only [DynamicFEPointEvaluation.chunk] at h2
        omega
      rw [hnil]
      exact Nat.zero_le _

/-! ## The range check of `name_for_compositional_index` -/

/-- C25, counterexample: in a release build, where `AssertIndexRange` is compiled
out, `name_for_compositional_index(0)` of an object without composition names
does not fail a range check: it reads past the end of the vector, which is
undefined. -/
theorem name_for_compositional_index_release_unchecked :
    melt_introspection.name_for_compositional_index false 0 = .error Exc.Undefined
      ∧ melt_introspection.name_for_compositional_index false 0
          ≠ .error (Exc.ExcIndexRange 0 melt_introspection.composition_names.length) := by
  refine ⟨rfl, fun h => ?_⟩
  have h2 : melt_introspection.name_for_compositional_index false 0
      = .error Exc.Undefined := rfl
  rw [h2] at h
  cases h

/-- C25 (amended): `name_for_compositional_index(i)` returns the `i`-th declared
composition name for every `i` below the number of declared names, in every
build; for every other `i` (every `i` when no composition is declared) it fails
its range check in a debug build, while in a release build the check is absent
and the read past the end of the vector is undefined. -/
theorem name_for_compositional_index_range (self : Introspection) (debug : Bool) (i : Nat) :
    self.name_for_compositional_index debug i
      = if h : i < self.composition_names.length then
          .ok (self.composition_names.get ⟨i, h⟩)
        else if debug then .error (Exc.ExcIndexRange i self.composition_names.length)
        else .error Exc.Undefined := by
  unfold Introspection.name_for_compositional_index
  by_cases h : i < self.composition_names.length
  · rw [dif_pos h, if_neg (by simp [h]), List.getElem?_eq_getElem h]
    rfl
  · rw [dif_neg h]
    cases debug
    · rw [if_neg (by simp), List.getElem?_eq_none (by omega)]
      rfl
    · rw [if_pos (by simp [h])]
      rfl

/-! ## The index assignment is determined in the assigned members -/

theorem stored_array_assigned (f : Nat → Nat) (n : Nat) (leftover : List Nat) :
    stored_array ((List.range n).map (fun i => some (f i))) leftover = (List.range n).map f := by
  unfold stored_array
  rw [List.length_map, List.length_range]
  apply List.map_congr_left
  intro i hi
  simp [List.getD_eq_getElem?_getD, List.getElem?_map,
    List.getElem?_range (List.mem_range.mp hi)]

theorem stored_array_unassigned (n : Nat) (leftover : List Nat) :
    stored_array (List.replicate n none) leftover
      = (List.range n).map (fun i => leftover.getD i 0) := by
  unfold stored_array
  rw [List.length_replicate]
  apply List.map_congr_left
  intro i hi
  simp [List.getD_eq_getElem?_getD, List.getElem?_replicate, List.mem_range.mp hi]

/-- C27, counterexample: with melt off `setup_component_indices` and
`setup_blocks` do not assign the melt members of the object they return, so two
calls with the same arguments `(2, 0, false)` return objects that differ, in the
fluid pressure member for instance, when the storage held 0 before one call and
7 before the other. -/
theorem unassigned_members_differ :
    (setup_component_indices 2 0 false).2.fluid_pressure = none
      ∧ (setup_component_indices 2 0 false).2.stored (component_leftover 0)
        ≠ (setup_component_indices 2 0 false).2.stored (component_leftover 7)
      ∧ ((setup_component_indices 2 0 false).2.stored (component_leftover 0)).fluid_pressure = 0
      ∧ ((setup_component_indices 2 0 false).2.stored (component_leftover 7)).fluid_pressure = 7
      ∧ (setup_blocks 0 false false).2.fluid_pressure = none
      ∧ (setup_blocks 0 false false).2.stored (block_leftover 0)
        ≠ (setup_blocks 0 false false).2.stored (block_leftover 7) := by
  refine ⟨rfl, by decide, rfl, rfl, rfl, by decide⟩

/-- C27 (amended): the index assignment is determined by the configuration in
every member that is assigned.  With melt on, `setup_component_indices` and
`setup_blocks` assign every member, so two calls with the same arguments return
equal objects whatever their storage held before.  With melt off, two calls agree
in `n_components` (`n_blocks`) and in the velocity, pressure, temperature and
composition members, while the fluid velocity, fluid pressure and compaction
pressure members are not assigned and hold what the storage held before the
call.  The members that the Introspection constructor takes from separate calls
belong to one layout: the assigned component indices are exactly the numbers
below `n_components`, and every assigned block index is below `n_blocks`. -/
theorem index_assignment_determined (d n_c : Nat) (direct : Bool) (p : Parameters)
    (debug : Bool) (hn : p.n_compositional_fields = p.names_of_compositional_fields.length)
    (hsmall : p.names_of_compositional_fields.length + 5 ≤ invalid_unsigned_int)
    (l1 l2 : ComponentIndicesMemory) (b1 b2 : BlockIndicesMemory) :
    (setup_component_indices d n_c true).2.stored l1
        = (setup_component_indices d n_c true).2.stored l2
      ∧ (setup_blocks n_c true direct).2.stored b1 = (setup_blocks n_c true direct).2.stored b2
      ∧ ((setup_component_indices d n_c false).2.stored l1).velocities
          = ((setup_component_indices d n_c false).2.stored l2).velocities
      ∧ ((setup_component_indices d n_c false).2.stored l1).pressure
          = ((setup_component_indices d n_c false).2.stored l2).pressure
      ∧ ((setup_component_indices d n_c false).2.stored l1).temperature
          = ((setup_component_indices d n_c false).2.stored l2).temperature
      ∧ ((setup_component_indices d n_c false).2.stored l1).compositional_fields
          = ((setup_component_indices d n_c false).2.stored l2).compositional_fields
      ∧ ((setup_component_indices d n_c false).2.stored l1).fluid_velocities
          = (List.range d).map (fun i => l1.fluid_velocities.getD i 0)
      ∧ ((setup_component_indices d n_c false).2.stored l1).fluid_pressure = l1.fluid_pressure
      ∧ ((setup_component_indices d n_c false).2.stored l1).compaction_pressure
          = l1.compaction_pressure
      ∧ (setup_blocks n_c false direct).2.stored b1
          = { (setup_blocks n_c false direct).2.stored b2 with
              fluid_velocities := b1.fluid_velocities
              fluid_pressure := b1.fluid_pressure
              compaction_pressure := b1.compaction_pressure }
      ∧ ∃ intro, Introspection.construct d p debug = .ok intro
        ∧ (intro.n_components, intro.component_indices)
            = setup_component_indices d p.names_of_compositional_fields.length
                p.include_melt_transport
        ∧ (intro.n_blocks, intro.block_indices)
            = setup_blocks p.names_of_compositional_fields.length p.include_melt_transport
                p.use_direct_stokes_solver
        ∧ intro.component_indices.assigned = List.range intro.n_components
        ∧ ∀ b ∈ intro.block_indices.velocities.toList ++ intro.block_indices.pressure.toList
              ++ intro.block_indices.fluid_velocities.toList
              ++ intro.block_indices.fluid_pressure.toList
              ++ intro.block_indices.compaction_pressure.toList
              ++ intro.block_indices.temperature.toList
              ++ intro.block_indices.compositional_fields,
            b < intro.n_blocks := by
  refine ⟨?_, ?_, ?_, ?_, ?_, ?_, ?_, ?_, ?_, ?_, ?_⟩
  · rw [setup_component_indices_melt_eq]
    simp only [ComponentIndices.stored, stored_array_assigned, Option.getD_some]
    rw [stored_array_assigned (fun i => i) d l1.velocities,
      stored_array_assigned (fun i => i) d l2.velocities]
  · rw [setup_blocks_melt_eq]
    rfl
  · rw [setup_component_indices_no_melt]
    simp only [ComponentIndices.stored]
    rw [stored_array_assigned (fun i => i) d l1.velocities,
      stored_array_assigned (fun i => i) d l2.velocities]
  · rw [setup_component_indices_no_melt]
    rfl
  · rw [setup_component_indices_no_melt]
    rfl
  · rfl
  · rw [setup_component_indices_no_melt]
    simp only [ComponentIndices.stored, stored_array_unassigned]
  · rw [setup_component_indices_no_melt]
    rfl
  · rw [setup_component_indices_no_melt]
    rfl
  · rw [setup_blocks_no_melt]
    rfl
  · obtain ⟨intro, hok, h1, h2, h3, h4, _⟩ := construct_eq d p debug hn hsmall
    refine ⟨intro, hok, by rw [h1, h2], by rw [h3, h4], by rw [h1, h2, assigned_eq_range], ?_⟩
    rw [h3, h4]
    obtain ⟨s, hs1, hs2⟩ : ∃ s, s ≤ 1
        ∧ (if p.use_direct_stokes_solver = true then 0 else 1) = s :=
      ⟨_, by split <;> omega, rfl⟩
    cases p.include_melt_transport with
    | false =>
      rw [setup_blocks_no_melt]
      intro b hb
      simp only [hs2] at hb ⊢
      simp only [Option.toList, List.append_nil, List.mem_append, List.mem_cons,
        List.mem_singleton, List.not_mem_nil, or_false, List.mem_map, List.mem_range] at hb
      rcases hb with ((h | h) | h) | ⟨i, hi, h⟩ <;> omega
    | true =>
      rw [setup_blocks_melt_eq]
      intro b hb
      simp only [hs2] at hb ⊢
      simp only [Option.toList, List.append_nil, List.mem_append, List.mem_cons,
        List.mem_singleton, List.not_mem_nil, or_false, List.mem_map, List.mem_range] at hb
      rcases hb with (((((h | h) | h) | h) | h) | h) | ⟨i, hi, h⟩ <;> omega

/-- The configuration with three composition fields and melt off, the storage
holding 0 before one call and 7 before the other. -/
theorem index_assignment_determined_witness :
    (setup_component_indices 2 3 true).2.stored (component_leftover 0)
        = (setup_component_indices 2 3 true).2.stored (component_leftover 7)
      ∧ (setup_blocks 3 true false).2.stored (block_leftover 0)
          = (setup_blocks 3 true false).2.stored (block_leftover 7)
      ∧ ((setup_component_indices 2 3 false).2.stored (component_leftover 0)).velocities
          = ((setup_component_indices 2 3 false).2.stored (component_leftover 7)).velocities
      ∧ ((setup_component_indices 2 3 false).2.stored (component_leftover 0)).pressure
          = ((setup_component_indices 2 3 false).2.stored (component_leftover 7)).pressure
      ∧ ((setup_component_indices 2 3 false).2.stored (component_leftover 0)).temperature
          = ((setup_component_indices 2 3 false).2.stored (component_leftover 7)).temperature
      ∧ ((setup_component_indices 2 3 false).2.stored
            (component_leftover 0)).compositional_fields
          = ((setup_component_indices 2 3 false).2.stored
            (component_leftover 7)).compositional_fields
      ∧ ((setup_component_indices 2 3 false).2.stored (component_leftover 0)).fluid_velocities
          = (List.range 2).map (fun i => (component_leftover 0).fluid_velocities.getD i 0)
      ∧ ((setup_component_indices 2 3 false).2.stored (component_leftover 0)).fluid_pressure
          = (component_leftover 0).fluid_pressure
      ∧ ((setup_component_indices 2 3 false).2.stored
            (component_leftover 0)).compaction_pressure
          = (component_leftover 0).compaction_pressure
      ∧ (setup_blocks 3 false false).2.stored (block_leftover 0)
          = { (setup_blocks 3 false false).2.stored (block_leftover 7) with
              fluid_velocities := (block_leftover 0).fluid_velocities
              fluid_pressure := (block_leftover 0).fluid_pressure
              compaction_pressure := (block_leftover 0).compaction_pressure }
      ∧ ∃ intro, Introspection.construct 2 split_group_parameters true = .ok intro
        ∧ (intro.n_components, intro.component_indices)
            = setup_component_indices 2 split_group_parameters.names_of_compositional_fields.length
                split_group_parameters.include_melt_transport
        ∧ (intro.n_blocks, intro.block_indices)
            = setup_blocks split_group_parameters.names_of_compositional_fields.length
                split_group_parameters.include_melt_transport
                split_group_parameters.use_direct_stokes_solver
        ∧ intro.component_indices.assigned = List.range intro.n_components
        ∧ ∀ b ∈ intro.block_indices.velocities.toList ++ intro.block_indices.pressure.toList
              ++ intro.block_indices.fluid_velocities.toList
              ++ intro.block_indices.fluid_pressure.toList
              ++ intro.block_indices.compaction_pressure.toList
              ++ intro.block_indices.temperature.toList
              ++ intro.block_indices.compositional_fields,
            b < intro.n_blocks :=
  index_assignment_determined 2 3 false split_group_parameters true rfl (by decide)
    (component_leftover 0) (component_leftover 7) (block_leftover 0) (block_leftover 7)

/-! ## The hash of a point -/

/-- C28: `point_hash` reads its local `hash` before anything has been stored in
it, for every point; so neither the hash nor, with "Use random seed" false or
true, the perturbation of `initial_temperature` is determined by the position. -/
theorem point_hash_reads_uninitialised {β γ : Type} (hash_combine : Nat → β → Nat)
    (hash_combine_int : Nat → Int → Nat) (draw : Nat → γ) (use_random_seed : Bool)
    (time : Int) (position : List β) :
    point_hash hash_combine position = .error Exc.Undefined
      ∧ initial_temperature hash_combine hash_combine_int draw use_random_seed time position
          = .error Exc.Undefined := by
  have h : point_hash hash_combine position = .error Exc.Undefined := by
    cases position <;> rfl
  refine ⟨h, ?_⟩
  unfold initial_temperature
  rw [h]
  rfl

/-! ## The constructor calls `make` with cardinalities from 1 to 10 only -/

theorem group_evaluator_in_range {α : Type} (debug : Bool) (ci indices : List Nat) (j : Nat)
    (hn : 1 ≤ indices.length) :
    1 ≤ (group_evaluator ci indices j : DynamicFEPointEvaluation α).n_components
      ∧ (group_evaluator ci indices j : DynamicFEPointEvaluation α).n_components ≤ 10
      ∧ make debug (group_evaluator ci indices j : DynamicFEPointEvaluation α).first_component
          ((group_evaluator ci indices j : DynamicFEPointEvaluation α).n_components : Int)
        = .ok (some (group_evaluator ci indices j : DynamicFEPointEvaluation α)) := by
  obtain ⟨w, hw, hw1, hw2⟩ : ∃ w, (if j < (indices.length - 1) / 10 then 10
      else indices.length - 10 * ((indices.length - 1) / 10)) = w ∧ 1 ≤ w ∧ w ≤ 10 := by
    refine ⟨_, rfl, ?_, ?_⟩ <;> split <;> omega
  have he : (group_evaluator ci indices j : DynamicFEPointEvaluation α)
      = DynamicFEPointEvaluationImpl w (ci.getD (indices.getD (10 * j) 0) 0) := by
    unfold group_evaluator
    rw [hw]
  rw [he]
  refine ⟨hw1, hw2, ?_⟩
  have hm := @make_in_range α debug (ci.getD (indices.getD (10 * j) 0) 0) (w : Int)
    (by omega) (by omega)
  rw [Int.toNat_ofNat] at hm
  exact hm

theorem fold_groups_in_range {α : Type} (debug : Bool) (ci : List Nat)
    (fields_with : Nat → List Nat) : ∀ (bases : List Nat)
    (acc : List (Option (DynamicFEPointEvaluation α))),
    (∀ b ∈ bases, 1 ≤ (fields_with b).length ∧ ∀ x ∈ fields_with b, x < ci.length) →
    ∃ new : List (DynamicFEPointEvaluation α),
      bases.foldlM (fun compositions base_element_index =>
        add_group_evaluators debug ci (fields_with base_element_index) compositions) acc
        = .ok (acc ++ new.map some)
      ∧ ∀ e ∈ new, 1 ≤ e.n_components ∧ e.n_components ≤ 10
          ∧ make debug e.first_component (e.n_components : Int) = .ok (some e) := by
  intro bases
  induction bases with
  | nil =>
    intro acc _
    exact ⟨[], by simp [pure, Except.pure], fun e he => by cases he⟩
  | cons b bases ih =>
    intro acc h
    obtain ⟨hn, hvalid⟩ := h b (List.mem_cons_self _ _)
    have hok1 := add_group_evaluators_eq debug ci (fields_with b) acc hn hvalid
    obtain ⟨new2, hok2, hc2⟩ := ih _ (fun b2 hb2 => h b2 (List.mem_cons_of_mem _ hb2))
    refine ⟨(List.range (((fields_with b).length - 1) / 10 + 1)).map
      (fun j => group_evaluator ci (fields_with b) j) ++ new2, ?_, ?_⟩
    · rw [List.foldlM_cons, hok1, ok_bind, hok2, List.map_append, List.append_assoc]
    · intro e he
      rcases List.mem_append.mp he with h1 | h2
      · obtain ⟨j, _, hj⟩ := List.mem_map.mp h1
        rw [← hj]
        exact group_evaluator_in_range debug ci (fields_with b) j hn
      · exact hc2 e h2

/-- C29: when every group of same-basis composition fields is non-empty and
consists of declared fields, the block of the constructor that creates the
composition evaluators succeeds in debug and in release builds, stores no null
pointer, and every evaluator it stores is what `make` returns for a cardinality
between 1 and 10, the width of the evaluator: no call reaches the NotImplemented
branch of `make`. -/
theorem constructor_make_calls_in_range {α : Type} (debug : Bool) (sim : SimulatorAccess)
    (hgroups : ∀ b ∈ sim.composition_base_element_indices,
      1 ≤ (sim.compositional_field_indices_with_base_element b).length
        ∧ ∀ x ∈ sim.compositional_field_indices_with_base_element b,
            x < sim.introspection.component_indices.compositional_fields.length) :
    ∃ comps : List (DynamicFEPointEvaluation α),
      create_composition_evaluators debug sim = .ok (comps.map some)
        ∧ ∀ e ∈ comps, 1 ≤ e.n_components ∧ e.n_components ≤ 10
            ∧ make debug e.first_component (e.n_components : Int) = .ok (some e) := by
  obtain ⟨new, hok, hnew⟩ := @fold_groups_in_range α debug
    sim.introspection.component_indices.compositional_fields
    sim.compositional_field_indices_with_base_element
    sim.composition_base_element_indices [] hgroups
  exact ⟨new, by rw [create_composition_evaluators, hok, List.nil_append], hnew⟩

/-- The melt configuration with one composition field, whose only group is the
field 0. -/
theorem constructor_make_calls_in_range_witness :
    ∃ comps : List (DynamicFEPointEvaluation Nat),
      create_composition_evaluators true melt_composition_simulator = .ok (comps.map some)
        ∧ ∀ e ∈ comps, 1 ≤ e.n_components ∧ e.n_components ≤ 10
            ∧ make true e.first_component (e.n_components : Int) = .ok (some e) :=
  constructor_make_calls_in_range true melt_composition_simulator (by decide)

/-! ## The two overloads of `get_value` and `get_gradient` of a chunk evaluator -/

theorem write_all {β : Type} (x : Nat → β) (buf : List β) :
    (List.range buf.length).foldlM (fun s c => write s (0 + c) (x c)) buf
      = .ok ((List.range buf.length).map x) := by
  obtain ⟨r, hok, hlen, hr⟩ := write_loop_plain 0 x buf buf.length (by omega)
  rw [hok]
  congr 1
  apply List.ext_getElem?
  intro k
  rw [hr k, List.getElem?_map]
  by_cases hk : k < buf.length
  · rw [if_pos (by omega), List.getElem?_range hk]
    rfl
  · rw [if_neg (by omega), List.getElem?_eq_none (by omega),
      List.getElem?_eq_none (by simp; omega)]
    rfl

/-- C26, counterexample: in a release build the write-into-buffer overloads of
the evaluator for two components do not fail for a buffer of length three: they
store the two entries and leave the third slot as it was. -/
theorem get_value_release_unchecked :
    (∃ e0 : DynamicFEPointEvaluation Nat, make false 0 2 = .ok (some e0)
        ∧ e0.n_components = evaluated_pair.n_components)
      ∧ evaluated_pair.get_value false 0 [0, 0, 0] 0 3 = .ok [5, 6, 0]
      ∧ evaluated_pair.get_gradient false 0 [[], [], []] 0 3 = .ok [[1, 0], [0, 1], []] :=
  ⟨⟨_, rfl, rfl⟩, rfl, rfl⟩

/-- C26 (amended): for every cardinality `k` from 1 to 10 `make` returns an
evaluator of `k` components; once an `evaluate` has produced its values `v` and
gradients `g`, `get_value(point)` yields the `k` scalars `v point c` and
`get_gradient(point)` the `k` gradients `g point c`, for `c = 0, ..., k-1` in this
order, and the write-into-buffer overloads turn a buffer of length `k` into
exactly these sequences, in debug and in release builds; for a buffer of any
other length they fail in a debug build (in a release build the size check is
absent). -/
theorem dynamic_evaluator_overloads {α : Type} (debug : Bool) (first k : Nat)
    (hk1 : 1 ≤ k) (hk2 : k ≤ 10) (p : Nat) (v : Nat → Nat → α) (g : Nat → Nat → List α) :
    ∃ e0 : DynamicFEPointEvaluation α, make debug first (k : Int) = .ok (some e0)
      ∧ e0.n_components = k
      ∧ ∀ e : DynamicFEPointEvaluation α, e.n_components = e0.n_components →
          e.evaluation.values = some v → e.evaluation.gradients = some g →
          e.get_value_small_vector p = .ok ((List.range k).map (v p))
          ∧ e.get_gradient_small_vector p = .ok ((List.range k).map (g p))
          ∧ (∀ buffer : List α, buffer.length = k →
              e.get_value debug p buffer 0 buffer.length = .ok ((List.range k).map (v p)))
          ∧ (∀ buffer : List (List α), buffer.length = k →
              e.get_gradient debug p buffer 0 buffer.length
                = .ok ((List.range k).map (g p)))
          ∧ (∀ buffer : List α, buffer.length ≠ k →
              e.get_value true p buffer 0 buffer.length = .error (Exc.ExcMessage
                "The size of the solution vector does not match the number of components."))
          ∧ (∀ buffer : List (List α), buffer.length ≠ k →
              e.get_gradient true p buffer 0 buffer.length = .error (Exc.ExcMessage
                "The size of the gradient vector does not match the number of components.")) := by
  have hm := @make_in_range α debug first (k : Int) (by omega) (by omega)
  rw [Int.toNat_ofNat] at hm
  refine ⟨_, hm, rfl, ?_⟩
  intro e hn hv hg
  have hn : e.n_components = k := hn
  have hgv : e.evaluation.get_value p = .ok (v p) := get_value_ok _ p v hv
  have hgg : e.evaluation.get_gradient p = .ok (g p) := by
    unfold FEPointEvaluation.get_gradient
    rw [hg]
    rfl
  refine ⟨?_, ?_, ?_, ?_, ?_, ?_⟩
  · unfold DynamicFEPointEvaluation.get_value_small_vector
    rw [hgv, hn]
    rfl
  · unfold DynamicFEPointEvaluation.get_gradient_small_vector
    rw [hgg, hn]
    rfl
  · intro buffer hb
    unfold DynamicFEPointEvaluation.get_value
    rw [if_neg (by simp [hn, hb]), pure_bind_except, hgv, ok_bind, hn, ← hb]
    exact write_all (v p) buffer
  · intro buffer hb
    unfold DynamicFEPointEvaluation.get_gradient
    rw [if_neg (by simp [hn, hb]), pure_bind_except, hgg, ok_bind, hn, ← hb]
    exact write_all (g p) buffer
  · intro buffer hb
    unfold DynamicFEPointEvaluation.get_value
    rw [if_pos (by simp [hn, hb])]
    rfl
  · intro buffer hb
    unfold DynamicFEPointEvaluation.get_gradient
    rw [if_pos (by simp [hn, hb])]
    rfl

/-- The cardinality 2, with values `(5, 6)` and gradients `((1, 0), (0, 1))`. -/
theorem dynamic_evaluator_overloads_witness :
    ∃ e0 : DynamicFEPointEvaluation Nat, make true 0 ((2 : Nat) : Int) = .ok (some e0)
      ∧ e0.n_components = 2
      ∧ ∀ e : DynamicFEPointEvaluation Nat, e.n_components = e0.n_components →
          e.evaluation.values = some (fun _ c => [5, 6].getD c 0) →
          e.evaluation.gradients = some (fun _ c => [[1, 0], [0, 1]].getD c []) →
          e.get_value_small_vector 0 = .ok ((List.range 2).map (fun c => [5, 6].getD c 0))
          ∧ e.get_gradient_small_vector 0
              = .ok ((List.range 2).map (fun c => [[1, 0], [0, 1]].getD c []))
          ∧ (∀ buffer : List Nat, buffer.length = 2 →
              e.get_value true 0 buffer 0 buffer.length
                = .ok ((List.range 2).map (fun c => [5, 6].getD c 0)))
          ∧ (∀ buffer : List (List Nat), buffer.length = 2 →
              e.get_gradient true 0 buffer 0 buffer.length
                = .ok ((List.range 2).map (fun c => [[1, 0], [0, 1]].getD c [])))
          ∧ (∀ buffer : List Nat, buffer.length ≠ 2 →
              e.get_value true 0 buffer 0 buffer.length = .error (Exc.ExcMessage
                "The size of the solution vector does not match the number of components."))
          ∧ (∀ buffer : List (List Nat), buffer.length ≠ 2 →
              e.get_gradient true 0 buffer 0 buffer.length = .error (Exc.ExcMessage
                "The size of the gradient vector does not match the number of components.")) :=
  dynamic_evaluator_overloads true 0 2 (by decide) (by decide) 0 _ _

/-! ## The size check of `get_solution` and `get_gradients` -/

theorem bind_error_kind {β γ : Type} (P : Exc → Prop) (x : Except Exc β)
    (f : β → Except Exc γ) (hx : ∀ e, x = .error e → P e)
    (hf : ∀ v e, f v = .error e → P e) : ∀ e, (x >>= f) = .error e → P e := by
  intro e h
  cases x with
  | error e0 =>
    have h2 : e0 = e := by
      cases h
      rfl
    rw [← h2]
    exact hx e0 rfl
  | ok v => exact hf v e h

theorem foldlM_error_kind {β σ : Type} (P : Exc → Prop) (f : σ → β → Except Exc σ)
    (hf : ∀ s x e, f s x = .error e → P e) :
    ∀ (l : List β) (s : σ) (e : Exc), l.foldlM f s = .error e → P e := by
  intro l
  induction l with
  | nil =>
    intro s e h
    cases h
  | cons x l ih =>
    intro s e h
    rw [List.foldlM_cons] at h
    exact bind_error_kind P _ _ (hf s x) (fun s2 => ih s2) e h

theorem pure_error_kind {β : Type} (P : Exc → Prop) (x : β) :
    ∀ e, (pure x : Except Exc β) = .error e → P e := by
  intro e h
  cases h

theorem defined_error_kind {β : Type} (o : Option β) :
    ∀ e, defined o = .error e → e = Exc.Undefined ∨ ∃ msg, e = Exc.ExcMessage msg := by
  intro e h
  cases o with
  | none =>
    cases h
    exact Or.inl rfl
  | some x => cases h

theorem write_error_kind {β : Type} (v : List β) (index : Nat) (value : β) :
    ∀ e, write v index value = .error e →
      e = Exc.Undefined ∨ ∃ msg, e = Exc.ExcMessage msg := by
  intro e h
  unfold write at h
  split at h
  · cases h
  · cases h
    exact Or.inl rfl

theorem throw_message_error_kind {β : Type} (m : String) :
    ∀ e, (throw (Exc.ExcMessage m) : Except Exc β) = .error e →
      e = Exc.Undefined ∨ ∃ msg, e = Exc.ExcMessage msg := by
  intro e h
  cases h
  exact Or.inr ⟨m, rfl⟩

theorem get_value_error_kind {α : Type} (self : FEPointEvaluation α) (p : Nat) :
    ∀ e, self.get_value p = .error e →
      e = Exc.Undefined ∨ ∃ msg, e = Exc.ExcMessage msg := by
  unfold FEPointEvaluation.get_value
  exact bind_error_kind _ _ _ (defined_error_kind _) (fun v => pure_error_kind _ _)

theorem dynamic_get_value_error_kind {α : Type} (self : DynamicFEPointEvaluation α)
    (debug : Bool) (p : Nat) (buffer : List α) (start size : Nat) :
    ∀ e, self.get_value debug p buffer start size = .error e →
      e = Exc.Undefined ∨ ∃ msg, e = Exc.ExcMessage msg := by
  unfold DynamicFEPointEvaluation.get_value
  repeat' first
    | exact defined_error_kind _
    | exact write_error_kind _ _ _
    | exact pure_error_kind _ _
    | exact throw_message_error_kind _
    | exact get_value_error_kind _ _
    | (refine foldlM_error_kind _ _ (fun s x => ?_) _ _)
    | (refine bind_error_kind _ _ _ ?_ (fun v => ?_))
    | split

theorem get_solution_melt_error_kind {α : Type} (self : SolutionEvaluatorImplementation α)
    (p : Nat) (solution : List α) :
    ∀ e, self.get_solution_melt p solution = .error e →
      e = Exc.Undefined ∨ ∃ msg, e = Exc.ExcMessage msg := by
  unfold SolutionEvaluatorImplementation.get_solution_melt
  repeat' first
    | exact defined_error_kind _
    | exact write_error_kind _ _ _
    | exact pure_error_kind _ _
    | exact get_value_error_kind _ _
    | (refine foldlM_error_kind _ _ (fun s x => ?_) _ _)
    | (refine bind_error_kind _ _ _ ?_ (fun v => ?_))

theorem get_solution_error_kind {α : Type} (self : SolutionEvaluatorImplementation α)
    (debug : Bool) (p : Nat) (solution : List α)
    (hcheck : (debug && (solution.length != self.simulator_access.introspection.n_components))
      = false) :
    ∀ e, self.get_solution debug p solution = .error e →
      e = Exc.Undefined ∨ ∃ msg, e = Exc.ExcMessage msg := by
  unfold SolutionEvaluatorImplementation.get_solution
  rw [if_neg (by simp [hcheck]), pure_bind_except]
  dsimp only
  repeat' first
    | exact defined_error_kind _
    | exact write_error_kind _ _ _
    | exact pure_error_kind _ _
    | exact get_value_error_kind _ _
    | exact dynamic_get_value_error_kind _ _ _ _ _ _
    | exact get_solution_melt_error_kind _ _ _
    | (refine foldlM_error_kind _ _ (fun s x => ?_) _ _)
    | (refine bind_error_kind _ _ _ ?_ (fun v => ?_))
    | split

theorem get_gradient_error_kind {α : Type} (self : FEPointEvaluation α) (p : Nat) :
    ∀ e, self.get_gradient p = .error e →
      e = Exc.Undefined ∨ ∃ msg, e = Exc.ExcMessage msg := by
  unfold FEPointEvaluation.get_gradient
  exact bind_error_kind _ _ _ (defined_error_kind _) (fun v => pure_error_kind _ _)

theorem dynamic_get_gradient_error_kind {α : Type} (self : DynamicFEPointEvaluation α)
    (debug : Bool) (p : Nat) (buffer : List (List α)) (start size : Nat) :
    ∀ e, self.get_gradient debug p buffer start size = .error e →
      e = Exc.Undefined ∨ ∃ msg, e = Exc.ExcMessage msg := by
  unfold DynamicFEPointEvaluation.get_gradient
  repeat' first
    | exact defined_error_kind _
    | exact write_error_kind _ _ _
    | exact pure_error_kind _ _
    | exact throw_message_error_kind _
    | exact get_gradient_error_kind _ _
    | (refine foldlM_error_kind _ _ (fun s x => ?_) _ _)
    | (refine bind_error_kind _ _ _ ?_ (fun v => ?_))
    | split

theorem get_gradients_melt_error_kind {α : Type} (self : SolutionEvaluatorImplementation α)
    (p : Nat) (gradients : List (List α)) :
    ∀ e, self.get_gradients_melt p gradients = .error e →
      e = Exc.Undefined ∨ ∃ msg, e = Exc.ExcMessage msg := by
  unfold SolutionEvaluatorImplementation.get_gradients_melt
  repeat' first
    | exact defined_error_kind _
    | exact write_error_kind _ _ _
    | exact pure_error_kind _ _
    | exact get_gradient_error_kind _ _
    | (refine foldlM_error_kind _ _ (fun s x => ?_) _ _)
    | (refine bind_error_kind _ _ _ ?_ (fun v => ?_))

theorem get_gradients_error_kind {α : Type} (self : SolutionEvaluatorImplementation α)
    (debug : Bool) (p : Nat) (gradients : List (List α))
    (hcheck : (debug && (gradients.length != self.simulator_access.introspection.n_components))
      = false) :
    ∀ e, self.get_gradients debug p gradients = .error e →
      e = Exc.Undefined ∨ ∃ msg, e = Exc.ExcMessage msg := by
  unfold SolutionEvaluatorImplementation.get_gradients
  rw [if_neg (by simp [hcheck]), pure_bind_except]
  dsimp only
  repeat' first
    | exact defined_error_kind _
    | exact write_error_kind _ _ _
    | exact pure_error_kind _ _
    | exact get_gradient_error_kind _ _
    | exact dynamic_get_gradient_error_kind _ _ _ _ _ _
    | exact get_gradients_melt_error_kind _ _ _
    | (refine foldlM_error_kind _ _ (fun s x => ?_) _ _)
    | (refine bind_error_kind _ _ _ ?_ (fun v => ?_))
    | split

theorem not_mismatch_of_kind {β : Type} (r : Except Exc β)
    (h : ∀ e, r = .error e → e = Exc.Undefined ∨ ∃ msg, e = Exc.ExcMessage msg)
    (a b : Nat) : r ≠ .error (Exc.ExcDimensionMismatch a b) := by
  intro hr
  rcases h _ hr with h1 | ⟨msg, h2⟩
  · cases h1
  · cases h2

/-- C21, counterexample: in a release build, where the size check is compiled
out, `get_solution` does not fail for a buffer of 9 slots although the
configuration has 8 components: it assigns the slots 0 to 7 and returns. -/
theorem get_solution_release_unchecked :
    melt_evaluator.simulator_access.introspection.n_components = 8
      ∧ melt_evaluator.get_solution false 0 (List.replicate 9 0)
          = .ok [1, 2, 7, 8, 1, 2, 3, 4, 0] :=
  ⟨rfl, rfl⟩

/-- C21 (amended): in a debug build `get_solution` and `get_gradients` fail with
a dimension-mismatch error if and only if the length of the buffer differs from
`n_components`; the check is their first statement, so the failure occurs
whatever the evaluators hold, before any value is read and before any slot is
assigned.  In a release build the check is absent: neither function ever fails
with a dimension-mismatch error. -/
theorem size_check_debug_only {α : Type} (self : SolutionEvaluatorImplementation α)
    (p : Nat) :
    (∀ solution : List α,
        solution.length ≠ self.simulator_access.introspection.n_components →
        self.get_solution true p solution = .error (Exc.ExcDimensionMismatch solution.length
          self.simulator_access.introspection.n_components))
      ∧ (∀ (solution : List α) (a b : Nat),
        self.get_solution true p solution = .error (Exc.ExcDimensionMismatch a b) →
        solution.length ≠ self.simulator_access.introspection.n_components)
      ∧ (∀ gradients : List (List α),
        gradients.length ≠ self.simulator_access.introspection.n_components →
        self.get_gradients true p gradients = .error (Exc.ExcDimensionMismatch
          gradients.length self.simulator_access.introspection.n_components))
      ∧ (∀ (gradients : List (List α)) (a b : Nat),
        self.get_gradients true p gradients = .error (Exc.ExcDimensionMismatch a b) →
        gradients.length ≠ self.simulator_access.introspection.n_components)
      ∧ (∀ (solution : List α) (a b : Nat),
        self.get_solution false p solution ≠ .error (Exc.ExcDimensionMismatch a b))
      ∧ (∀ (gradients : List (List α)) (a b : Nat),
        self.get_gradients false p gradients ≠ .error (Exc.ExcDimensionMismatch a b)) := by
  refine ⟨?_, ?_, ?_, ?_, ?_, ?_⟩
  · intro solution h
    unfold SolutionEvaluatorImplementation.get_solution
    rw [if_pos (by simp [h])]
    rfl
  · intro solution a b h heq
    exact not_mismatch_of_kind _
      (get_solution_error_kind self true p solution (by simp [heq])) a b h
  · intro gradients h
    unfold SolutionEvaluatorImplementation.get_gradients
    rw [if_pos (by simp [h])]
    rfl
  · intro gradients a b h heq
    exact not_mismatch_of_kind _
      (get_gradients_error_kind self true p gradients (by simp [heq])) a b h
  · intro solution a b
    exact not_mismatch_of_kind _ (get_solution_error_kind self false p solution rfl) a b
  · intro gradients a b
    exact not_mismatch_of_kind _ (get_gradients_error_kind self false p gradients rfl) a b

/-! ## The calls of `reinit` -/

theorem translated_flags (update_flags : UpdateFlags) :
    (if update_flags.update_gradients = true then
        (if update_flags.update_values = true then
            EvaluationFlags.nothing.or { values := true, gradients := false }
          else EvaluationFlags.nothing).or { values := false, gradients := true }
      else
        (if update_flags.update_values = true then
            EvaluationFlags.nothing.or { values := true, gradients := false }
          else EvaluationFlags.nothing))
      = { values := update_flags.update_values, gradients := update_flags.update_gradients } := by
  obtain ⟨uv, ug, o⟩ := update_flags
  cases uv <;> cases ug <;> rfl

theorem evaluate_compositions {α : Type} (solution_values : List α)
    (evaluation_flags : EvaluationFlags) :
    ∀ (comps : List (DynamicFEPointEvaluation α)) (k : Nat) (calls : List (Call α)),
    (List.enumFrom k (comps.map some)).foldlM (fun calls eval => do
        let _ ← defined eval.2
        pure (calls ++ [Call.evaluate (Evaluator.composition eval.1) solution_values
          evaluation_flags])) calls
      = .ok (calls ++ (List.range' k comps.length).map (fun i =>
          Call.evaluate (Evaluator.composition i) solution_values evaluation_flags)) := by
  intro comps
  induction comps with
  | nil =>
    intro k calls
    simp [pure, Except.pure]
  | cons e rest ih =>
    intro k calls
    rw [List.map_cons, List.enumFrom_cons, List.foldlM_cons, defined_some, ok_bind,
      pure_bind_except, ih, List.length_cons, List.range'_succ, List.map_cons,
      List.append_assoc]
    rfl

theorem reinit_eq {α : Type} (self : SolutionEvaluatorImplementation α) (debug : Bool)
    (cell : Nat) (positions : List (List α)) (solution_values : List α)
    (update_flags : UpdateFlags) (hcheck : (debug && update_flags.others) = false)
    (pr : FEPointEvaluation α) (hp : self.pressure = some pr)
    (comps : List (DynamicFEPointEvaluation α)) (hc : self.compositions = comps.map some)
    (hm : self.simulator_access.include_melt_transport = true →
      (∃ e, self.fluid_velocity = some e) ∧ (∃ e, self.fluid_pressure = some e)
        ∧ ∃ e, self.compaction_pressure = some e) :
    self.reinit debug cell positions solution_values update_flags
      = .ok ([Call.mapping_info_reinit cell positions]
          ++ ((if self.simulator_access.parameters.use_locally_conservative_discretization
                then [Evaluator.pressure]
                  ++ (if self.simulator_access.include_melt_transport
                        then [Evaluator.fluid_pressure] else [])
                else [])
              ++ (if self.simulator_access.include_melt_transport
                    && self.simulator_access.use_discontinuous_p_c
                  then [Evaluator.compaction_pressure] else [])).map
              (fun r => Call.reinit r cell positions)
          ++ ([Evaluator.velocity, Evaluator.pressure, Evaluator.temperature]
              ++ (List.range comps.length).map Evaluator.composition
              ++ (if self.simulator_access.include_melt_transport
                  then [Evaluator.fluid_velocity, Evaluator.fluid_pressure,
                    Evaluator.compaction_pressure]
                  else [])).map
              (fun r => Call.evaluate r solution_values
                { values := update_flags.update_values,
                  gradients := update_flags.update_gradients })) := by
  unfold SolutionEvaluatorImplementation.reinit
  rw [if_neg (by
    cases debug
    · simp
    · simpa using hcheck), pure_bind_except]
  dsimp only
  rw [translated_flags, hp, hc, List.enum]
  have hfold := evaluate_compositions solution_values
    { values := update_flags.update_values, gradients := update_flags.update_gradients } comps 0
  rcases Bool.eq_false_or_eq_true self.simulator_access.include_melt_transport
    with hmelt | hmelt
  · obtain ⟨⟨fv, hfv⟩, ⟨fp, hfp⟩, ⟨cp, hcp⟩⟩ := hm hmelt
    rcases Bool.eq_false_or_eq_true
        self.simulator_access.parameters.use_locally_conservative_discretization
      with hl | hl <;>
    rcases Bool.eq_false_or_eq_true self.simulator_access.use_discontinuous_p_c
      with hd | hd <;>
    simp only [hl, hd, hmelt, hfv, hfp, hcp, defined_some, ok_bind, pure_bind_except,
      hfold, List.range_eq_range'] <;>
    simp <;>
    rfl
  · rcases Bool.eq_false_or_eq_true
        self.simulator_access.parameters.use_locally_conservative_discretization
      with hl | hl <;>
    rcases Bool.eq_false_or_eq_true self.simulator_access.use_discontinuous_p_c
      with hd | hd <;>
    simp only [hl, hd, hmelt, defined_some, ok_bind, pure_bind_except,
      hfold, List.range_eq_range'] <;>
    simp <;>
    rfl

theorem reinit_error_kind {α : Type} (self : SolutionEvaluatorImplementation α) (debug : Bool)
    (cell : Nat) (positions : List (List α)) (solution_values : List α)
    (update_flags : UpdateFlags) (hcheck : (debug && update_flags.others) = false) :
    ∀ e, self.reinit debug cell positions solution_values update_flags = .error e →
      e = Exc.Undefined ∨ ∃ msg, e = Exc.ExcMessage msg := by
  unfold SolutionEvaluatorImplementation.reinit
  rw [if_neg (by
    cases debug
    · simp
    · simpa using hcheck), pure_bind_except]
  dsimp only
  repeat' first
    | exact defined_error_kind _
    | exact pure_error_kind _ _
    | (refine foldlM_error_kind _ _ (fun s x => ?_) _ _)
    | (refine bind_error_kind _ _ _ ?_ (fun v => ?_))
    | split

theorem all_some_eq_map {β : Type} : ∀ l : List (Option β),
    (∀ x ∈ l, x.isSome = true) → ∃ l2 : List β, l = l2.map some := by
  intro l
  induction l with
  | nil => exact fun _ => ⟨[], rfl⟩
  | cons x l ih =>
    intro h
    obtain ⟨l2, hl2⟩ := ih (fun y hy => h y (List.mem_cons_of_mem _ hy))
    obtain ⟨v, hv⟩ := Option.isSome_iff_exists.mp (h x (List.mem_cons_self _ _))
    exact ⟨v :: l2, by rw [hv, hl2, List.map_cons]⟩

/-- C22, counterexample: in a release build, where the assertion on the flags is
compiled out, `reinit` does not fail when a bit other than `update_values` and
`update_gradients` is set: it rebinds the mapping cache and evaluates every
sub-evaluator. -/
theorem reinit_release_unchecked :
    melt_evaluator.reinit false 0 [] []
        { update_values := true, update_gradients := false, others := true }
      = .ok [Call.mapping_info_reinit 0 [],
          Call.evaluate Evaluator.velocity [] { values := true, gradients := false },
          Call.evaluate Evaluator.pressure [] { values := true, gradients := false },
          Call.evaluate Evaluator.temperature [] { values := true, gradients := false },
          Call.evaluate Evaluator.fluid_velocity [] { values := true, gradients := false },
          Call.evaluate Evaluator.fluid_pressure [] { values := true, gradients := false },
          Call.evaluate Evaluator.compaction_pressure []
            { values := true, gradients := false }] :=
  rfl

/-- C22 (amended): in a debug build `reinit` fails with NotImplemented if and
only if `update_flags` contains a bit other than `update_values` and
`update_gradients`; the assertion precedes every call, so the failure occurs
whatever the members hold, before the mapping cache or any evaluator is rebound
or evaluated.  In a release build the assertion is absent and `reinit` never
fails with NotImplemented.  For every flag set within `update_values |
update_gradients`, in both builds, `reinit` returns when the pointers that the
constructor sets are not null. -/
theorem reinit_flag_check {α : Type} (self : SolutionEvaluatorImplementation α)
    (cell : Nat) (positions : List (List α)) (solution_values : List α)
    (update_flags : UpdateFlags) :
    (self.reinit true cell positions solution_values update_flags
        = .error Exc.ExcNotImplemented ↔ update_flags.others = true)
      ∧ self.reinit false cell positions solution_values update_flags
          ≠ .error Exc.ExcNotImplemented
      ∧ (update_flags.others = false → self.pressure.isSome = true →
          (∀ ptr ∈ self.compositions, ptr.isSome = true) →
          (self.simulator_access.include_melt_transport = true →
            (∃ e, self.fluid_velocity = some e) ∧ (∃ e, self.fluid_pressure = some e)
              ∧ ∃ e, self.compaction_pressure = some e) →
          ∀ debug, ∃ calls,
            self.reinit debug cell positions solution_values update_flags = .ok calls) := by
  have hkind : ∀ (r : Except Exc (List (Call α))),
      (∀ e, r = .error e → e = Exc.Undefined ∨ ∃ msg, e = Exc.ExcMessage msg) →
      r ≠ .error Exc.ExcNotImplemented := by
    intro r h hr
    rcases h _ hr with h1 | ⟨msg, h2⟩
    · cases h1
    · cases h2
  refine ⟨⟨?_, ?_⟩, ?_, ?_⟩
  · intro h
    cases ho : update_flags.others with
    | true => rfl
    | false =>
      exact absurd h (hkind _ (reinit_error_kind self true cell positions solution_values
        update_flags (by simp [ho])))
  · intro ho
    unfold SolutionEvaluatorImplementation.reinit
    rw [if_pos (by simp [ho])]
    rfl
  · exact hkind _ (reinit_error_kind self false cell positions solution_values
      update_flags rfl)
  · intro ho hp hcomps hm debug
    obtain ⟨pr, hpr⟩ := Option.isSome_iff_exists.mp hp
    obtain ⟨comps, hc⟩ := all_some_eq_map self.compositions hcomps
    exact ⟨_, reinit_eq self debug cell positions solution_values update_flags
      (by simp [ho]) pr hpr comps hc hm⟩

theorem owned_evaluators_nodup (n : Nat) (melt : Bool) :
    ([Evaluator.velocity, Evaluator.pressure, Evaluator.temperature]
      ++ (List.range n).map Evaluator.composition
      ++ (if melt then [Evaluator.fluid_velocity, Evaluator.fluid_pressure,
            Evaluator.compaction_pressure]
          else [])).Nodup := by
  have hinj : ((List.range n).map Evaluator.composition).Nodup :=
    List.Nodup.map (fun a b h => by cases h; rfl) (List.nodup_range n)
  cases melt <;> simp [List.nodup_append, hinj]

/-- C24: for every flag set within `update_values | update_gradients`, in debug
and in release builds, `reinit` on an object whose pointers are set first rebinds
the shared mapping cache, once, then makes its individual rebinding calls, and
then calls `evaluate` once on each owned sub-evaluator, in the order velocity,
pressure, temperature, the composition chunks, and with melt transport fluid
velocity, fluid pressure, compaction pressure (none of the three without melt
transport); every `evaluate` receives the supplied coefficient vector and
evaluation flags that contain `values` exactly when `update_values` was requested
and `gradients` exactly when `update_gradients` was requested. -/
theorem reinit_calls {α : Type} (self : SolutionEvaluatorImplementation α) (debug : Bool)
    (cell : Nat) (positions : List (List α)) (solution_values : List α)
    (update_flags : UpdateFlags) (hflags : update_flags.others = false)
    (hp : self.pressure.isSome = true)
    (hcomps : ∀ ptr ∈ self.compositions, ptr.isSome = true)
    (hm : self.simulator_access.include_melt_transport = true →
      (∃ e, self.fluid_velocity = some e) ∧ (∃ e, self.fluid_pressure = some e)
        ∧ ∃ e, self.compaction_pressure = some e) :
    ∃ (rebinds : List Evaluator) (flags : EvaluationFlags),
      self.reinit debug cell positions solution_values update_flags
        = .ok ([Call.mapping_info_reinit cell positions]
            ++ rebinds.map (fun r => Call.reinit r cell positions)
            ++ ([Evaluator.velocity, Evaluator.pressure, Evaluator.temperature]
                ++ (List.range self.compositions.length).map Evaluator.composition
                ++ (if self.simulator_access.include_melt_transport
                    then [Evaluator.fluid_velocity, Evaluator.fluid_pressure,
                      Evaluator.compaction_pressure]
                    else [])).map (fun r => Call.evaluate r solution_values flags))
      ∧ (flags.values = true ↔ update_flags.update_values = true)
      ∧ (flags.gradients = true ↔ update_flags.update_gradients = true)
      ∧ ([Evaluator.velocity, Evaluator.pressure, Evaluator.temperature]
          ++ (List.range self.compositions.length).map Evaluator.composition
          ++ (if self.simulator_access.include_melt_transport
              then [Evaluator.fluid_velocity, Evaluator.fluid_pressure,
                Evaluator.compaction_pressure]
              else [])).Nodup := by
  obtain ⟨pr, hpr⟩ := Option.isSome_iff_exists.mp hp
  obtain ⟨comps, hc⟩ := all_some_eq_map self.compositions hcomps
  have hlen : self.compositions.length = comps.length := by rw [hc, List.length_map]
  rw [hlen]
  exact ⟨_, _, reinit_eq self debug cell positions solution_values update_flags
    (by simp [hflags]) pr hpr comps hc hm, Iff.rfl, Iff.rfl, owned_evaluators_nodup _ _⟩

/-- The melt configuration with one composition field, values and gradients
requested. -/
theorem reinit_calls_witness :
    ∃ (rebinds : List Evaluator) (flags : EvaluationFlags),
      melt_composition_evaluator.reinit true 0 [[0, 0]] [1, 2, 3]
          { update_values := true, update_gradients := true, others := false }
        = .ok ([Call.mapping_info_reinit 0 [[0, 0]]]
            ++ rebinds.map (fun r => Call.reinit r 0 [[0, 0]])
            ++ ([Evaluator.velocity, Evaluator.pressure, Evaluator.temperature]
                ++ (List.range melt_composition_evaluator.compositions.length).map
                    Evaluator.composition
                ++ (if melt_composition_evaluator.simulator_access.include_melt_transport
                    then [Evaluator.fluid_velocity, Evaluator.fluid_pressure,
                      Evaluator.compaction_pressure]
                    else [])).map (fun r => Call.evaluate r [1, 2, 3] flags))
      ∧ (flags.values = true ↔ true = true)
      ∧ (flags.gradients = true ↔ true = true)
      ∧ ([Evaluator.velocity, Evaluator.pressure, Evaluator.temperature]
          ++ (List.range melt_composition_evaluator.compositions.length).map
              Evaluator.composition
          ++ (if melt_composition_evaluator.simulator_access.include_melt_transport
              then [Evaluator.fluid_velocity, Evaluator.fluid_pressure,
                Evaluator.compaction_pressure]
              else [])).Nodup :=
  reinit_calls melt_composition_evaluator true 0 [[0, 0]] [1, 2, 3]
    { update_values := true, update_gradients := true, others := false } rfl rfl
    (by simp [melt_composition_evaluator])
    (fun _ => ⟨⟨_, rfl⟩, ⟨_, rfl⟩, ⟨_, rfl⟩⟩)

theorem bind_ok_inv {β γ : Type} (x : Except Exc β) (f : β → Except Exc γ) (b : γ)
    (h : (x >>= f) = .ok b) : ∃ a, x = .ok a ∧ f a = .ok b := by
  cases x with
  | error e => cases h
  | ok a => exact ⟨a, rfl, h⟩

theorem construct_paths {α : Type} (debug : Bool) (sim : SimulatorAccess) (update_flags : Nat)
    (ev : SolutionEvaluatorImplementation α)
    (hc : SolutionEvaluatorImplementation.construct debug sim update_flags = .ok ev) :
    ev.simulator_access = sim
      ∧ create_composition_evaluators debug sim = .ok ev.compositions
      ∧ ev.velocity.own_mapping_flags = none
      ∧ ev.temperature.own_mapping_flags = none
      ∧ (∃ pr, ev.pressure = some pr ∧ pr.own_mapping_flags.isSome
          = sim.parameters.use_locally_conservative_discretization)
      ∧ (sim.include_melt_transport = true → ∃ fv fp cp,
          ev.fluid_velocity = some fv ∧ fv.own_mapping_flags = none
            ∧ ev.fluid_pressure = some fp ∧ fp.own_mapping_flags.isSome
              = sim.parameters.use_locally_conservative_discretization
            ∧ ev.compaction_pressure = some cp
            ∧ cp.own_mapping_flags.isSome = sim.use_discontinuous_p_c)
      ∧ (sim.include_melt_transport = false → ev.fluid_velocity = none
          ∧ ev.fluid_pressure = none ∧ ev.compaction_pressure = none) := by
  unfold SolutionEvaluatorImplementation.construct at hc
  dsimp only at hc
  obtain ⟨a1, h1, hc⟩ := bind_ok_inv _ _ _ hc
  obtain ⟨a2, h2, hc⟩ := bind_ok_inv _ _ _ hc
  obtain ⟨a3, h3, hc⟩ := bind_ok_inv _ _ _ hc
  obtain ⟨a4, h4, hc⟩ := bind_ok_inv _ _ _ hc
  rcases Bool.eq_false_or_eq_true sim.parameters.use_locally_conservative_discretization
      with hl | hl <;>
    rcases Bool.eq_false_or_eq_true sim.include_melt_transport with hmelt | hmelt <;>
    rcases Bool.eq_false_or_eq_true sim.use_discontinuous_p_c with hd | hd
  all_goals
    simp only [hl, hmelt, hd, pure_bind_except] at hc
    repeat (obtain ⟨_, _, hc⟩ := bind_ok_inv _ _ _ hc)
    cases hc
    simp [FEPointEvaluation.on_mapping, FEPointEvaluation.on_mapping_info, hl, hmelt, hd, h4]

theorem make_path {α : Type} (debug : Bool) (first : Nat) (k : Int)
    (e : DynamicFEPointEvaluation α) (h : make debug first k = .ok (some e)) :
    e.evaluation.own_mapping_flags = none := by
  unfold make at h
  split at h
  all_goals first
    | (cases h
       rfl)
    | (split at h <;> cases h)

/-- C23: let the constructor have built the object, for groups of composition
fields that are non-empty and consist of declared fields.  Then the calls of
`reinit` are: the rebinding of the shared mapping cache, then the individual
rebinding calls, then only `evaluate` calls; and the evaluators that are rebound
individually are exactly those that the constructor built on the general path:
pressure if and only if the discretization is locally conservative, fluid
pressure if and only if moreover melt transport is on, compaction pressure if
and only if melt transport is on and `use_discontinuous_p_c` is set.  So no
evaluator on the shared mapping cache is rebound individually, and every
general-path evaluator has been rebound before anything is evaluated. -/
theorem reinit_rebinds_general_path {α : Type} (debug0 debug : Bool) (sim : SimulatorAccess)
    (flags0 : Nat) (ev : SolutionEvaluatorImplementation α)
    (hc : SolutionEvaluatorImplementation.construct debug0 sim flags0 = .ok ev)
    (hgroups : ∀ b ∈ sim.composition_base_element_indices,
      1 ≤ (sim.compositional_field_indices_with_base_element b).length
        ∧ ∀ x ∈ sim.compositional_field_indices_with_base_element b,
            x < sim.introspection.component_indices.compositional_fields.length)
    (cell : Nat) (positions : List (List α)) (solution_values : List α)
    (update_flags : UpdateFlags) (hcheck : (debug && update_flags.others) = false) :
    ∃ (rebinds : List Evaluator) (evaluations : List (Call α)),
      ev.reinit debug cell positions solution_values update_flags
        = .ok ([Call.mapping_info_reinit cell positions]
            ++ rebinds.map (fun r => Call.reinit r cell positions) ++ evaluations)
      ∧ (∀ c ∈ evaluations, c.evaluated.isSome = true)
      ∧ (∀ r, r ∈ rebinds ↔ ev.general_path r = true)
      ∧ (Evaluator.pressure ∈ rebinds
          ↔ sim.parameters.use_locally_conservative_discretization = true)
      ∧ (Evaluator.fluid_pressure ∈ rebinds
          ↔ sim.include_melt_transport = true
            ∧ sim.parameters.use_locally_conservative_discretization = true)
      ∧ (Evaluator.compaction_pressure ∈ rebinds
          ↔ sim.include_melt_transport = true ∧ sim.use_discontinuous_p_c = true) := by
  obtain ⟨hsim, hcreate, hvel, htemp, ⟨pr, hpr, hprpath⟩, hmelt1, hmelt0⟩ :=
    construct_paths debug0 sim flags0 ev hc
  obtain ⟨comps, hcomps, hmake⟩ := @fold_groups_in_range α debug0
    sim.introspection.component_indices.compositional_fields
    sim.compositional_field_indices_with_base_element
    sim.composition_base_element_indices [] hgroups
  have hcomp : ev.compositions = comps.map some := by
    have h := hcreate
    rw [create_composition_evaluators, hcomps, List.nil_append] at h
    exact (Except.ok.inj h).symm
  have hm : ev.simulator_access.include_melt_transport = true →
      (∃ e, ev.fluid_velocity = some e) ∧ (∃ e, ev.fluid_pressure = some e)
        ∧ ∃ e, ev.compaction_pressure = some e := by
    rw [hsim]
    intro h
    obtain ⟨fv, fp, cp, h1, _, h2, _, h3, _⟩ := hmelt1 h
    exact ⟨⟨fv, h1⟩, ⟨fp, h2⟩, ⟨cp, h3⟩⟩
  refine ⟨_, _, by
    rw [reinit_eq ev debug cell positions solution_values update_flags hcheck pr hpr comps
      hcomp hm], ?_, ?_, ?_, ?_, ?_⟩
  · intro c hcm
    obtain ⟨r, _, hr⟩ := List.mem_map.mp hcm
    rw [← hr]
    rfl
  · rw [hsim]
    intro r
    unfold SolutionEvaluatorImplementation.general_path
    have hnone : ∀ i, ((ev.evaluator (Evaluator.composition i)).bind
        (fun e => e.own_mapping_flags)) = none := by
      intro i
      simp only [SolutionEvaluatorImplementation.evaluator, hcomp, List.getElem?_map]
      cases hi : comps[i]? with
      | none => rfl
      | some e => exact (hmake e (List.getElem?_mem hi)).2.2 |> make_path debug0 _ _ e
    rcases Bool.eq_false_or_eq_true sim.include_melt_transport with hmelt | hmelt
    · obtain ⟨fv, fp, cp, h1, h1p, h2, h2p, h3, h3p⟩ := hmelt1 hmelt
      cases r with
      | composition i =>
        rw [hnone i]
        simp
      | _ =>
        simp [SolutionEvaluatorImplementation.evaluator, hmelt, hvel, htemp, hpr, h1, h2, h3,
          h1p, hprpath, h2p, h3p]
    · obtain ⟨h1, h2, h3⟩ := hmelt0 hmelt
      cases r with
      | composition i =>
        rw [hnone i]
        simp
      | _ =>
        simp [SolutionEvaluatorImplementation.evaluator, hmelt, hvel, htemp, hpr, h1, h2, h3,
          hprpath]
  · rw [hsim]
    cases sim.parameters.use_locally_conservative_discretization <;>
      cases sim.include_melt_transport <;> cases sim.use_discontinuous_p_c <;> simp
  · rw [hsim]
    cases sim.parameters.use_locally_conservative_discretization <;>
      cases sim.include_melt_transport <;> cases sim.use_discontinuous_p_c <;> simp
  · rw [hsim]
    cases sim.parameters.use_locally_conservative_discretization <;>
      cases sim.include_melt_transport <;> cases sim.use_discontinuous_p_c <;> simp

/-- The evaluator that the constructor builds for the melt configuration with one
composition field in which the discretization is locally conservative and the
compaction pressure is discontinuous: pressure, fluid pressure and compaction
pressure are on the general path and are the evaluators that `reinit` rebinds
individually; velocity, temperature, fluid velocity and the composition chunk
are on the shared mapping cache. -/
theorem reinit_rebinds_general_path_witness :
    Introspection.construct 2 general_path_parameters true = .ok general_path_introspection
      ∧ general_path_simulator.parameters.use_locally_conservative_discretization = true
      ∧ general_path_simulator.include_melt_transport = true
      ∧ general_path_simulator.use_discontinuous_p_c = true
      ∧ ∃ ev : SolutionEvaluatorImplementation Nat,
        SolutionEvaluatorImplementation.construct true general_path_simulator 3 = .ok ev
        ∧ ev.general_path Evaluator.pressure = true
        ∧ ev.general_path Evaluator.fluid_pressure = true
        ∧ ev.general_path Evaluator.compaction_pressure = true
        ∧ ev.general_path Evaluator.velocity = false
        ∧ ev.general_path (Evaluator.composition 0) = false
        ∧ ev.reinit true 0 [[0, 0]] [1, 2, 3]
              { update_values := true, update_gradients := true, others := false }
            = .ok [Call.mapping_info_reinit 0 [[0, 0]],
                Call.reinit Evaluator.pressure 0 [[0, 0]],
                Call.reinit Evaluator.fluid_pressure 0 [[0, 0]],
                Call.reinit Evaluator.compaction_pressure 0 [[0, 0]],
                Call.evaluate Evaluator.velocity [1, 2, 3] { values := true, gradients := true },
                Call.evaluate Evaluator.pressure [1, 2, 3] { values := true, gradients := true },
                Call.evaluate Evaluator.temperature [1, 2, 3]
                  { values := true, gradients := true },
                Call.evaluate (Evaluator.composition 0) [1, 2, 3]
                  { values := true, gradients := true },
                Call.evaluate Evaluator.fluid_velocity [1, 2, 3]
                  { values := true, gradients := true },
                Call.evaluate Evaluator.fluid_pressure [1, 2, 3]
                  { values := true, gradients := true },
                Call.evaluate Evaluator.compaction_pressure [1, 2, 3]
                  { values := true, gradients := true }]
        ∧ ∃ (rebinds : List Evaluator) (evaluations : List (Call Nat)),
          ev.reinit true 0 [[0, 0]] [1, 2, 3]
              { update_values := true, update_gradients := true, others := false }
            = .ok ([Call.mapping_info_reinit 0 [[0, 0]]]
                ++ rebinds.map (fun r => Call.reinit r 0 [[0, 0]]) ++ evaluations)
          ∧ (∀ c ∈ evaluations, c.evaluated.isSome = true)
          ∧ (∀ r, r ∈ rebinds ↔ ev.general_path r = true)
          ∧ (Evaluator.pressure ∈ rebinds
              ↔ general_path_simulator.parameters.use_locally_conservative_discretization
                = true)
          ∧ (Evaluator.fluid_pressure ∈ rebinds
              ↔ general_path_simulator.include_melt_transport = true
                ∧ general_path_simulator.parameters.use_locally_conservative_discretization
                  = true)
          ∧ (Evaluator.compaction_pressure ∈ rebinds
              ↔ general_path_simulator.include_melt_transport = true
                ∧ general_path_simulator.use_discontinuous_p_c = true) := by
  refine ⟨rfl, rfl, rfl, rfl, _, rfl, rfl, rfl, rfl, rfl, rfl, rfl, ?_⟩
  exact reinit_rebinds_general_path true true general_path_simulator 3 _ (by rfl)
    (by decide) 0 [[0, 0]] [1, 2, 3]
    { update_values := true, update_gradients := true, others := false } rfl

/-! ## Every slot is assigned exactly once by `get_solution` -/

theorem get_solution_melt_pointwise {α : Type} (self : SolutionEvaluatorImplementation α)
    (p : Nat) (buf : List α) (vel fpv cpv : Nat → Nat → α)
    (hvel : self.velocity.values = some vel)
    (hfp : self.fluid_pressure.bind (fun e => e.values) = some fpv)
    (hcp : self.compaction_pressure.bind (fun e => e.values) = some cpv)
    (h1 : self.melt_component_indices.1 + self.simulator_access.dim ≤ buf.length)
    (h2 : self.melt_component_indices.2.1 < buf.length)
    (h3 : self.melt_component_indices.2.2 < buf.length) :
    ∃ r, self.get_solution_melt p buf = .ok r ∧ r.length = buf.length
      ∧ ∀ k, r[k]? = if k = self.melt_component_indices.2.2 then some (cpv p 0)
          else if k = self.melt_component_indices.2.1 then some (fpv p 0)
          else if self.melt_component_indices.1 ≤ k
              ∧ k < self.melt_component_indices.1 + self.simulator_access.dim
            then some (vel p (k - self.melt_component_indices.1))
          else buf[k]? := by
  obtain ⟨fpe, hfpe, hfpv⟩ := Option.bind_eq_some.mp hfp
  obtain ⟨cpe, hcpe, hcpv⟩ := Option.bind_eq_some.mp hcp
  obtain ⟨r1, hr1, hl1, hp1⟩ := write_loop_plain self.melt_component_indices.1 (vel p) buf
    self.simulator_access.dim h1
  obtain ⟨r2, hr2, hl2, hp2⟩ := write_one r1 self.melt_component_indices.2.1 (fpv p 0)
    (by omega)
  obtain ⟨r3, hr3, hl3, hp3⟩ := write_one r2 self.melt_component_indices.2.2 (cpv p 0)
    (by omega)
  refine ⟨r3, ?_, by omega, ?_⟩
  · unfold SolutionEvaluatorImplementation.get_solution_melt
    rw [get_value_ok _ p vel hvel, ok_bind, hr1, ok_bind, hfpe, defined_some, ok_bind,
      get_value_ok _ p fpv hfpv, ok_bind, hr2, ok_bind, hcpe, defined_some, ok_bind,
      get_value_ok _ p cpv hcpv, ok_bind, hr3]
  · intro k
    rw [hp3 k, hp2 k, hp1 k]

theorem melt_stage_determined {α : Type} (self : SolutionEvaluatorImplementation α)
    (d n_c : Nat) (melt : Bool) (comps : List (DynamicFEPointEvaluation α)) (p : Nat)
    (hs : evaluated_state self d n_c melt comps) (P : Nat)
    (hP : (setup_component_indices d n_c melt).2.pressure = some P) :
    ∃ xm : Nat → Option α, (∀ k, (k < d ∨ P ≤ k) → xm k = none)
      ∧ (∀ k, d ≤ k → k < P → ∃ v, xm k = some v)
      ∧ ∀ r4 : List α, P ≤ r4.length →
          ∃ out, (if self.simulator_access.include_melt_transport = true
              then self.get_solution_melt p r4 else pure r4) = .ok out
            ∧ out.length = r4.length
            ∧ ∀ k, out[k]? = if (xm k).isSome = true then xm k else r4[k]? := by
  obtain ⟨P2, hdP, hn, hvelidx, hP2, hT, hcomp, hmelt⟩ := layout_facts d n_c melt
  have hPP : P2 = P := Option.some.inj (hP2.symm.trans hP)
  subst hPP
  obtain ⟨s_dim, s_melt, s_n, s_ci, s_comps, s_nonempty, s_in, s_disjoint, s_mci, s_vel,
    s_pr, s_temp, s_cv, s_mv⟩ := hs
  obtain ⟨vel, hvel⟩ := Option.isSome_iff_exists.mp s_vel
  cases hmc : melt with
  | false =>
    have hPd : P2 = d := by
      rw [hmc, setup_component_indices_no_melt] at hP2
      exact (Option.some.inj hP2).symm
    refine ⟨fun _ => none, fun _ _ => rfl, fun k h1 h2 => by omega, ?_⟩
    intro r4 _
    rw [s_melt, hmc, if_neg (by simp)]
    exact ⟨r4, rfl, rfl, fun k => by simp⟩
  | true =>
    obtain ⟨hP2e, hfp, hcp, hfv⟩ := hmelt hmc
    obtain ⟨m0, m1, m2⟩ := s_mci hmc
    simp only [Introspection.variable_first_component_index, s_ci] at m0 m1 m2
    simp only [String.reduceEq, if_true, if_false] at m0 m1 m2
    obtain ⟨hd1, hm0⟩ := hfv _ m0
    rw [hfp] at m1
    rw [hcp] at m2
    have hm1 : self.melt_component_indices.2.1 = d := (Option.some.inj m1).symm
    have hm2 : self.melt_component_indices.2.2 = d + 1 := (Option.some.inj m2).symm
    obtain ⟨fpv, hfpv⟩ := Option.isSome_iff_exists.mp (s_mv hmc).1
    obtain ⟨cpv, hcpv⟩ := Option.isSome_iff_exists.mp (s_mv hmc).2
    refine ⟨fun k => if k = d + 1 then some (cpv p 0) else if k = d then some (fpv p 0)
      else if d + 2 ≤ k ∧ k < d + 2 + d then some (vel p (k - (d + 2))) else none, ?_, ?_, ?_⟩
    · intro k hk
      dsimp only
      rw [if_neg (by omega), if_neg (by omega), if_neg (by omega)]
    · intro k h1 h2
      dsimp only
      by_cases hk1 : k = d + 1
      · exact ⟨_, if_pos hk1⟩
      · by_cases hk2 : k = d
        · exact ⟨_, by rw [if_neg hk1, if_pos hk2]⟩
        · exact ⟨_, by rw [if_neg hk1, if_neg hk2, if_pos (by omega)]⟩
    · intro r4 hr4
      obtain ⟨r5, hr5, hl5, hp5⟩ := get_solution_melt_pointwise self p r4 vel fpv cpv hvel
        hfpv hcpv (by rw [s_dim]; omega) (by omega) (by omega)
      refine ⟨r5, ?_, hl5, ?_⟩
      · rw [s_melt, hmc, if_pos rfl]
        exact hr5
      · intro k
        rw [hp5 k, hm0, hm1, hm2, s_dim]
        dsimp only
        by_cases hk1 : k = d + 1
        · rw [if_pos hk1, if_pos hk1]
          rfl
        · rw [if_neg hk1, if_neg hk1]
          by_cases hk2 : k = d
          · rw [if_pos hk2, if_pos hk2]
            rfl
          · rw [if_neg hk2, if_neg hk2]
            by_cases hk3 : d + 2 ≤ k ∧ k < d + 2 + d
            · rw [if_pos hk3, if_pos hk3]
              rfl
            · rw [if_neg hk3, if_neg hk3]
              rfl

theorem get_solution_determined {α : Type} (self : SolutionEvaluatorImplementation α)
    (d n_c : Nat) (melt : Bool) (comps : List (DynamicFEPointEvaluation α)) (p : Nat)
    (hs : evaluated_state self d n_c melt comps)
    (hcover : ∀ c ∈ (setup_component_indices d n_c melt).2.compositional_fields,
      ∃ e ∈ comps, in_chunk c e.chunk = true) :
    ∃ E : Nat → α, ∀ (debug : Bool) (buf : List α),
      self.simulator_access.introspection.n_components ≤ buf.length →
      (debug && (buf.length != self.simulator_access.introspection.n_components)) = false →
      ∃ out, self.get_solution debug p buf = .ok out ∧ out.length = buf.length
        ∧ ∀ k, out[k]? = if k < self.simulator_access.introspection.n_components
            then some (E k) else buf[k]? := by
  obtain ⟨P, hdP, hn, hvelidx, hP, hT, hcomp, hmelt⟩ := layout_facts d n_c melt
  obtain ⟨xm, hxm0, hxm1, hxm⟩ := melt_stage_determined self d n_c melt comps p hs P hP
  obtain ⟨s_dim, s_melt, s_n, s_ci, s_comps, s_nonempty, s_in, s_disjoint, s_mci, s_vel,
    s_pr, s_temp, s_cv, s_mv⟩ := hs
  obtain ⟨vel, hvel⟩ := Option.isSome_iff_exists.mp s_vel
  obtain ⟨pv, hpv0⟩ := Option.isSome_iff_exists.mp s_pr
  obtain ⟨pe, hpe, hpv⟩ := Option.bind_eq_some.mp hpv0
  obtain ⟨tv, htv⟩ := Option.isSome_iff_exists.mp s_temp
  have hchunk : ∀ e ∈ comps, ∀ k, in_chunk k e.chunk = true → P + 2 ≤ k ∧ k < P + 2 + n_c := by
    intro e he k hk
    have hmem := s_in e he k hk
    rw [hcomp] at hmem
    obtain ⟨i, hi, rfl⟩ := List.mem_map.mp hmem
    have := List.mem_range.mp hi
    omega
  refine ⟨fun k => if d ≤ k ∧ k < P then (xm k).getD (vel p 0)
    else if P + 2 ≤ k then
      ((comps.find? (fun e => in_chunk k e.chunk)).bind (fun e =>
        e.evaluation.values.map (fun v => v p (k - e.first_component)))).getD (vel p 0)
    else if k = P + 1 then tv p 0
    else if k = P then pv p 0
    else vel p k, ?_⟩
  intro debug buf hlen hb
  have hlen2 : P + 2 + n_c ≤ buf.length := by
    rw [s_n, hn] at hlen
    exact hlen
  obtain ⟨r1, hr1, hl1, hp1⟩ := write_loop
    (fun j => (setup_component_indices d n_c melt).2.velocities[j]?.join) 0 (vel p) buf d
    (by omega) (fun j hj => by rw [Nat.zero_add]; exact hvelidx j hj)
  obtain ⟨r2, hr2, hl2, hp2⟩ := write_one r1 P (pv p 0) (by omega)
  obtain ⟨r3, hr3, hl3, hp3⟩ := write_one r2 (P + 1) (tv p 0) (by omega)
  obtain ⟨r4, hr4, hl4, hun4, hin4⟩ := compositions_fold_ok debug p comps r3 s_cv
    (by
      intro e he
      have hpos := s_nonempty e he
      have h1 := hchunk e he (e.first_component + e.n_components - 1)
        ((in_chunk_iff _ _).mpr (by
          simp only [DynamicFEPointEvaluation.chunk]
          omega))
      omega)
    s_disjoint
  obtain ⟨out, hout, hlout, hpout⟩ := hxm r4 (by omega)
  refine ⟨out, ?_, by omega, ?_⟩
  · unfold SolutionEvaluatorImplementation.get_solution
    simp only [hb, s_dim, s_ci]
    rw [if_neg (by simp), pure_bind_except, get_value_ok _ p vel hvel, ok_bind, hr1, ok_bind,
      hpe, defined_some, ok_bind, hP, defined_some, ok_bind, get_value_ok _ p pv hpv, ok_bind,
      hr2, ok_bind, hT, defined_some, ok_bind, get_value_ok _ p tv htv, ok_bind, hr3, ok_bind,
      s_comps, hr4, ok_bind]
    exact hout
  · intro k
    rw [hpout k, s_n, hn]
    dsimp only
    have hnochunk : ¬ (P + 2 ≤ k ∧ k < P + 2 + n_c) → ∀ e ∈ comps, in_chunk k e.chunk = false := by
      intro hk e he
      by_contra hne
      exact hk (hchunk e he k (by simpa using hne))
    by_cases hkn : k < P + 2 + n_c
    · rw [if_pos hkn]
      by_cases hk1 : d ≤ k ∧ k < P
      · obtain ⟨v, hv⟩ := hxm1 k hk1.1 hk1.2
        rw [hv, if_pos (show (some v).isSome = true from rfl), if_pos hk1]
        rfl
      · rw [hxm0 k (by omega), if_neg (by simp), if_neg hk1]
        by_cases hk2 : P + 2 ≤ k
        · rw [if_pos hk2]
          obtain ⟨e0, he0, hin0⟩ := hcover k (by
            rw [hcomp]
            exact List.mem_map.mpr ⟨k - (P + 2), List.mem_range.mpr (by omega), by omega⟩)
          have hsome : (comps.find? (fun e => in_chunk k e.chunk)).isSome = true :=
            List.find?_isSome.mpr ⟨e0, he0, hin0⟩
          obtain ⟨e, hfind⟩ := Option.isSome_iff_exists.mp hsome
          have he : e ∈ comps := List.mem_of_find?_eq_some hfind
          have hin : in_chunk k e.chunk = true :=
            @List.find?_some _ (fun e : DynamicFEPointEvaluation α => in_chunk k e.chunk) e
              comps hfind
          obtain ⟨v, hv⟩ := Option.isSome_iff_exists.mp (s_cv e he)
          rw [hin4 e he k hin, hfind]
          simp only [Option.some_bind, hv, Option.map_some', Option.getD_some]
        · rw [if_neg hk2, hun4 k (hnochunk (by omega)), hp3 k]
          by_cases hk3 : k = P + 1
          · rw [if_pos hk3, if_pos hk3]
          · rw [if_neg hk3, if_neg hk3, hp2 k]
            by_cases hk4 : k = P
            · rw [if_pos hk4, if_pos hk4]
            · rw [if_neg hk4, if_neg hk4, hp1 k, if_pos (by omega), Nat.sub_zero]
    · rw [if_neg hkn, hxm0 k (by omega), if_neg (by simp), hun4 k (hnochunk (by omega)),
        hp3 k, if_neg (by omega), hp2 k, if_neg (by omega), hp1 k, if_neg (by omega)]

theorem count_range' (k s n : Nat) :
    (List.range' s n).count k = if s ≤ k ∧ k < s + n then 1 else 0 := by
  by_cases h : s ≤ k ∧ k < s + n
  · rw [if_pos h]
    exact List.count_eq_one_of_mem (List.nodup_range' s n) (List.mem_range'_1.mpr h)
  · rw [if_neg h]
    exact List.count_eq_zero_of_not_mem (fun hm => h (List.mem_range'_1.mp hm))

theorem count_chunks {α : Type} (k : Nat) : ∀ comps : List (DynamicFEPointEvaluation α),
    ((comps.map (fun e => List.range' e.first_component e.n_components)).flatten).count k
      = (comps.filter (fun e => in_chunk k e.chunk)).length := by
  intro comps
  induction comps with
  | nil => rfl
  | cons e rest ih =>
    rw [List.map_cons, List.flatten_cons, List.count_append, ih, count_range',
      List.filter_cons]
    by_cases h : in_chunk k e.chunk = true
    · have h2 := (in_chunk_iff k e.chunk).mp h
      simp only [DynamicFEPointEvaluation.chunk] at h2
      rw [if_pos h, if_pos h2, List.length_cons]
      omega
    · have h2 : ¬ (e.first_component ≤ k ∧ k < e.first_component + e.n_components) :=
        fun h3 => h ((in_chunk_iff k e.chunk).mpr h3)
      rw [if_neg h, if_neg h2]
      omega

theorem reduceOption_of_map_some {β : Type} : ∀ l : List β,
    (l.map some).reduceOption = l := by
  intro l
  induction l with
  | nil => rfl
  | cons x l ih => rw [List.map_cons, List.reduceOption_cons_of_some, ih]

theorem constructed_chunks_cover {α : Type} (debug : Bool) (d n_c : Nat) (melt : Bool)
    (sim : SimulatorAccess)
    (hci : sim.introspection.component_indices = (setup_component_indices d n_c melt).2)
    (hruns : partition_into_runs (sim.composition_base_element_indices.map
      sim.compositional_field_indices_with_base_element) n_c)
    (built : List (DynamicFEPointEvaluation α))
    (hbuilt : create_composition_evaluators debug sim = .ok (built.map some)) :
    ∀ c ∈ (setup_component_indices d n_c melt).2.compositional_fields,
      ((built.map DynamicFEPointEvaluation.chunk).filter (in_chunk c)).length = 1 := by
  rw [compositional_fields_eq]
  generalize hB : (if melt = true then 2 * d + 4 else d + 2) = B
  obtain ⟨new, hok, hcount⟩ := fold_run_groups debug B n_c
    sim.compositional_field_indices_with_base_element sim.composition_base_element_indices
    ([] : List (Option (DynamicFEPointEvaluation α))) hruns.1
  have hnew : new = built := by
    unfold create_composition_evaluators at hbuilt
    rw [hci, compositional_fields_eq, hB, hok, List.nil_append] at hbuilt
    have h := Except.ok.inj hbuilt
    have h2 := congrArg List.reduceOption h
    rw [reduceOption_of_map_some, reduceOption_of_map_some] at h2
    exact h2
  intro c hc
  obtain ⟨f, hf, rfl⟩ := List.mem_map.mp hc
  rw [← hnew, hcount f]
  exact hruns.2 f (List.mem_range.mp hf)

theorem written_slots_count {α : Type} (self : SolutionEvaluatorImplementation α)
    (d n_c : Nat) (melt : Bool) (comps : List (DynamicFEPointEvaluation α))
    (hs : evaluated_state self d n_c melt comps)
    (hcover : ∀ c ∈ (setup_component_indices d n_c melt).2.compositional_fields,
      ∃ e ∈ comps, in_chunk c e.chunk = true) (k : Nat) :
    self.written_slots.count k
      = if k < self.simulator_access.introspection.n_components then 1 else 0 := by
  obtain ⟨P, hdP, hn, hvelidx, hP, hT, hcomp, hmelt⟩ := layout_facts d n_c melt
  obtain ⟨s_dim, s_melt, s_n, s_ci, s_comps, s_nonempty, s_in, s_disjoint, s_mci, s_vel,
    s_pr, s_temp, s_cv, s_mv⟩ := hs
  have hvs : (List.range d).filterMap
      (fun j => (setup_component_indices d n_c melt).2.velocities[j]?.join) = List.range' 0 d := by
    rw [@List.filterMap_congr _ _ _ some (List.range d)
      (fun j hj => hvelidx j (List.mem_range.mp hj)), List.filterMap_some,
      List.range_eq_range']
  have hchunks : (comps.filter (fun e => in_chunk k e.chunk)).length
      = if P + 2 ≤ k ∧ k < P + 2 + n_c then 1 else 0 := by
    by_cases hk : P + 2 ≤ k ∧ k < P + 2 + n_c
    · rw [if_pos hk]
      obtain ⟨e, he, hin⟩ := hcover k (by
        rw [hcomp]
        exact List.mem_map.mpr ⟨k - (P + 2), List.mem_range.mpr (by omega), by omega⟩)
      have h1 := s_disjoint k
      have h2 : 0 < (comps.filter (fun e => in_chunk k e.chunk)).length :=
        List.length_pos_of_mem (List.mem_filter.mpr ⟨he, hin⟩)
      omega
    · rw [if_neg hk]
      apply List.length_eq_zero.mpr
      apply List.filter_eq_nil_iff.mpr
      intro e he hin
      have hmem := s_in e he k hin
      rw [hcomp] at hmem
      obtain ⟨i, hi, rfl⟩ := List.mem_map.mp hmem
      have := List.mem_range.mp hi
      omega
  unfold SolutionEvaluatorImplementation.written_slots
  simp only [s_dim, s_ci, s_comps, s_melt, hvs, hP, hT, Option.toList,
    reduceOption_of_map_some, s_n, hn]
  cases hmc : melt with
  | false =>
    have hPd : P = d := by
      rw [hmc, setup_component_indices_no_melt] at hP
      exact (Option.some.inj hP).symm
    rw [if_neg (by simp), List.append_nil, List.count_append, List.count_append,
      List.count_append, count_range', List.count_singleton, List.count_singleton,
      count_chunks, hchunks]
    simp only [beq_iff_eq]
    have hregion : k < d ∨ k = P ∨ k = P + 1 ∨ (P + 2 ≤ k ∧ k < P + 2 + n_c)
        ∨ P + 2 + n_c ≤ k := by omega
    rcases hregion with h | h | h | h | h <;>
      (repeat (first | rw [if_pos (by omega)] | rw [if_neg (by omega)]))
  | true =>
    obtain ⟨hP2e, hfp, hcp, hfv⟩ := hmelt hmc
    obtain ⟨m0, m1, m2⟩ := s_mci hmc
    simp only [Introspection.variable_first_component_index, s_ci] at m0 m1 m2
    simp only [String.reduceEq, if_true, if_false] at m0 m1 m2
    obtain ⟨hd1, hm0⟩ := hfv _ m0
    rw [hfp] at m1
    rw [hcp] at m2
    have hm1 : self.melt_component_indices.2.1 = d := (Option.some.inj m1).symm
    have hm2 : self.melt_component_indices.2.2 = d + 1 := (Option.some.inj m2).symm
    rw [if_pos rfl, hm0, hm1, hm2, ← List.range'_eq_map_range, List.count_append,
      List.count_append, List.count_append, List.count_append, List.count_append,
      count_range', count_range', List.count_singleton, List.count_singleton,
      count_chunks, hchunks, List.count_cons, List.count_singleton]
    simp only [beq_iff_eq]
    have hregion : k < d ∨ k = d ∨ k = d + 1 ∨ (d + 2 ≤ k ∧ k < P) ∨ k = P ∨ k = P + 1
        ∨ (P + 2 ≤ k ∧ k < P + 2 + n_c) ∨ P + 2 + n_c ≤ k := by omega
    rcases hregion with h | h | h | h | h | h | h | h <;>
      (repeat (first | rw [if_pos (by omega)] | rw [if_neg (by omega)]))

/-- C30: let the evaluator state belong to a configuration `(d, n_c, melt)` and
hold values, its composition chunks being those that the constructor builds for
groups that partition the composition fields into runs of consecutive fields.
Then (1) every slot below `n_components` occurs exactly once among the slots that
the assignments of `get_solution` name, and no other slot occurs: the slots of
velocity, pressure, temperature, the composition chunks and the melt fields are
pairwise disjoint and their union is `[0, n_components)`; (2) in debug and in
release builds the result of `get_solution` on a buffer of length `n_components`
does not depend on what the buffer held before; (3) a slot that is none of the
written slots keeps its content (in a release build, where a longer buffer is
accepted). -/
theorem get_solution_slots_partition {α : Type} (self : SolutionEvaluatorImplementation α)
    (d n_c : Nat) (melt : Bool) (comps : List (DynamicFEPointEvaluation α)) (p : Nat)
    (hs : evaluated_state self d n_c melt comps)
    (hruns : partition_into_runs (self.simulator_access.composition_base_element_indices.map
      self.simulator_access.compositional_field_indices_with_base_element) n_c)
    (debug0 : Bool) (built : List (DynamicFEPointEvaluation α))
    (hbuilt : create_composition_evaluators debug0 self.simulator_access
      = .ok (built.map some))
    (hchunks : comps.map DynamicFEPointEvaluation.chunk
      = built.map DynamicFEPointEvaluation.chunk) :
    (∀ k, self.written_slots.count k
        = if k < self.simulator_access.introspection.n_components then 1 else 0)
      ∧ (∀ (debug : Bool) (buf1 buf2 : List α),
          buf1.length = self.simulator_access.introspection.n_components →
          buf2.length = self.simulator_access.introspection.n_components →
          ∃ out, self.get_solution debug p buf1 = .ok out
            ∧ self.get_solution debug p buf2 = .ok out)
      ∧ (∀ buf : List α, self.simulator_access.introspection.n_components ≤ buf.length →
          ∃ out, self.get_solution false p buf = .ok out ∧ out.length = buf.length
            ∧ ∀ k, k ∉ self.written_slots → out[k]? = buf[k]?) := by
  have hcover : ∀ c ∈ (setup_component_indices d n_c melt).2.compositional_fields,
      ∃ e ∈ comps, in_chunk c e.chunk = true := by
    intro c hc
    have hs2 := hs
    obtain ⟨_, _, _, s_ci, _⟩ := hs2
    have h1 := constructed_chunks_cover debug0 d n_c melt self.simulator_access s_ci hruns
      built hbuilt c hc
    rw [← hchunks] at h1
    obtain ⟨ch, hch⟩ := List.exists_mem_of_length_pos (by omega :
      0 < ((comps.map DynamicFEPointEvaluation.chunk).filter (in_chunk c)).length)
    obtain ⟨hmem, hin⟩ := List.mem_filter.mp hch
    obtain ⟨e, he, rfl⟩ := List.mem_map.mp hmem
    exact ⟨e, he, hin⟩
  have hcount := written_slots_count self d n_c melt comps hs hcover
  obtain ⟨E, hE⟩ := get_solution_determined self d n_c melt comps p hs hcover
  refine ⟨hcount, ?_, ?_⟩
  · intro debug buf1 buf2 h1 h2
    obtain ⟨out1, hok1, hl1, hp1⟩ := hE debug buf1 (by omega) (by simp [h1])
    obtain ⟨out2, hok2, hl2, hp2⟩ := hE debug buf2 (by omega) (by simp [h2])
    have heq : out1 = out2 := by
      apply List.ext_getElem?
      intro k
      rw [hp1 k, hp2 k]
      by_cases hk : k < self.simulator_access.introspection.n_components
      · rw [if_pos hk, if_pos hk]
      · rw [if_neg hk, if_neg hk, List.getElem?_eq_none (by omega),
          List.getElem?_eq_none (by omega)]
    exact ⟨out1, hok1, by rw [hok2, heq]⟩
  · intro buf hlen
    obtain ⟨out, hok, hl, hp⟩ := hE false buf hlen rfl
    refine ⟨out, hok, hl, ?_⟩
    intro k hk
    have hc := hcount k
    rw [List.count_eq_zero_of_not_mem hk] at hc
    rw [hp k, if_neg (by
      intro hlt
      rw [if_pos hlt] at hc
      omega)]

theorem melt_composition_evaluated :
    evaluated_state melt_composition_evaluator 2 1 true [composition_chunk] :=
  { dim_eq := rfl
    melt_eq := rfl
    n_components_eq := by decide
    component_indices_eq := rfl
    compositions_eq := rfl
    chunks_nonempty := by
      intro e he
      rw [List.mem_singleton.mp he]
      decide
    chunks_in_compositions := by
      intro e he c hc
      rw [List.mem_singleton.mp he] at hc
      have h := (in_chunk_iff c composition_chunk.chunk).mp hc
      have hc8 : c = 8 := by
        simp only [DynamicFEPointEvaluation.chunk, composition_chunk] at h
        omega
      rw [hc8]
      decide
    chunks_disjoint := fun c => List.length_filter_le _ [composition_chunk]
    melt_indices := fun _ => ⟨by decide, by decide, by decide⟩
    velocity_values := rfl
    pressure_values := rfl
    temperature_values := rfl
    composition_values := by
      intro e he
      rw [List.mem_singleton.mp he]
      rfl
    melt_values := fun _ => ⟨rfl, rfl⟩ }

/-- The melt configuration with one composition field, whose only group is the
field 0: 9 components, each written once. -/
theorem get_solution_slots_partition_witness :
    (∀ k, melt_composition_evaluator.written_slots.count k
        = if k < melt_composition_evaluator.simulator_access.introspection.n_components
          then 1 else 0)
      ∧ (∀ (debug : Bool) (buf1 buf2 : List Nat),
          buf1.length = melt_composition_evaluator.simulator_access.introspection.n_components →
          buf2.length = melt_composition_evaluator.simulator_access.introspection.n_components →
          ∃ out, melt_composition_evaluator.get_solution debug 0 buf1 = .ok out
            ∧ melt_composition_evaluator.get_solution debug 0 buf2 = .ok out)
      ∧ (∀ buf : List Nat,
          melt_composition_evaluator.simulator_access.introspection.n_components ≤ buf.length →
          ∃ out, melt_composition_evaluator.get_solution false 0 buf = .ok out
            ∧ out.length = buf.length
            ∧ ∀ k, k ∉ melt_composition_evaluator.written_slots → out[k]? = buf[k]?) :=
  get_solution_slots_partition melt_composition_evaluator 2 1 true [composition_chunk] 0
    melt_composition_evaluated
    ⟨by
      intro g hg
      simp only [melt_composition_evaluator, melt_composition_simulator, List.map_cons,
        List.map_nil, List.mem_singleton] at hg
      exact ⟨0, 1, by decide, by decide, hg⟩,
     by
      intro f hf
      interval_cases f
      rfl⟩
    true [DynamicFEPointEvaluationImpl 1 8] rfl rfl

/-! ## The index of a name is the first position that holds it -/

theorem compositional_index_for_name_ok_iff (self : Introspection) (name : String) (i : Nat) :
    self.compositional_index_for_name name = .ok i
      ↔ self.composition_names[i]? = some name
        ∧ ∀ j, j < i → self.composition_names[j]? ≠ some name := by
  unfold Introspection.compositional_index_for_name
  dsimp only
  constructor
  · intro h
    by_cases hlen : std_find self.composition_names name = self.composition_names.length
    · rw [if_pos hlen] at h
      cases h
    · rw [if_neg hlen] at h
      have hi : std_find self.composition_names name = i := Except.ok.inj h
      have hmem : name ∈ self.composition_names := by
        by_contra hn
        exact hlen ((std_find_eq_length_iff _ _).mpr hn)
      rw [← hi]
      refine ⟨std_find_getElem _ _ hmem, ?_⟩
      intro j hj hjn
      have := std_find_first _ _ j hjn
      omega
  · rintro ⟨hi, hmin⟩
    have hmem : name ∈ self.composition_names := List.getElem?_mem hi
    have hle := std_find_first _ _ i hi
    have hfind : std_find self.composition_names name = i := by
      by_contra hne
      exact hmin _ (by omega) (std_find_getElem _ _ hmem)
    have hlt : i < self.composition_names.length := by
      by_contra hge
      rw [List.getElem?_eq_none (by omega)] at hi
      cases hi
    rw [if_neg (by omega), hfind]
    rfl

theorem name_for_compositional_index_ok (self : Introspection) (debug : Bool) (i : Nat)
    (h : i < self.composition_names.length) :
    self.name_for_compositional_index debug i = .ok self.composition_names[i] := by
  unfold Introspection.name_for_compositional_index
  rw [if_neg (by simp [h]), List.getElem?_eq_getElem h]
  rfl

/-- C33: `compositional_index_for_name(name)` returns `i` exactly when `i` is the
smallest index with `names[i] = name`; and the round trip
`compositional_index_for_name(name_for_compositional_index(i)) = i` holds for
every index `i` below the number of names, in debug and in release builds, if and
only if the declared composition names are pairwise distinct. -/
theorem compositional_index_smallest (self : Introspection) (debug : Bool) :
    (∀ name i, self.compositional_index_for_name name = .ok i
        ↔ self.composition_names[i]? = some name
          ∧ ∀ j, j < i → self.composition_names[j]? ≠ some name)
      ∧ ((∀ i, i < self.composition_names.length →
            (self.name_for_compositional_index debug i
              >>= self.compositional_index_for_name) = .ok i)
          ↔ self.composition_names.Nodup) := by
  refine ⟨compositional_index_for_name_ok_iff self, ?_⟩
  rw [List.nodup_iff_getElem?_ne_getElem?]
  constructor
  · intro h i j hij hj heq
    have hrt := h j hj
    rw [name_for_compositional_index_ok self debug j hj, ok_bind] at hrt
    have hmin := ((compositional_index_for_name_ok_iff self _ j).mp hrt).2 i hij
    rw [heq, List.getElem?_eq_getElem hj] at hmin
    exact hmin rfl
  · intro h i hi
    rw [name_for_compositional_index_ok self debug i hi, ok_bind]
    refine (compositional_index_for_name_ok_iff self _ i).mpr
      ⟨List.getElem?_eq_getElem hi, ?_⟩
    intro j hj heq
    rw [← List.getElem?_eq_getElem hi] at heq
    exact h j i hj hi heq

/-! ## Groups that are not runs of consecutive fields -/

theorem small_group_chunk {α : Type} (debug : Bool) (ci indices : List Nat)
    (acc : List (Option (DynamicFEPointEvaluation α)))
    (hn : 1 ≤ indices.length) (hn10 : indices.length ≤ 10)
    (hvalid : ∀ x ∈ indices, x < ci.length) :
    add_group_evaluators debug ci indices acc
      = .ok (acc ++ [some (DynamicFEPointEvaluationImpl indices.length
          (ci.getD (indices.getD 0 0) 0))]) := by
  rw [add_group_evaluators_eq debug ci indices acc hn hvalid]
  have h0 : (indices.length - 1) / 10 = 0 := by omega
  simp only [group_evaluator, h0]
  rfl

/-- C31: in the configuration with three composition fields whose fields 0 and 2
form one same-basis group and whose field 1 forms another, the constructor
records for the group `0, 2` the chunk that starts at component 4, the component
of field 0, and has width 2, the size of the group (as it does for every group of
at most ten declared fields: start at the component of the first field, width the
size).  This chunk contains component 5, which belongs to field 1 outside the
group, and misses component 6, which belongs to field 2 inside the group; the
chunk of the other group is component 5 again.  So the recorded chunks overlap in
component 5, no chunk contains component 6, and the chunks do not tile the
composition range `[4, 7)`; `get_solution` then leaves slot 6 as the buffer held
it. -/
theorem split_group_chunks :
    Introspection.construct 2 split_group_parameters true = .ok split_group_introspection
      ∧ split_group_simulator.introspection.component_indices.compositional_fields
          = [4, 5, 6]
      ∧ split_group_simulator.composition_base_element_indices.map
          split_group_simulator.compositional_field_indices_with_base_element
          = [[0, 2], [1]]
      ∧ (∃ ev : SolutionEvaluatorImplementation Nat,
          SolutionEvaluatorImplementation.construct true split_group_simulator 0 = .ok ev
            ∧ ev.compositions.map (Option.map DynamicFEPointEvaluation.chunk)
                = [some (4, 2), some (5, 1)]
            ∧ split_group_evaluator.compositions.map
                (Option.map DynamicFEPointEvaluation.chunk) = [some (4, 2), some (5, 1)])
      ∧ (∀ debug, (create_composition_evaluators debug split_group_simulator :
            Except Exc (List (Option (DynamicFEPointEvaluation Nat))))
          = .ok [some (DynamicFEPointEvaluationImpl 2 4),
              some (DynamicFEPointEvaluationImpl 1 5)])
      ∧ in_chunk 5 (4, 2) = true
      ∧ in_chunk 6 (4, 2) = false
      ∧ in_chunk 5 (5, 1) = true
      ∧ ([(4, 2), (5, 1)].filter (in_chunk 5)).length = 2
      ∧ ([(4, 2), (5, 1)].filter (in_chunk 6)).length = 0
      ∧ ¬ tiles [(4, 2), (5, 1)] 4 7
      ∧ ¬ tiles [(5, 1), (4, 2)] 4 7
      ∧ split_group_evaluator.get_solution true 0 (List.replicate 7 0)
          = .ok [1, 2, 3, 4, 10, 11, 0]
      ∧ split_group_evaluator.get_solution true 0 (List.replicate 7 99)
          = .ok [1, 2, 3, 4, 10, 11, 99]
      ∧ (∀ (α : Type) (debug : Bool) (ci indices : List Nat)
          (acc : List (Option (DynamicFEPointEvaluation α))),
          1 ≤ indices.length → indices.length ≤ 10 → (∀ x ∈ indices, x < ci.length) →
          add_group_evaluators debug ci indices acc
            = .ok (acc ++ [some (DynamicFEPointEvaluationImpl indices.length
                (ci.getD (indices.getD 0 0) 0))])) := by
  refine ⟨rfl, rfl, rfl, ⟨_, rfl, rfl, rfl⟩, ?_, rfl, rfl, rfl, rfl, rfl, ?_, ?_, rfl, rfl, ?_⟩
  · intro debug
    cases debug <;> rfl
  · intro h
    exact absurd h.2.2.1 (by decide)
  · intro h
    exact absurd h.1 (by decide)
  · intro α debug ci indices acc hn hn10 hvalid
    exact small_group_chunk debug ci indices acc hn hn10 hvalid

/-! ## A group without fields -/

theorem foldlM_error_of_mem {β σ : Type} (f : σ → β → Except Exc σ) (b : β)
    (hb : ∀ s, ∃ e, f s b = .error e) :
    ∀ (l : List β) (s : σ), b ∈ l → ∃ e, l.foldlM f s = .error e := by
  intro l
  induction l with
  | nil =>
    intro s h
    cases h
  | cons x l ih =>
    intro s h
    rw [List.foldlM_cons]
    cases hx : f s x with
    | error e => exact ⟨e, rfl⟩
    | ok s2 =>
      rcases List.mem_cons.mp h with hbx | hbl
      · obtain ⟨e, he⟩ := hb s
        rw [hbx, hx] at he
        cases he
      · exact ih s2 hbl

theorem chunk_while_with_make {α : Type} (debug : Bool) (ci : List Nat) :
    ∀ (bound : Nat) (indices : List Nat) (acc : List (Option (DynamicFEPointEvaluation α))),
    chunk_while debug ci bound indices acc
      = chunk_while_with (make debug) ci bound indices acc := by
  intro bound
  induction bound with
  | zero =>
    intro indices acc
    rfl
  | succ bound ih =>
    intro indices acc
    simp only [chunk_while, chunk_while_with, ih]

theorem add_group_evaluators_with_make {α : Type} (debug : Bool) (ci indices : List Nat)
    (acc : List (Option (DynamicFEPointEvaluation α))) :
    add_group_evaluators debug ci indices acc
      = add_group_evaluators_with (make debug) ci indices acc := by
  simp only [add_group_evaluators, add_group_evaluators_with, chunk_while_with_make]

theorem small_group_with {α : Type}
    (dispatcher : Nat → Int → Except Exc (Option (DynamicFEPointEvaluation α)))
    (ci indices : List Nat) (acc : List (Option (DynamicFEPointEvaluation α)))
    (hn : 1 ≤ indices.length) (hn10 : indices.length ≤ 10)
    (hvalid : ∀ x ∈ indices, x < ci.length) :
    add_group_evaluators_with dispatcher ci indices acc
      = (dispatcher (ci.getD (indices.getD 0 0) 0) (indices.length : Int)
          >>= fun e => pure (acc ++ [e])) := by
  have hloop : ∀ bound, chunk_while_with dispatcher ci bound indices acc
      = .ok (indices, acc) := by
    intro bound
    cases bound with
    | zero => rfl
    | succ bound =>
      unfold chunk_while_with
      rw [if_neg (by
        unfold N
        omega)]
      rfl
  obtain ⟨x, rest, hx⟩ : ∃ x rest, indices = x :: rest := by
    cases indices with
    | nil => simp at hn
    | cons x rest => exact ⟨x, rest, rfl⟩
  have hxlt : x < ci.length := hvalid x (by rw [hx]; exact List.mem_cons_self _ _)
  unfold add_group_evaluators_with
  rw [hloop, ok_bind]
  dsimp only
  rw [hx, List.getElem?_cons_zero, defined_some, ok_bind, List.getElem?_eq_getElem hxlt,
    defined_some, ok_bind, List.getD_cons_zero, List.getD_eq_getElem?_getD,
    List.getElem?_eq_getElem hxlt]
  rfl

/-- C32, counterexample: for a group without fields the constructor does not
request anything from `make`.  In a debug build `make` fails with NotImplemented
at cardinality 0, but the chunking of the empty group ends with the undefined read
of `indices[0]`, an argument of the call, and it does so whatever function stands
in the place of `make`: the call is not reached. -/
theorem empty_group_stops_before_make :
    (make true 4 0 : Except Exc (Option (DynamicFEPointEvaluation Nat)))
        = .error Exc.ExcNotImplemented
      ∧ add_group_evaluators true [4] []
          ([] : List (Option (DynamicFEPointEvaluation Nat))) = .error Exc.Undefined
      ∧ add_group_evaluators true [4] []
          ([] : List (Option (DynamicFEPointEvaluation Nat))) ≠ .error Exc.ExcNotImplemented
      ∧ (∀ debug, add_group_evaluators debug [4] []
            ([] : List (Option (DynamicFEPointEvaluation Nat)))
          = add_group_evaluators_with (make debug) [4] [] [])
      ∧ (∀ dispatcher : Nat → Int → Except Exc (Option (DynamicFEPointEvaluation Nat)),
          add_group_evaluators_with dispatcher [4] [] [] = .error Exc.Undefined) := by
  refine ⟨rfl, rfl, ?_, fun debug => add_group_evaluators_with_make debug _ _ _,
    fun _ => rfl⟩
  intro h
  have h2 : add_group_evaluators true [4] []
      ([] : List (Option (DynamicFEPointEvaluation Nat))) = .error Exc.Undefined := rfl
  rw [h2] at h
  cases h

/-- C32 (amended): for a group without fields the chunking of the constructor
does not leave the list of evaluators as it is.  The `while` loop is skipped, the
list of indices being empty; the statement after it reads `indices[0]`, the first
entry of the empty list, to form an argument of its call of `make`; this read is
undefined, and the execution ends there, whatever `make` would do: `make` is not
called.  The cardinality argument of that call is `indices.size()` (for every
group of one to ten declared fields the call is `make(component of the first
field, size of the group)`), which is 0 for the empty group, the default case of
`make`: NotImplemented in a debug build, the null pointer in a release build.  So
the block that creates the composition evaluators has no defined result when some
base element has no fields, and the constructor does not return an object. -/
theorem empty_group_chunking {α : Type} (debug : Bool) (ci : List Nat)
    (acc : List (Option (DynamicFEPointEvaluation α))) :
    chunk_while debug ci ([] : List Nat).length [] acc = .ok ([], acc)
      ∧ add_group_evaluators debug ci [] acc = .error Exc.Undefined
      ∧ add_group_evaluators debug ci [] acc ≠ .ok acc
      ∧ (∀ indices, add_group_evaluators debug ci indices acc
          = add_group_evaluators_with (make debug) ci indices acc)
      ∧ (∀ dispatcher : Nat → Int → Except Exc (Option (DynamicFEPointEvaluation α)),
          add_group_evaluators_with dispatcher ci [] acc = .error Exc.Undefined)
      ∧ (∀ (dispatcher : Nat → Int → Except Exc (Option (DynamicFEPointEvaluation α)))
          (indices : List Nat), 1 ≤ indices.length → indices.length ≤ 10 →
          (∀ x ∈ indices, x < ci.length) →
          add_group_evaluators_with dispatcher ci indices acc
            = (dispatcher (ci.getD (indices.getD 0 0) 0) (indices.length : Int)
                >>= fun e => pure (acc ++ [e])))
      ∧ (∀ first, (make debug first (([] : List Nat).length : Int) :
            Except Exc (Option (DynamicFEPointEvaluation α)))
          = if debug then .error Exc.ExcNotImplemented else .ok none)
      ∧ (∀ (sim : SimulatorAccess) (update_flags : Nat),
          (∃ b ∈ sim.composition_base_element_indices,
            sim.compositional_field_indices_with_base_element b = []) →
          (∃ e, (create_composition_evaluators debug sim :
              Except Exc (List (Option (DynamicFEPointEvaluation α)))) = .error e)
            ∧ ∀ ev : SolutionEvaluatorImplementation α,
                SolutionEvaluatorImplementation.construct debug sim update_flags ≠ .ok ev) := by
  have hgroup : ∀ (ci2 : List Nat) (acc2 : List (Option (DynamicFEPointEvaluation α))),
      add_group_evaluators debug ci2 [] acc2 = .error Exc.Undefined := fun _ _ => rfl
  refine ⟨rfl, hgroup ci acc, ?_, fun indices => add_group_evaluators_with_make debug _ _ _,
    fun _ => rfl, fun dispatcher indices hn hn10 hvalid =>
      small_group_with dispatcher ci indices acc hn hn10 hvalid, ?_, ?_⟩
  · rw [hgroup]
    intro h
    cases h
  · intro first
    exact make_default debug first _ (Or.inl (by decide))
  · intro sim update_flags hb
    obtain ⟨b, hbmem, hbempty⟩ := hb
    have hcreate : ∃ e, (create_composition_evaluators debug sim :
        Except Exc (List (Option (DynamicFEPointEvaluation α)))) = .error e := by
      unfold create_composition_evaluators
      apply foldlM_error_of_mem _ b _ _ _ hbmem
      intro s
      rw [hbempty]
      exact ⟨_, hgroup _ s⟩
    refine ⟨hcreate, ?_⟩
    intro ev hev
    obtain ⟨e, he⟩ := hcreate
    have hok := (construct_paths debug sim update_flags ev hev).2.1
    rw [he] at hok
    cases hok

end aspect
